import Mathlib

/-!
# Streaming decoder of `ccnd/lib/ccn_coding.c`

A shallow embedding of `ccn_decoder_decode` and of the helpers it uses
(`ccn_decoder_push`, `ccn_decoder_pop`), followed by theorems about it.

Conventions of the embedding.

* Bytes (`unsigned char`) are natural numbers; an input array is a list of
  them and the theorems assume `b < 256` where the value of a byte matters.
* `size_t` and `unsigned long` are `Nat` reduced modulo `2 ^ size_bits`,
  `uintmax_t` and `unsigned long long` modulo `2 ^ max_bits`.
* `printf` appends to an explicit output, a list of bytes.
* Allocation never fails (`calloc`, `ccn_charbuf_reserve`).
* The header `<ccn/coding.h>` is not part of the sources at hand: the values
  of `CCN_CLOSE`, `CCN_TAG`, ... are parameters, collected in `Config`.
-/

namespace CcnCoding

/-! ## Parameters -/

/-- The constants of `<ccn/coding.h>` and the widths of the integer types. -/
structure Config where
  CCN_CLOSE : Nat
  CCN_TAG : Nat
  CCN_ATTR : Nat
  CCN_BLOB : Nat
  CCN_UDATA : Nat
  CCN_INTVAL : Nat
  /-- number of bits of `size_t` (and of `unsigned long`) -/
  size_bits : Nat
  /-- number of bits of `uintmax_t` (and of `unsigned long long`) -/
  max_bits : Nat
  deriving DecidableEq

/-- What the source relies on: `CCN_CLOSE` is the byte zero, the five
tag-kinds are distinct `case` labels that fit the four low bits of a header
byte and none of them is the byte `CCN_CLOSE` (`test1` writes the header
`(0 << 4) + CCN_TAG`), `size_t` has at least 16 bits and `uintmax_t` is at
least as wide as `size_t`. -/
def Config.ok (cfg : Config) : Prop :=
  cfg.CCN_CLOSE = 0 ∧
  [cfg.CCN_TAG, cfg.CCN_ATTR, cfg.CCN_BLOB, cfg.CCN_UDATA, cfg.CCN_INTVAL].Nodup ∧
  (∀ k ∈ [cfg.CCN_TAG, cfg.CCN_ATTR, cfg.CCN_BLOB, cfg.CCN_UDATA, cfg.CCN_INTVAL],
    0 < k ∧ k < 16) ∧
  16 ≤ cfg.size_bits ∧ cfg.size_bits ≤ cfg.max_bits

instance (cfg : Config) : Decidable cfg.ok := by
  unfold Config.ok; infer_instance

/-- A 64-bit target (LP64) with one choice of tag-kind values. -/
def cfg64 : Config :=
  { CCN_CLOSE := 0, CCN_TAG := 1, CCN_ATTR := 2, CCN_BLOB := 3, CCN_UDATA := 4,
    CCN_INTVAL := 5, size_bits := 64, max_bits := 64 }

/-- A 32-bit target (ILP32) with the same tag-kind values. -/
def cfg32 : Config :=
  { CCN_CLOSE := 0, CCN_TAG := 1, CCN_ATTR := 2, CCN_BLOB := 3, CCN_UDATA := 4,
    CCN_INTVAL := 5, size_bits := 32, max_bits := 64 }

/-! ## Data model -/

/-- Embedding of `struct ccn_decoder_stack_item` (the `link` field is the tail of the list
that holds the item). -/
structure ccn_decoder_stack_item where
  nameindex : Nat
  itemcount : Nat
  savedss : Nat
  deriving DecidableEq

/-- Modelled from the spec: `struct ccn_charbuf` of `<ccn/charbuf.h>`, the
"append-only growable byte buffer" of the name arena. The list holds the
bytes `buf[0 .. length)`. -/
abbrev ccn_charbuf := List Nat

/-- Modelled from the spec: `ccn_charbuf_append`, which grows the buffer at
the tail only. -/
def ccn_charbuf_append (c : ccn_charbuf) (bytes : List Nat) : ccn_charbuf :=
  c ++ bytes

/-- Embedding of `struct ccn_decoder`. -/
structure ccn_decoder where
  state : Int
  tagstate : Int
  bits : Nat
  numval : Nat
  bignumval : Nat
  stack : List ccn_decoder_stack_item
  stringstack : ccn_charbuf
  deriving DecidableEq

/-- Embedding of `ccn_decoder_create`: `calloc` zeroes every field and the string stack
is a fresh, empty buffer. -/
def ccn_decoder_create : ccn_decoder :=
  { state := 0, tagstate := 0, bits := 0, numval := 0, bignumval := 0,
    stack := [], stringstack := [] }

/-- Embedding of `ccn_decoder_push`: a zeroed item whose `savedss` is the current length
of the string stack, linked on top. -/
def ccn_decoder_push (d : ccn_decoder) : ccn_decoder :=
  { d with stack :=
      { nameindex := 0, itemcount := 0, savedss := d.stringstack.length } :: d.stack }

/-- Embedding of `ccn_decoder_pop`: unlink the top item and set the length of the string
stack back to its `savedss`; nothing happens on an empty stack. -/
def ccn_decoder_pop (d : ccn_decoder) : ccn_decoder :=
  match d.stack with
  | [] => d
  | s :: link => { d with stack := link, stringstack := d.stringstack.take s.savedss }

/-- The store `s->nameindex = v` through the pointer to the top item. -/
def set_nameindex (d : ccn_decoder) (v : Nat) : ccn_decoder :=
  match d.stack with
  | [] => d
  | s :: link => { d with stack := { s with nameindex := v } :: link }

/-- The store `s->itemcount = v` through the pointer to the top item. -/
def set_itemcount (d : ccn_decoder) (v : Nat) : ccn_decoder :=
  match d.stack with
  | [] => d
  | s :: link => { d with stack := { s with itemcount := v } :: link }

/-! ## Helpers standing for C library behaviour -/

/-- The bytes of an ASCII string literal. -/
def lit (s : String) : List Nat := s.toList.map Char.toNat

/-- The C string that starts at `buf`: the bytes before the first zero. -/
def cstr (buf : List Nat) : List Nat := buf.takeWhile (fun b => b != 0)

/-- Embedding of `strlen`. -/
def strlen (buf : List Nat) : Nat := (cstr buf).length

/-- Digits of `v` in base 10, most significant first, pushed on `acc`. -/
def decimalAux : Nat → Nat → List Nat → List Nat
  | 0, _, acc => acc
  | fuel + 1, v, acc =>
    if v < 10 then (48 + v) :: acc
    else decimalAux fuel (v / 10) ((48 + v % 10) :: acc)

/-- What `printf("%lu", v)` and `printf("%llu", v)` write. -/
def decimal (v : Nat) : List Nat := decimalAux (v + 1) v []

/-- One lower-case hexadecimal digit. -/
def hexdigit (v : Nat) : Nat := if v < 10 then 48 + v else 87 + v

/-- What `printf("%02x", c)` writes for a byte `c`. -/
def hex02 (c : Nat) : List Nat := [hexdigit (c / 16), hexdigit (c % 16)]

/-- The table `Base64` (the terminating zero of the literal is what `getD`
returns past the end). -/
def Base64 : List Nat :=
  lit "ABCDEFGHIJKLMNOPQRSTUVWXYZabcdefghijklmnopqrstuvwxyz0123456789+/"

/-- Embedding of `Base64[i]`. -/
def Base64At (i : Nat) : Nat := Base64.getD i 0

/-! ## The decoding loop -/

/-- The variables that live during one call of `ccn_decoder_decode`: the
decoder `d` (through which `bits`, `bignumval`, `stack` and `stringstack`
are updated), the locals `state`, `tagstate`, `numval`, `i`, the parameter
`n` (assigned by the `default` case) and the output written so far. -/
structure Loop where
  d : ccn_decoder
  state : Int
  tagstate : Int
  numval : Nat
  i : Nat
  n : Nat
  out : List Nat
  deriving DecidableEq

/-- The shift `x << k` on an unsigned type of `bits` bits. -/
def shl (bits x k : Nat) : Nat := (x <<< k) % 2 ^ bits

/-- Embedding of `printf`: the bytes are appended to the output. -/
def Loop.print (L : Loop) (s : List Nat) : Loop := { L with out := L.out ++ s }

/-- The inner `switch (c)` of `case 1`, after `numval` and `c &= 15` have
been computed and the pending `>` has been written. -/
def dispatch (cfg : Config) (L : Loop) (c : Nat) : Loop :=
  if c = cfg.CCN_INTVAL then
    { L.print (decimal L.numval) with state := 0 }
  else if c = cfg.CCN_BLOB then
    { L with state := if L.numval = 0 then 0 else 10 }
  else if c = cfg.CCN_UDATA then
    { L with state := if L.numval = 0 then 0 else 3 }
  else if c = cfg.CCN_ATTR ∧ L.tagstate ≠ 1 then
    { L with state := -154 }
  else if c = cfg.CCN_ATTR ∨ c = cfg.CCN_TAG then
    let numval : Nat := (L.numval + 1) % 2 ^ cfg.size_bits
    let d := ccn_decoder_push L.d
    { L with
        numval := numval
        d := set_nameindex d d.stringstack.length
        state := if c = cfg.CCN_TAG then 4 else 5 }
  else
    { L with state := -166 }

/-- Embedding of `case 1: parsing numval`. -/
def case1 (cfg : Config) (p : List Nat) (L : Loop) : Loop :=
  let c : Nat := p.getD L.i 0
  let L : Loop := { L with i := L.i + 1 }
  if c ≠ c &&& 127 then
    if L.numval > shl cfg.size_bits L.numval 7 then
      { L with state := 9, d := { L.d with bignumval := L.numval % 2 ^ cfg.max_bits },
               i := L.i - 1 }
    else
      let numval : Nat := (shl cfg.size_bits L.numval 7 + (c &&& 127)) % 2 ^ cfg.size_bits
      if numval > shl cfg.size_bits numval 3 then
        { L with numval := numval, state := 9,
                 d := { L.d with bignumval := numval % 2 ^ cfg.max_bits } }
      else
        { L with numval := numval }
  else
    let numval : Nat := (shl cfg.size_bits L.numval 3 + (c >>> 4)) % 2 ^ cfg.size_bits
    let c : Nat := c &&& 15
    let L : Loop := { L with numval := numval }
    let L : Loop := if L.tagstate = 1 ∧ c ≠ cfg.CCN_ATTR then
               { L.print (lit ">") with tagstate := 0 }
             else L
    dispatch cfg L c

/-- The head of `case 0`: `if (tagstate > 1 && tagstate-- == 2)` closes off
an attribute value. -/
def case0_quote (L : Loop) : Loop :=
  if L.tagstate > 1 then
    if L.tagstate = 2 then
      { L.print [34] with tagstate := L.tagstate - 1, d := ccn_decoder_pop L.d }
    else
      { L with tagstate := L.tagstate - 1 }
  else L

/-- The branch `p[i] == CCN_CLOSE` of `case 0`. -/
def case0_close (L : Loop) : Loop :=
  let L : Loop := { L with i := L.i + 1 }
  match L.d.stack with
  | [] => { L with state := -103 }
  | s :: _ =>
    if L.tagstate > 1 then { L with state := -103 }
    else if L.tagstate = 1 then
      { L.print (lit "/>") with tagstate := 0, d := ccn_decoder_pop L.d }
    else
      { L.print (lit "</" ++ cstr (L.d.stringstack.drop s.nameindex) ++ lit ">") with
          d := ccn_decoder_pop L.d }

/-- Embedding of `case 0: start new thing`, which falls through to `case 1` when the
byte is not `CCN_CLOSE`. -/
def case0 (cfg : Config) (p : List Nat) (L : Loop) : Loop :=
  let L : Loop := case0_quote L
  if p.getD L.i 0 = cfg.CCN_CLOSE then case0_close L
  else case1 cfg p { L with numval := 0, state := 1 }

/-- Embedding of `case 2: hex BLOB`. -/
def case2 (cfg : Config) (p : List Nat) (L : Loop) : Loop :=
  let c : Nat := p.getD L.i 0
  let L : Loop := { L.print (hex02 c) with i := L.i + 1 }
  let numval : Nat := (L.numval + (2 ^ cfg.size_bits - 1)) % 2 ^ cfg.size_bits
  { L with numval := numval, state := if numval = 0 then 0 else L.state }

/-- Embedding of `case 3: utf-8 data`. The case of the byte `>` has no `break` and runs on
into the case of the double quote. -/
def case3 (cfg : Config) (p : List Nat) (L : Loop) : Loop :=
  let c : Nat := p.getD L.i 0
  let L : Loop := { L with i := L.i + 1 }
  let numval : Nat := (L.numval + (2 ^ cfg.size_bits - 1)) % 2 ^ cfg.size_bits
  let L : Loop := { L with numval := numval, state := if numval = 0 then 0 else L.state }
  if c = 0 then { L with state := -184 }
  else if c = 38 then L.print (lit "&amp;")
  else if c = 60 then L.print (lit "&lt;")
  else if c = 62 then (L.print (lit "&gt;")).print (lit "&quot;")
  else if c = 34 then L.print (lit "&quot;")
  else L.print [c]

/-- The block `if (numval == 0)` of `case 4` and `case 5`: the name is
complete. -/
def name_done (L : Loop) : Loop :=
  let d := { L.d with stringstack := ccn_charbuf_append L.d.stringstack [0] }
  let L : Loop := { L with d := d }
  match d.stack with
  | [] => { L with state := -220 }
  | s :: _ =>
    if strlen (d.stringstack.drop s.nameindex)
        ≠ d.stringstack.length - 1 - s.nameindex then
      { L with state := -220 }
    else
      let L : Loop := { L with d := set_itemcount d 1 }
      let name := cstr (d.stringstack.drop s.nameindex)
      if L.state = 4 then
        { L.print (lit "<" ++ name) with tagstate := 1, state := 0 }
      else
        { L.print (lit " " ++ name ++ [61, 34]) with tagstate := 3, state := 0 }

/-- Embedding of `case 4: parsing tag name` and `case 5: parsing attribute name`. -/
def case45 (p : List Nat) (L : Loop) : Loop :=
  let chunk := if L.n - L.i > L.numval then L.numval else L.n - L.i
  if chunk = 0 then { L with state := -208 }
  else
    let d := { L.d with
      stringstack := ccn_charbuf_append L.d.stringstack ((p.drop L.i).take chunk) }
    let L : Loop := { L with d := d, numval := L.numval - chunk, i := L.i + chunk }
    if L.numval = 0 then name_done L else L

/-- Embedding of `case 9: parsing big numval`. -/
def case9 (cfg : Config) (p : List Nat) (L : Loop) : Loop :=
  let c : Nat := p.getD L.i 0
  let L : Loop := { L with i := L.i + 1 }
  if c ≠ c &&& 127 then
    { L with d := { L.d with
        bignumval := (shl cfg.max_bits L.d.bignumval 7 + (c &&& 127)) % 2 ^ cfg.max_bits } }
  else
    let big := (shl cfg.max_bits L.d.bignumval 3 + (c >>> 4)) % 2 ^ cfg.max_bits
    let c : Nat := c &&& 15
    let L : Loop := { L with d := { L.d with bignumval := big } }
    let L : Loop := if L.tagstate = 1 then { L.print (lit ">") with tagstate := 0 } else L
    if c = cfg.CCN_INTVAL then { L.print (decimal big) with state := 0 }
    else { L with state := -253 }

/-- Embedding of `case 10: base 64 BLOB - phase 0`. -/
def case10 (cfg : Config) (p : List Nat) (L : Loop) : Loop :=
  let c : Nat := p.getD L.i 0
  let L : Loop := { L.print [Base64At (c >>> 2)] with i := L.i + 1 }
  let numval : Nat := (L.numval + (2 ^ cfg.size_bits - 1)) % 2 ^ cfg.size_bits
  let L : Loop := { L with numval := numval }
  if numval = 0 then
    { L.print [Base64At ((c &&& 3) <<< 4), 61, 61] with state := 0 }
  else
    { L with d := { L.d with bits := c &&& 3 }, state := 11 }

/-- Embedding of `case 11: base 64 BLOB - phase 1`. -/
def case11 (cfg : Config) (p : List Nat) (L : Loop) : Loop :=
  let c : Nat := p.getD L.i 0
  let L : Loop := { L.print [Base64At (((L.d.bits &&& 3) <<< 4) + (c >>> 4))] with i := L.i + 1 }
  let numval : Nat := (L.numval + (2 ^ cfg.size_bits - 1)) % 2 ^ cfg.size_bits
  let L : Loop := { L with numval := numval }
  if numval = 0 then
    { L.print [Base64At ((c &&& 15) <<< 2), 61] with state := 0 }
  else
    { L with d := { L.d with bits := c &&& 15 }, state := 12 }

/-- Embedding of `case 12: base 64 BLOB - phase 2`. -/
def case12 (cfg : Config) (p : List Nat) (L : Loop) : Loop :=
  let c : Nat := p.getD L.i 0
  let L : Loop := { L.print [Base64At (((L.d.bits &&& 15) <<< 2) + (c >>> 6)),
                      Base64At (c &&& 63)] with i := L.i + 1 }
  let numval : Nat := (L.numval + (2 ^ cfg.size_bits - 1)) % 2 ^ cfg.size_bits
  { L with numval := numval, state := if numval = 0 then 0 else 10 }

/-- One pass through the body of `while (i < n) switch (state)`. -/
def body (cfg : Config) (p : List Nat) (L : Loop) : Loop :=
  if L.state = 0 then case0 cfg p L
  else if L.state = 1 then case1 cfg p L
  else if L.state = 2 then case2 cfg p L
  else if L.state = 3 then case3 cfg p L
  else if L.state = 4 ∨ L.state = 5 then case45 p L
  else if L.state = 9 then case9 cfg p L
  else if L.state = 10 then case10 cfg p L
  else if L.state = 11 then case11 cfg p L
  else if L.state = 12 then case12 cfg p L
  else { L with n := L.i }

/-- The `while (i < n)` loop, bounded by `fuel` passes. -/
def loop (cfg : Config) (p : List Nat) : Nat → Loop → Loop
  | 0, L => L
  | fuel + 1, L => if L.i < L.n then loop cfg p fuel (body cfg p L) else L

/-- The locals at the entry of `ccn_decoder_decode`; `tagstate` starts at
`0` whatever `d->tagstate` holds. -/
def enter (d : ccn_decoder) (p : List Nat) : Loop :=
  { d := d, state := d.state, tagstate := 0, numval := d.numval, i := 0,
    n := p.length, out := [] }

/-- The result of a call: the decoder after the call, the returned count
and the bytes written to the standard output. -/
structure Result where
  d : ccn_decoder
  ret : Nat
  out : List Nat
  deriving DecidableEq

/-- The three stores after the loop and the `return(i)`. -/
def leave (L : Loop) : Result :=
  { d := { L.d with state := L.state, tagstate := L.tagstate, numval := L.numval },
    ret := L.i, out := L.out }

/-- Embedding of `ccn_decoder_decode(d, p, n)` with `n` the length of `p`. No pass of the
loop leaves both `i` and `state` as they were, and `3 * n + 3` passes are
always enough (`loop_halts`). -/
def ccn_decoder_decode (cfg : Config) (d : ccn_decoder) (p : List Nat) : Result :=
  leave (loop cfg p (3 * p.length + 3) (enter d p))

/-- The array `test1`. -/
def test1 (cfg : Config) : List Nat :=
  [ (2 <<< 4) + cfg.CCN_TAG, 70, 111, 111,
    (0 <<< 4) + cfg.CCN_TAG, 97,
    (1 <<< 4) + cfg.CCN_UDATA, 88,
    cfg.CCN_CLOSE,
    (0 <<< 4) + cfg.CCN_TAG, 98,
    (3 <<< 4) + cfg.CCN_ATTR, 116, 121, 112, 101,
    (5 <<< 4) + cfg.CCN_UDATA, 101, 109, 112, 116, 121,
    cfg.CCN_CLOSE,
    (2 <<< 4) + cfg.CCN_TAG, 98, 105, 110,
    (4 <<< 4) + cfg.CCN_BLOB, 1, 0x23, 0x45, 0x67,
    cfg.CCN_CLOSE,
    (2 <<< 4) + cfg.CCN_TAG, 105, 110, 116,
    128 + 42 / 8,
    ((42 % 8) <<< 4) + cfg.CCN_INTVAL,
    cfg.CCN_CLOSE,
    (2 <<< 4) + cfg.CCN_TAG, 105, 110, 116,
    (3 <<< 4) + cfg.CCN_ATTR, 116, 121, 112, 101,
    (3 <<< 4) + cfg.CCN_UDATA, 66, 73, 71,
    129, 130, 131, 132, 133, 134, 135, 136, (1 <<< 4) + cfg.CCN_INTVAL,
    cfg.CCN_CLOSE,
    (6 <<< 4) + cfg.CCN_UDATA,
    72, 105, 38, 98, 121, 101,
    cfg.CCN_CLOSE ]

/-! ## Termination of the loop -/


/-- Passes that a state may still take without consuming a byte. -/
def slack (s : Int) : Nat :=
  if s = 0 ∨ s = 1 ∨ s = 4 ∨ s = 5 then 2 else if s = 9 then 1 else 0

/-- A bound on the number of passes still to come. -/
def mu (L : Loop) : Nat := 3 * (L.n - L.i) + slack L.state

/-- The loop to its end. -/
def run (cfg : Config) (p : List Nat) (L : Loop) : Loop := loop cfg p (mu L) L

/-! ## Vocabulary of the statements -/

/-- A header as a byte sequence: the continuation bytes carry the 7-bit
groups `gs` (high bit set), the last byte carries three bits `t` and the
tag-kind `kind` (high bit clear). -/
def header (gs : List Nat) (t kind : Nat) : List Nat :=
  gs.map (fun g => 128 + g) ++ [(t <<< 4) + kind]

/-- The number `acc * 128 ^ k + g1 * 128 ^ (k - 1) + ... + gk`. -/
def groups_value (acc : Nat) (gs : List Nat) : Nat :=
  gs.foldl (fun a g => a * 128 + g) acc

/-- The value `(g1 * 128 ^ (k - 1) + ... + gk) * 8 + t` of a header. -/
def header_value (gs : List Nat) (t : Nat) : Nat :=
  groups_value 0 gs * 8 + t

/-- The deferred `>` of an open start tag, written by `case 1` before the
inner `switch` unless the header is an attribute. -/
def close_start (cfg : Config) (L : Loop) (kind : Nat) : Loop :=
  if L.tagstate = 1 ∧ kind ≠ cfg.CCN_ATTR then
    { L.print (lit ">") with tagstate := 0 }
  else L

/-- What `case 3` writes for one byte of text other than zero. -/
def escape (c : Nat) : List Nat :=
  if c = 38 then lit "&amp;"
  else if c = 60 then lit "&lt;"
  else if c = 62 then lit "&gt;" ++ lit "&quot;"
  else if c = 34 then lit "&quot;"
  else [c]

/-- The text written for a payload without a zero byte. -/
def escape_all : List Nat → List Nat
  | [] => []
  | c :: cs => escape c ++ escape_all cs

/-- The state with which the inner `switch` of a header of kind `kind`
is entered from state 0: the attribute value is closed off if one is
pending, then the deferred `>` is written. -/
def prelude (cfg : Config) (L : Loop) (kind : Nat) : Loop :=
  close_start cfg (case0_quote L) kind

/-- The frame of a name that starts at the end of the string stack `ss`. -/
def frame (ss : List Nat) : ccn_decoder_stack_item :=
  { nameindex := ss.length, itemcount := 1, savedss := ss.length }

/-- The decoder after a name has been read on top of `d`. -/
def named (d : ccn_decoder) (name : List Nat) : ccn_decoder :=
  { d with stack := frame d.stringstack :: d.stack,
           stringstack := d.stringstack ++ name ++ [0] }

/-! ## Base 64 as RFC 4648 defines it -/

/-- The base 64 alphabet of RFC 4648, table 1: the character that stands for
a 6-bit value. -/
def alphabet (v : Nat) : Nat :=
  if v < 26 then 65 + v
  else if v < 52 then 97 + (v - 26)
  else if v < 62 then 48 + (v - 52)
  else if v = 62 then 43
  else 47

/-- The 6-bit group number `k`, counted from the right, of the bit string
that the number `n` is. -/
def sextet (n k : Nat) : Nat := n / 64 ^ k % 64

/-- The encoding of RFC 4648, section 4: three input bytes form a 24-bit
group that is written as four characters; a final group of one byte is
padded with zero bits to 12 bits and written as two characters and `==`, a
final group of two bytes is padded to 18 bits and written as three
characters and `=`. -/
def rfc4648 : List Nat → List Nat
  | [] => []
  | [a] =>
    let n := a * 2 ^ 4
    [alphabet (sextet n 1), alphabet (sextet n 0), 61, 61]
  | [a, b] =>
    let n := (a * 2 ^ 8 + b) * 2 ^ 2
    [alphabet (sextet n 2), alphabet (sextet n 1), alphabet (sextet n 0), 61]
  | a :: b :: c :: rest =>
    let n := (a * 2 ^ 8 + b) * 2 ^ 8 + c
    [alphabet (sextet n 3), alphabet (sextet n 2), alphabet (sextet n 1),
      alphabet (sextet n 0)] ++ rfc4648 rest

/-- The 6-bit value a character of the alphabet stands for. -/
def alphabet_value (ch : Nat) : Nat :=
  if 65 ≤ ch ∧ ch ≤ 90 then ch - 65
  else if 97 ≤ ch ∧ ch ≤ 122 then ch - 97 + 26
  else if 48 ≤ ch ∧ ch ≤ 57 then ch - 48 + 52
  else if ch = 43 then 62
  else 63

/-- A decoder of RFC 4648 for well-formed text: four characters give three
bytes, a final group that ends in `=` gives two bytes and one that ends in
`==` gives one byte. -/
def rfc4648_decode : List Nat → List Nat
  | c1 :: c2 :: c3 :: c4 :: rest =>
    let n := ((alphabet_value c1 * 64 + alphabet_value c2) * 64 + alphabet_value c3) * 64
              + alphabet_value c4
    if c3 = 61 then [(alphabet_value c1 * 64 + alphabet_value c2) / 16]
    else if c4 = 61 then
      let m := ((alphabet_value c1 * 64 + alphabet_value c2) * 64 + alphabet_value c3) / 4
      [m / 256, m % 256]
    else [n / 65536, n / 256 % 256, n % 256] ++ rfc4648_decode rest
  | _ => []

/-- The number that a string of decimal digits denotes. -/
def decimal_value (ds : List Nat) : Nat := ds.foldl (fun a c => 10 * a + (c - 48)) 0

/-- Two successive calls of `ccn_decoder_decode` on the same decoder: the
first `k` bytes of `p`, then the remaining ones. The result holds the
decoder after the second call, the sum of the two returned counts and all
that was written. -/
def decode_split (cfg : Config) (d : ccn_decoder) (p : List Nat) (k : Nat) : Result :=
  let r1 := ccn_decoder_decode cfg d (p.take k)
  let r2 := ccn_decoder_decode cfg r1.d (p.drop k)
  { d := r2.d, ret := r1.ret + r2.ret, out := r1.out ++ r2.out }

/-! ## Well-formed documents -/

/-- The parts of the encoding of an element: the run of its attributes, the
run of its children, the element itself. -/
inductive Piece where
  | attributes
  | children
  | element
  deriving DecidableEq

/-- The byte sequences that encode the parts of a well-formed element: a
name without a zero byte behind a `TAG` header that holds its length less
one, attributes (a name behind an `ATTR` header and a text value behind a
`UDATA` header that holds its length), children (text without a zero byte,
blobs behind a `BLOB` header, integers, elements) and the byte
`CCN_CLOSE`. -/
inductive WellFormed (cfg : Config) : Piece → List Nat → Prop where
  | no_attribute : WellFormed cfg Piece.attributes []
  | attr (gs : List Nat) (t : Nat) (name : List Nat) (gs2 : List Nat) (t2 : Nat)
      (value rest : List Nat) :
      (∀ g ∈ gs, g < 128) → t < 8 → header_value gs t + 1 = name.length →
      (∀ b ∈ name, b ≠ 0) →
      (∀ g ∈ gs2, g < 128) → t2 < 8 → header_value gs2 t2 = value.length →
      (∀ b ∈ value, b ≠ 0) →
      WellFormed cfg Piece.attributes rest →
      WellFormed cfg Piece.attributes
        (header gs t cfg.CCN_ATTR ++ name ++ (header gs2 t2 cfg.CCN_UDATA ++ value) ++ rest)
  | no_child : WellFormed cfg Piece.children []
  | text (gs : List Nat) (t : Nat) (txt rest : List Nat) :
      (∀ g ∈ gs, g < 128) → t < 8 → header_value gs t = txt.length →
      (∀ b ∈ txt, b ≠ 0) →
      WellFormed cfg Piece.children rest →
      WellFormed cfg Piece.children (header gs t cfg.CCN_UDATA ++ txt ++ rest)
  | blob (gs : List Nat) (t : Nat) (payload rest : List Nat) :
      (∀ g ∈ gs, g < 128) → t < 8 → header_value gs t = payload.length →
      (∀ b ∈ payload, b < 256) →
      WellFormed cfg Piece.children rest →
      WellFormed cfg Piece.children (header gs t cfg.CCN_BLOB ++ payload ++ rest)
  | integer (gs : List Nat) (t : Nat) (rest : List Nat) :
      (∀ g ∈ gs, g < 128) → t < 8 →
      WellFormed cfg Piece.children rest →
      WellFormed cfg Piece.children (header gs t cfg.CCN_INTVAL ++ rest)
  | child (e rest : List Nat) :
      WellFormed cfg Piece.element e →
      WellFormed cfg Piece.children rest →
      WellFormed cfg Piece.children (e ++ rest)
  | element (gs : List Nat) (t : Nat) (name attrs children : List Nat) :
      (∀ g ∈ gs, g < 128) → t < 8 → header_value gs t + 1 = name.length →
      (∀ b ∈ name, b ≠ 0) →
      WellFormed cfg Piece.attributes attrs →
      WellFormed cfg Piece.children children →
      WellFormed cfg Piece.element
        (header gs t cfg.CCN_TAG ++ name ++ attrs ++ children ++ [cfg.CCN_CLOSE])

/-- What a part expects of `tagstate` once a pending attribute value has
been closed off: attributes need the start tag open, children and elements
need no attribute pending. -/
def Piece.before : Piece → Int → Prop
  | Piece.attributes, ts => ts = 1
  | Piece.children, ts => ts = 0 ∨ ts = 1
  | Piece.element, ts => ts = 0 ∨ ts = 1

/-- What a part leaves of `tagstate`, in the same sense. -/
def Piece.after : Piece → Int → Prop
  | Piece.attributes, ts => ts = 1
  | Piece.children, ts => ts = 0 ∨ ts = 1
  | Piece.element, ts => ts = 0

/-- The passes of the loop over an item of `len` bytes that starts in state
0 end in state 0 with the frames and the string stack that the item found
(after a pending attribute value has been closed off) and with the start
tag closed. -/
def Item (cfg : Config) (p : List Nat) (L : Loop) (len : Nat) : Prop :=
  ∃ L2 : Loop, run cfg p L = run cfg p L2 ∧ L2.state = 0 ∧ L2.n = L.n ∧
    L2.i = L.i + len ∧ L2.d.stack = (case0_quote L).d.stack ∧
    L2.d.stringstack = (case0_quote L).d.stringstack ∧
    L2.tagstate = (if (case0_quote L).tagstate = 1 then 0 else (case0_quote L).tagstate)

/-! ## Decoders that calls can produce -/

/-- The decoders that exist: the one `ccn_decoder_create` returns and those
that a call of `ccn_decoder_decode` leaves, whatever the chunk. -/
inductive Reachable (cfg : Config) : ccn_decoder → Prop where
  | fresh : Reachable cfg ccn_decoder_create
  | call (d : ccn_decoder) (p : List Nat) :
      Reachable cfg d → Reachable cfg (ccn_decoder_decode cfg d p).d

/-- The values of `state` that have a `case` of their own in the loop. -/
def live_state (s : Int) : Prop :=
  s = 0 ∨ s = 1 ∨ s = 2 ∨ s = 3 ∨ s = 4 ∨ s = 5 ∨ s = 9 ∨ s = 10 ∨ s = 11 ∨ s = 12

instance (s : Int) : Decidable (live_state s) := by
  unfold live_state; infer_instance

/-- The values of `state` that the code assigns: the live states and the
error states `-__LINE__`. -/
def valid_state (s : Int) : Prop := live_state s ∨ s < 0

instance (s : Int) : Decidable (valid_state s) := by
  unfold valid_state; infer_instance

/-- The state of the loop after some passes of a call on a chunk of `n0`
bytes: `state` is one the code assigns, `i` has not passed the end of the
chunk, and `n` is still the length of the chunk unless the `default` case has
set it to `i` in an error state. -/
def count_ok (n0 : Nat) (L : Loop) : Prop :=
  valid_state L.state ∧ L.i ≤ n0 ∧ (L.n = n0 ∨ (L.state < 0 ∧ L.n = L.i))

/-- The frames of a stack, top first, lie in a string stack of length
`len` one behind the other: for each frame `savedss ≤ nameindex`, the
`nameindex` of a frame is at most the `savedss` of the frame above it, and
the `nameindex` of the top frame is at most `len`. -/
def frames_ok : List ccn_decoder_stack_item → Nat → Prop
  | [], _ => True
  | f :: below, len => f.savedss ≤ f.nameindex ∧ f.nameindex ≤ len ∧ frames_ok below f.savedss

instance frames_ok_decidable : (st : List ccn_decoder_stack_item) → (len : Nat) →
    Decidable (frames_ok st len)
  | [], _ => isTrue (by simp [frames_ok])
  | f :: below, len =>
    have := frames_ok_decidable below f.savedss
    decidable_of_iff (f.savedss ≤ f.nameindex ∧ f.nameindex ≤ len ∧ frames_ok below f.savedss)
      (by simp [frames_ok])

/-- The frames of a decoder lie in its string stack. -/
def arena_ok (d : ccn_decoder) : Prop := frames_ok d.stack d.stringstack.length

instance (d : ccn_decoder) : Decidable (arena_ok d) := by
  unfold arena_ok; infer_instance

/-! ## The comparison of name components of `ndnr_util.c` -/

/-- The C library function `memcmp(a, b, n)` on byte arrays that hold at
least `n` bytes: zero when the first `n` bytes agree, otherwise the
difference of the first two bytes that differ (only its sign is
specified by the C standard). -/
def memcmp : List Nat → List Nat → Nat → Int
  | x :: xs, y :: ys, n + 1 => if x = y then memcmp xs ys n else (x : Int) - (y : Int)
  | _, _, _ => 0

/-- Embedding of `r_util_name_comp_compare`. The function
`ndn_name_comp_get` of the ndn library is a parameter: it gives the bytes of
component `i` (`comp_ptr`, `comp_size`) or fails. The buffer `buf` is the
list of its `length` bytes. -/
def r_util_name_comp_compare
    (ndn_name_comp_get : List Nat → List Nat → Nat → Option (List Nat))
    (data indexbuf : List Nat) (i : Nat) (buf : List Nat) : Int :=
  match ndn_name_comp_get data indexbuf i with
  | none => -1
  | some comp =>
    if comp.length < buf.length then -1
    else if comp.length > buf.length then 1
    else memcmp comp buf buf.length

/-- The order of two byte strings of the same length by their first
difference. -/
def bytewise_lt : List Nat → List Nat → Prop
  | x :: xs, y :: ys => x < y ∨ (x = y ∧ bytewise_lt xs ys)
  | _, _ => False

instance bytewise_lt_decidable : (a b : List Nat) → Decidable (bytewise_lt a b)
  | [], _ => isFalse (by simp [bytewise_lt])
  | _ :: _, [] => isFalse (by simp [bytewise_lt])
  | x :: xs, y :: ys =>
    have := bytewise_lt_decidable xs ys
    decidable_of_iff (x < y ∨ (x = y ∧ bytewise_lt xs ys)) (by simp [bytewise_lt])

/-! ## The payload counter -/

/-- The states that count a payload down with `--numval`: text and the
three phases of a blob. -/
def payload_state (s : Int) : Prop := s = 3 ∨ s = 10 ∨ s = 11 ∨ s = 12

instance (s : Int) : Decidable (payload_state s) := by
  unfold payload_state; infer_instance

/-- What holds of `state` and `numval` between the passes of the loop: the
state is not the unused state 2, a payload state has bytes left to read, and
`numval` is a value of the type `size_t`. -/
def counter_ok (cfg : Config) (state : Int) (numval : Nat) : Prop :=
  state ≠ 2 ∧ (payload_state state → 1 ≤ numval) ∧ numval < 2 ^ cfg.size_bits

instance (cfg : Config) (state : Int) (numval : Nat) :
    Decidable (counter_ok cfg state numval) := by
  unfold counter_ok; infer_instance

/-! ## The terminal byte of a header -/

/-- The locals when the terminal byte `b` of a header has been read in
state 1, or in state 0 where `case 0` falls through to `case 1`, and
`numval` has been computed: the point of `case 1` before the deferred `>`
and the inner `switch`. -/
def at_switch (cfg : Config) (L : Loop) (b : Nat) : Loop :=
  { (if L.state = 0 then case0_quote L else L) with
      state := 1
      i := L.i + 1
      numval := (shl cfg.size_bits (if L.state = 0 then 0 else L.numval) 3 + (b >>> 4))
        % 2 ^ cfg.size_bits }

/-! ## Loop states of a chunk seen as part of a longer chunk -/

/-- The loop state `L` with the parameter `n` replaced: the same point of
the loop when the chunk has `n` bytes. -/
def widen (L : Loop) (n : Nat) : Loop := { L with n := n }

/-- The loop state `L` of a call on a chunk `q`, seen as a state of a call
on `p ++ q` that has already read the `k` bytes of `p` and written `pre`:
the indices move by `k` and the output is put behind `pre`. The fields
`state`, `tagstate` and `numval` of the decoder, which the loop neither
reads nor writes before it ends, are those of `junk`. -/
def rebase (k : Nat) (pre : List Nat) (junk : ccn_decoder) (L : Loop) : Loop :=
  { L with
      d := { L.d with state := junk.state, tagstate := junk.tagstate, numval := junk.numval }
      i := k + L.i
      n := k + L.n
      out := pre ++ L.out }

/-! ## The face table of `ccnr_io.c` -/

/-- Embedding of `struct fdholder`, of which the two functions below read
and write the field `filedesc` only (the meters and what
`r_io_register_new_face` does concern other fields). -/
structure fdholder where
  filedesc : Nat
  deriving DecidableEq

/-- Embedding of the fields `face_limit` and `fdholder_by_fd` of
`struct ccnr_handle`. The array holds pointers to `struct fdholder`: an
address, or `none` for `NULL`. -/
structure ccnr_handle where
  face_limit : Nat
  fdholder_by_fd : List (Option Nat)
  deriving DecidableEq

/-- Embedding of `r_io_fdholder_from_fd`; `mem` gives the `struct fdholder`
at an address. -/
def r_io_fdholder_from_fd (mem : Nat → fdholder) (h : ccnr_handle) (filedesc : Nat) :
    Option Nat :=
  let slot := filedesc
  if slot < h.face_limit then
    match h.fdholder_by_fd.getD slot none with
    | some f => if (mem f).filedesc ≠ filedesc then none else some f
    | none => none
  else none

/-- How a call of `r_io_enroll_face` ends: in `abort()`, or with a return
value, the handle and the memory it leaves. -/
inductive enroll_result where
  | aborted
  | returned (h : ccnr_handle) (mem : Nat → fdholder) (ret : Int)

/-- The C library function `realloc(a, count * sizeof(a[0]))` when it
succeeds: the first `count` cells are kept. Cells that are new are
indeterminate in C; they are `none` here, and `r_io_enroll_face` writes all
of them when the array had `face_limit` cells. -/
def realloc (a : List (Option Nat)) (count : Nat) : List (Option Nat) :=
  a.take count ++ List.replicate (count - a.length) none

/-- The loop `while (n < h->face_limit) a[n++] = NULL`, which runs `k`
times for `k = face_limit - n`. -/
def clear_cells : List (Option Nat) → Nat → Nat → List (Option Nat)
  | a, _, 0 => a
  | a, n, k + 1 => clear_cells (a.set n none) (n + 1) k

/-- The code behind the label `use_i` of `r_io_enroll_face`: the array of
the handle gets the pointer in cell `i`, and `i` is stored in the
fdholder. -/
def use_i (h : ccnr_handle) (mem : Nat → fdholder) (f : Nat) (i : Nat) : enroll_result :=
  let h : ccnr_handle := { h with fdholder_by_fd := h.fdholder_by_fd.set i (some f) }
  let mem := Function.update mem f { mem f with filedesc := i }
  enroll_result.returned h mem ((mem f).filedesc : Int)

/-- Embedding of `r_io_enroll_face(h, fdholder)`; `f` is the address of the
fdholder and `realloc_ok` tells whether `realloc` succeeds. -/
def r_io_enroll_face (realloc_ok : Bool) (mem : Nat → fdholder) (h : ccnr_handle)
    (f : Nat) : enroll_result :=
  let i := (mem f).filedesc
  let n := h.face_limit
  let a := h.fdholder_by_fd
  if i < n ∧ a.getD i none = none then
    if a.getD i none = none then use_i h mem f i
    else enroll_result.aborted
  else if i > 65535 then enroll_result.aborted
  else if realloc_ok = false then enroll_result.returned h mem (-1)
  else
    let a := realloc a (i + 1)
    let h : ccnr_handle := { h with face_limit := i + 1 }
    let a := clear_cells a n (h.face_limit - n)
    let h : ccnr_handle := { h with fdholder_by_fd := a }
    use_i h mem f i

/-- The handle a call leaves, if it returns. -/
def enroll_result.handle : enroll_result → Option ccnr_handle
  | enroll_result.aborted => none
  | enroll_result.returned h _ _ => some h

/-- The value a call returns, if it returns. -/
def enroll_result.value : enroll_result → Option Int
  | enroll_result.aborted => none
  | enroll_result.returned _ _ ret => some ret

/-- What `r_io_fdholder_from_fd` gives for descriptor `j` after a call of
`r_io_enroll_face` that returned. -/
def enroll_result.lookup : enroll_result → Nat → Option (Option Nat)
  | enroll_result.aborted, _ => none
  | enroll_result.returned h mem _, j => some (r_io_fdholder_from_fd mem h j)

/-! ## Segment numbers and times of `ndnr_util.c` -/

/-- The value that an integer has in a signed type of `bits` bits (two's
complement, as the usual targets compute `intmax_t`). -/
def wrap_signed (bits : Nat) (v : Int) : Int :=
  (v + 2 ^ (bits - 1)) % 2 ^ bits - 2 ^ (bits - 1)

/-- The loop `for (i = 1; i < len; i++) segment = segment * 256 + data[i]`
over the bytes behind the first. -/
def segment_loop (bits : Nat) : Int → List Nat → Int
  | segment, [] => segment
  | segment, b :: rest => segment_loop bits (wrap_signed bits (segment * 256 + b)) rest

/-- Embedding of `r_util_segment_from_component`. The function
`ndn_ref_tagged_BLOB` of the ndn library is a parameter: it gives the
content of the component between `start` and `stop` (`data`, `len`) or
leaves `data` at `NULL`. The parameter `sizeof_intmax` stands for
`sizeof(intmax_t)`. -/
def r_util_segment_from_component
    (ndn_ref_tagged_BLOB : List Nat → Nat → Nat → Option (List Nat)) (sizeof_intmax : Nat)
    (ndnb : List Nat) (start stop : Nat) : Int :=
  if start < stop then
    match ndn_ref_tagged_BLOB ndnb start stop with
    | none => -1
    | some data =>
      if data.length > 0 ∧ data.getD 0 0 = 0 ∧ data.length ≤ 1 + sizeof_intmax then
        segment_loop (8 * sizeof_intmax) 0 (data.drop 1)
      else -1
  else -1

/-- The number that a byte string denotes, most significant byte first. -/
def big_endian (bytes : List Nat) : Nat := bytes.foldl (fun a b => a * 256 + b) 0

/-- Embedding of `r_util_timecmp`. -/
def r_util_timecmp (secA : Int) (usecA : Nat) (secB : Int) (usecB : Nat) : Int :=
  if secA < secB then -1
  else if secA > secB then 1
  else if usecA < usecB then -1
  else if usecA > usecB then 1
  else 0

/-! # Theorems -/

theorem dispatch_i (cfg : Config) (L : Loop) (c : Nat) :
    (dispatch cfg L c).i = L.i ∧ (dispatch cfg L c).n = L.n := by
  unfold dispatch
  repeat' split
  all_goals simp [Loop.print]

theorem dispatch_slack (cfg : Config) (L : Loop) (c : Nat) :
    slack (dispatch cfg L c).state ≤ 2 := by
  unfold slack
  repeat' split
  all_goals omega

theorem slack_le (s : Int) : slack s ≤ 2 := by
  unfold slack
  repeat' split
  all_goals omega

theorem case1_progress (cfg : Config) (p : List Nat) (L : Loop) :
    (case1 cfg p L).n = L.n ∧
      (((case1 cfg p L).i = L.i ∧ (case1 cfg p L).state = 9) ∨
        (case1 cfg p L).i = L.i + 1) := by
  unfold case1
  simp only []
  split
  · split
    · simp
    · split <;> simp
  · refine ⟨?_, Or.inr ?_⟩
    · rw [(dispatch_i _ _ _).2]; split <;> simp [Loop.print]
    · rw [(dispatch_i _ _ _).1]; split <;> simp [Loop.print]

theorem case0_quote_i (L : Loop) :
    (case0_quote L).i = L.i ∧ (case0_quote L).n = L.n := by
  unfold case0_quote
  repeat' split
  all_goals simp [Loop.print]

theorem case0_close_i (L : Loop) :
    (case0_close L).i = L.i + 1 ∧ (case0_close L).n = L.n := by
  unfold case0_close
  simp only []
  repeat' split
  all_goals simp [Loop.print]

theorem case0_progress (cfg : Config) (p : List Nat) (L : Loop) :
    (case0 cfg p L).n = L.n ∧
      (((case0 cfg p L).i = L.i ∧ (case0 cfg p L).state = 9) ∨
        (case0 cfg p L).i = L.i + 1) := by
  unfold case0
  simp only []
  split
  · rw [(case0_close_i _).1, (case0_close_i _).2, (case0_quote_i _).1, (case0_quote_i _).2]
    simp
  · obtain ⟨hn, h⟩ := case1_progress cfg p
      { case0_quote L with numval := 0, state := 1 }
    refine ⟨hn.trans (case0_quote_i L).2, ?_⟩
    rcases h with h | h
    · exact Or.inl ⟨h.1.trans (case0_quote_i L).1, h.2⟩
    · exact Or.inr (h.trans (congrArg (· + 1) (case0_quote_i L).1))

theorem name_done_i (L : Loop) :
    (name_done L).i = L.i ∧ (name_done L).n = L.n := by
  unfold name_done
  simp only []
  repeat' split
  all_goals simp [Loop.print]

theorem case45_progress (p : List Nat) (L : Loop) (h : L.i < L.n) :
    (case45 p L).n = L.n ∧
      (((case45 p L).i = L.i ∧ (case45 p L).state = -208) ∨
        (L.i < (case45 p L).i ∧ (case45 p L).i ≤ L.n)) := by
  unfold case45
  have hle : (if L.n - L.i > L.numval then L.numval else L.n - L.i) ≤ L.n - L.i := by
    split <;> omega
  generalize (if L.n - L.i > L.numval then L.numval else L.n - L.i) = chunk at hle
  simp only []
  by_cases hc : chunk = 0
  · simp [hc]
  · rw [if_neg hc]
    split
    · rw [(name_done_i _).1, (name_done_i _).2]; simp; omega
    · simp; omega

theorem case_byte_progress (cfg : Config) (p : List Nat) (L : Loop) :
    ((case2 cfg p L).n = L.n ∧ (case2 cfg p L).i = L.i + 1) ∧
    ((case3 cfg p L).n = L.n ∧ (case3 cfg p L).i = L.i + 1) ∧
    ((case9 cfg p L).n = L.n ∧ (case9 cfg p L).i = L.i + 1) ∧
    ((case10 cfg p L).n = L.n ∧ (case10 cfg p L).i = L.i + 1) ∧
    ((case11 cfg p L).n = L.n ∧ (case11 cfg p L).i = L.i + 1) ∧
    ((case12 cfg p L).n = L.n ∧ (case12 cfg p L).i = L.i + 1) := by
  refine ⟨?_, ?_, ?_, ?_, ?_, ?_⟩
  · unfold case2; simp [Loop.print]
  · unfold case3; simp only []; repeat' split
    all_goals simp [Loop.print]
  · unfold case9; simp only []; repeat' split
    all_goals simp [Loop.print]
  · unfold case10; simp only []; repeat' split
    all_goals simp [Loop.print]
  · unfold case11; simp only []; repeat' split
    all_goals simp [Loop.print]
  · unfold case12; simp [Loop.print]

theorem body_mu (cfg : Config) (p : List Nat) (L : Loop) (h : L.i < L.n) :
    mu (body cfg p L) < mu L := by
  have hb := case_byte_progress cfg p L
  unfold body mu
  split
  · rename_i h0
    have h1 := case0_progress cfg p L
    have hs := slack_le (case0 cfg p L).state
    have : slack L.state = 2 := by simp [slack, h0]
    rcases h1 with ⟨hn, ⟨hi, hst⟩ | hi⟩
    · rw [hn, hi, hst, this]; simp [slack]
    · rw [hn, hi, this]; omega
  split
  · rename_i h0
    have h1 := case1_progress cfg p L
    have hs := slack_le (case1 cfg p L).state
    have : slack L.state = 2 := by simp [slack, h0]
    rcases h1 with ⟨hn, ⟨hi, hst⟩ | hi⟩
    · rw [hn, hi, hst, this]; simp [slack]
    · rw [hn, hi, this]; omega
  split
  · have hs := slack_le (case2 cfg p L).state
    rw [hb.1.1, hb.1.2]; omega
  split
  · have hs := slack_le (case3 cfg p L).state
    rw [hb.2.1.1, hb.2.1.2]; omega
  split
  · rename_i h0
    have h1 := case45_progress p L h
    have hs := slack_le (case45 p L).state
    have : slack L.state = 2 := by
      rcases h0 with h0 | h0 <;> simp [slack, h0]
    rcases h1 with ⟨hn, ⟨hi, hst⟩ | hi⟩
    · rw [hn, hi, hst, this]; simp [slack]
    · rw [hn, this]; omega
  split
  · rename_i h0
    have hs := slack_le (case9 cfg p L).state
    have : slack L.state = 1 := by simp [slack, h0]
    rw [hb.2.2.1.1, hb.2.2.1.2, this]; omega
  split
  · have hs := slack_le (case10 cfg p L).state
    rw [hb.2.2.2.1.1, hb.2.2.2.1.2]; omega
  split
  · have hs := slack_le (case11 cfg p L).state
    rw [hb.2.2.2.2.1.1, hb.2.2.2.2.1.2]; omega
  split
  · have hs := slack_le (case12 cfg p L).state
    rw [hb.2.2.2.2.2.1, hb.2.2.2.2.2.2]; omega
  · rename_i h0 h1 h2 h3 h45 h9 h10 h11 h12
    have : slack L.state = 0 := by
      unfold slack
      rw [if_neg (by omega), if_neg h9]
    simp only [this]
    omega

theorem loop_halted (cfg : Config) (p : List Nat) (f : Nat) (L : Loop)
    (h : ¬ L.i < L.n) : loop cfg p f L = L := by
  cases f with
  | zero => rfl
  | succ f => simp [loop, h]

theorem loop_halts (cfg : Config) (p : List Nat) (f : Nat) :
    ∀ L : Loop, mu L ≤ f → ¬ (loop cfg p f L).i < (loop cfg p f L).n := by
  induction f with
  | zero =>
    intro L h
    simp only [loop]
    unfold mu at h
    omega
  | succ f ih =>
    intro L h
    by_cases hL : L.i < L.n
    · have := body_mu cfg p L hL
      simp only [loop, if_pos hL]
      exact ih _ (by omega)
    · simp [loop, hL]

theorem loop_add (cfg : Config) (p : List Nat) (f g : Nat) :
    ∀ L : Loop, loop cfg p (f + g) L = loop cfg p g (loop cfg p f L) := by
  induction f with
  | zero => intro L; simp [loop]
  | succ f ih =>
    intro L
    by_cases hL : L.i < L.n
    · rw [Nat.add_right_comm]
      simp only [loop, if_pos hL]
      exact ih _
    · rw [loop_halted cfg p _ L hL, loop_halted cfg p _ L hL, loop_halted cfg p _ L hL]

/-- Any fuel that covers the bound gives the loop run to its end. -/
theorem loop_eq_run (cfg : Config) (p : List Nat) (f : Nat) (L : Loop) (h : mu L ≤ f) :
    loop cfg p f L = run cfg p L := by
  obtain ⟨g, rfl⟩ := Nat.exists_eq_add_of_le h
  rw [loop_add]
  exact loop_halted cfg p g _ (loop_halts cfg p (mu L) L (le_refl _))

theorem run_halted (cfg : Config) (p : List Nat) (L : Loop) (h : ¬ L.i < L.n) :
    run cfg p L = L :=
  loop_halted cfg p _ L h

theorem run_step (cfg : Config) (p : List Nat) (L : Loop) (h : L.i < L.n) :
    run cfg p L = run cfg p (body cfg p L) := by
  have hmu := body_mu cfg p L h
  obtain ⟨f, hf⟩ : ∃ f, mu L = f + 1 := ⟨mu L - 1, by omega⟩
  unfold run
  rw [hf]
  simp only [loop, if_pos h]
  exact loop_eq_run cfg p f _ (by omega)

/-- The loop of `ccn_decoder_decode` always runs to its end: when the
function returns, `i < n` is false. -/
theorem decode_eq_run (cfg : Config) (d : ccn_decoder) (p : List Nat) :
    ccn_decoder_decode cfg d p = leave (run cfg p (enter d p)) := by
  unfold ccn_decoder_decode
  rw [loop_eq_run]
  have := slack_le (enter d p).state
  simp only [mu, enter] at *
  omega

theorem run_done (cfg : Config) (p : List Nat) (L : Loop) :
    ¬ (run cfg p L).i < (run cfg p L).n :=
  loop_halts cfg p (mu L) L (le_refl _)

/-! ## Bit operations as arithmetic -/

theorem and127 (c : Nat) : c &&& 127 = c % 128 := Nat.and_pow_two_sub_one_eq_mod c 7
theorem and63 (c : Nat) : c &&& 63 = c % 64 := Nat.and_pow_two_sub_one_eq_mod c 6
theorem and15 (c : Nat) : c &&& 15 = c % 16 := Nat.and_pow_two_sub_one_eq_mod c 4
theorem and3 (c : Nat) : c &&& 3 = c % 4 := Nat.and_pow_two_sub_one_eq_mod c 2
theorem shr6 (c : Nat) : c >>> 6 = c / 64 := Nat.shiftRight_eq_div_pow c 6
theorem shr4 (c : Nat) : c >>> 4 = c / 16 := Nat.shiftRight_eq_div_pow c 4
theorem shr2 (c : Nat) : c >>> 2 = c / 4 := Nat.shiftRight_eq_div_pow c 2
theorem shl4 (c : Nat) : c <<< 4 = c * 16 := Nat.shiftLeft_eq c 4
theorem shl2 (c : Nat) : c <<< 2 = c * 4 := Nat.shiftLeft_eq c 2

theorem shl_mul (bits x k : Nat) : shl bits x k = (x * 2 ^ k) % 2 ^ bits := by
  unfold shl; rw [Nat.shiftLeft_eq]

theorem shl_of_lt (bits x k : Nat) (h : x * 2 ^ k < 2 ^ bits) : shl bits x k = x * 2 ^ k := by
  rw [shl_mul, Nat.mod_eq_of_lt h]

/-! ## Reading the input -/

theorem drop_cons_info {p : List Nat} {i : Nat} {x : Nat} {xs : List Nat}
    (h : p.drop i = x :: xs) :
    p.getD i 0 = x ∧ p.drop (i + 1) = xs ∧ i < p.length := by
  have hi : i < p.length := by
    by_contra hc
    rw [List.drop_eq_nil_of_le (by omega)] at h
    cases h
  rw [List.drop_eq_getElem_cons hi] at h
  injection h with h1 h2
  refine ⟨?_, h2, hi⟩
  simp [List.getD_eq_getElem?_getD, List.getElem?_eq_getElem hi, h1]

theorem drop_append_info {p : List Nat} {i : Nat} {xs ys : List Nat}
    (h : p.drop i = xs ++ ys) :
    p.drop (i + xs.length) = ys ∧ p.length - i = xs.length + ys.length ∧
      (p.drop i).take xs.length = xs := by
  have hl : (p.drop i).length = xs.length + ys.length := by rw [h]; simp
  rw [List.length_drop] at hl
  refine ⟨?_, hl, ?_⟩
  · rw [← List.drop_drop, h]; simp
  · rw [h]; simp

theorem groups_value_le (gs : List Nat) : ∀ acc, acc ≤ groups_value acc gs := by
  induction gs with
  | nil => intro acc; exact le_refl _
  | cons g gs ih =>
    intro acc
    have := ih (acc * 128 + g)
    simp only [groups_value, List.foldl_cons] at this ⊢
    omega

/-! ## One pass of the loop, state by state -/

theorem body_state0_close (cfg : Config) (p : List Nat) (L : Loop)
    (hs : L.state = 0) (hb : p.getD L.i 0 = cfg.CCN_CLOSE) :
    body cfg p L = case0_close (case0_quote L) := by
  unfold body case0
  simp only [hs, if_true, (case0_quote_i L).1, hb]

theorem body_state0_header (cfg : Config) (p : List Nat) (L : Loop)
    (hs : L.state = 0) (hb : p.getD L.i 0 ≠ cfg.CCN_CLOSE) :
    body cfg p L = case1 cfg p { case0_quote L with numval := 0, state := 1 } := by
  unfold body case0
  simp only [hs, if_true, (case0_quote_i L).1, hb, if_false]

theorem body_state1 (cfg : Config) (p : List Nat) (L : Loop) (hs : L.state = 1) :
    body cfg p L = case1 cfg p L := by
  unfold body
  simp [hs]

/-- A continuation byte that trips neither overflow test. -/
theorem case1_cont (cfg : Config) (p : List Nat) (L : Loop) (g : Nat) (hg : g < 128)
    (hb : p.getD L.i 0 = 128 + g)
    (hfit : (L.numval * 128 + g) * 8 < 2 ^ cfg.size_bits) :
    case1 cfg p L = { L with i := L.i + 1, numval := L.numval * 128 + g } := by
  have h1 : (128 + g) &&& 127 = g := by rw [and127]; omega
  have h2 : shl cfg.size_bits L.numval 7 = L.numval * 128 := by
    rw [shl_of_lt] <;> omega
  have h3 : shl cfg.size_bits (L.numval * 128 + g) 3 = (L.numval * 128 + g) * 8 := by
    rw [shl_of_lt] <;> omega
  have h4 : (L.numval * 128 + g) % 2 ^ cfg.size_bits = L.numval * 128 + g :=
    Nat.mod_eq_of_lt (by omega)
  unfold case1
  simp only [hb, h1, h2, h4, h3]
  rw [if_pos (by omega), if_neg (by omega), if_neg (by omega)]

/-- A terminal byte whose three bits fit the accumulator. -/
theorem case1_term (cfg : Config) (p : List Nat) (L : Loop) (t kind : Nat)
    (ht : t < 8) (hk : kind < 16) (hb : p.getD L.i 0 = (t <<< 4) + kind)
    (hfit : L.numval * 8 + t < 2 ^ cfg.size_bits) :
    case1 cfg p L =
      dispatch cfg
        (close_start cfg { L with i := L.i + 1, numval := L.numval * 8 + t } kind) kind := by
  have h0 : (t <<< 4) + kind = t * 16 + kind := by rw [shl4]
  have h1 : (t * 16 + kind) &&& 127 = t * 16 + kind := by rw [and127]; omega
  have h2 : shl cfg.size_bits L.numval 3 = L.numval * 8 := by
    rw [shl_of_lt] <;> omega
  have h3 : (t * 16 + kind) >>> 4 = t := by rw [shr4]; omega
  have h4 : (t * 16 + kind) &&& 15 = kind := by rw [and15]; omega
  have h5 : (L.numval * 8 + t) % 2 ^ cfg.size_bits = L.numval * 8 + t :=
    Nat.mod_eq_of_lt hfit
  unfold case1 close_start
  simp only [hb, h0, h1, h2, h3, h4, h5, ne_eq, not_true_eq_false, if_false]

/-- What `Config.ok` says, spelled out. -/
theorem ok_facts {cfg : Config} (h : cfg.ok) :
    cfg.CCN_CLOSE = 0 ∧
    (0 < cfg.CCN_TAG ∧ cfg.CCN_TAG < 16) ∧ (0 < cfg.CCN_ATTR ∧ cfg.CCN_ATTR < 16) ∧
    (0 < cfg.CCN_BLOB ∧ cfg.CCN_BLOB < 16) ∧ (0 < cfg.CCN_UDATA ∧ cfg.CCN_UDATA < 16) ∧
    (0 < cfg.CCN_INTVAL ∧ cfg.CCN_INTVAL < 16) ∧
    cfg.CCN_TAG ≠ cfg.CCN_ATTR ∧ cfg.CCN_TAG ≠ cfg.CCN_BLOB ∧ cfg.CCN_TAG ≠ cfg.CCN_UDATA ∧
    cfg.CCN_TAG ≠ cfg.CCN_INTVAL ∧ cfg.CCN_ATTR ≠ cfg.CCN_BLOB ∧
    cfg.CCN_ATTR ≠ cfg.CCN_UDATA ∧ cfg.CCN_ATTR ≠ cfg.CCN_INTVAL ∧
    cfg.CCN_BLOB ≠ cfg.CCN_UDATA ∧ cfg.CCN_BLOB ≠ cfg.CCN_INTVAL ∧
    cfg.CCN_UDATA ≠ cfg.CCN_INTVAL ∧ 16 ≤ cfg.size_bits ∧ cfg.size_bits ≤ cfg.max_bits := by
  unfold Config.ok at h
  simp only [List.nodup_cons, List.mem_cons, List.mem_singleton, not_or, List.not_mem_nil,
    not_false_eq_true, List.nodup_nil, and_true, forall_eq_or_imp, forall_eq,
    List.mem_nil_iff, false_or, or_false] at h
  obtain ⟨h1, h2, h3, h4, h5⟩ := h
  refine ⟨h1, h3.1, h3.2.1, h3.2.2.1, h3.2.2.2.1, h3.2.2.2.2, ?_⟩
  refine ⟨h2.1.1, h2.1.2.1, h2.1.2.2.1, h2.1.2.2.2, h2.2.1.1, h2.2.1.2.1, h2.2.1.2.2, ?_⟩
  exact ⟨h2.2.2.1.1, h2.2.2.1.2, h2.2.2.2, h4, h5⟩

theorem two_pow_size {cfg : Config} (h : cfg.ok) : 65536 ≤ 2 ^ cfg.size_bits := by
  have := (ok_facts h).2.2.2.2.2.2.2.2.2.2.2.2.2.2.2.2.1
  calc 65536 = 2 ^ 16 := by norm_num
    _ ≤ 2 ^ cfg.size_bits := Nat.pow_le_pow_right (by norm_num) this

/-! ## The inner switch, kind by kind -/

theorem dispatch_INTVAL (cfg : Config) (L : Loop) :
    dispatch cfg L cfg.CCN_INTVAL = { L.print (decimal L.numval) with state := 0 } := by
  unfold dispatch
  rw [if_pos rfl]

theorem dispatch_BLOB {cfg : Config} (h : cfg.ok) (L : Loop) :
    dispatch cfg L cfg.CCN_BLOB = { L with state := if L.numval = 0 then 0 else 10 } := by
  have hk := ok_facts h
  unfold dispatch
  rw [if_neg (by omega), if_pos rfl]

theorem dispatch_UDATA {cfg : Config} (h : cfg.ok) (L : Loop) :
    dispatch cfg L cfg.CCN_UDATA = { L with state := if L.numval = 0 then 0 else 3 } := by
  have hk := ok_facts h
  unfold dispatch
  rw [if_neg (by omega), if_neg (by omega), if_pos rfl]

theorem dispatch_TAG {cfg : Config} (h : cfg.ok) (L : Loop) :
    dispatch cfg L cfg.CCN_TAG =
      { L with numval := (L.numval + 1) % 2 ^ cfg.size_bits
               d := set_nameindex (ccn_decoder_push L.d) L.d.stringstack.length
               state := 4 } := by
  have hk := ok_facts h
  unfold dispatch
  rw [if_neg (by omega), if_neg (by omega), if_neg (by omega), if_neg (by omega),
    if_pos (Or.inr rfl)]
  simp [ccn_decoder_push]

theorem dispatch_ATTR {cfg : Config} (h : cfg.ok) (L : Loop) (ht : L.tagstate = 1) :
    dispatch cfg L cfg.CCN_ATTR =
      { L with numval := (L.numval + 1) % 2 ^ cfg.size_bits
               d := set_nameindex (ccn_decoder_push L.d) L.d.stringstack.length
               state := 5 } := by
  have hk := ok_facts h
  unfold dispatch
  rw [if_neg (by omega), if_neg (by omega), if_neg (by omega), if_neg (by simp [ht]),
    if_pos (Or.inl rfl)]
  have : ¬ cfg.CCN_ATTR = cfg.CCN_TAG := by omega
  simp [ccn_decoder_push, this]

/-! ## Headers -/

theorem header_cons (g : Nat) (gs : List Nat) (t kind : Nat) :
    header (g :: gs) t kind = (128 + g) :: header gs t kind := rfl

theorem header_length (gs : List Nat) (t kind : Nat) :
    (header gs t kind).length = gs.length + 1 := by
  simp [header]

theorem header_first (gs : List Nat) (t kind : Nat) (rest : List Nat) (hk0 : 0 < kind) :
    ∃ x xs, header gs t kind ++ rest = x :: xs ∧ x ≠ 0 := by
  cases gs with
  | nil =>
    refine ⟨(t <<< 4) + kind, rest, ?_, ?_⟩
    · simp [header]
    · omega
  | cons g gs =>
    refine ⟨128 + g, header gs t kind ++ rest, ?_, ?_⟩
    · simp [header]
    · omega

/-- A narrow header read from state 1: the accumulator ends as the value of
the header and the inner switch runs on its kind. -/
theorem run_header1 (cfg : Config) (p : List Nat) (t kind : Nat) (rest : List Nat)
    (ht : t < 8) (hk : kind < 16) :
    ∀ (gs : List Nat) (L : Loop), L.state = 1 → L.n = p.length →
      p.drop L.i = header gs t kind ++ rest → (∀ g ∈ gs, g < 128) →
      groups_value L.numval gs * 8 + t < 2 ^ cfg.size_bits →
      run cfg p L = run cfg p (dispatch cfg (close_start cfg
        { L with i := L.i + (gs.length + 1),
                 numval := groups_value L.numval gs * 8 + t } kind) kind) := by
  intro gs
  induction gs with
  | nil =>
    intro L hs hn hd _ hfit
    obtain ⟨hb, _, hi⟩ := drop_cons_info (show p.drop L.i = _ :: rest from hd)
    rw [run_step cfg p L (by omega), body_state1 cfg p L hs,
      case1_term cfg p L t kind ht hk hb hfit]
    simp only [List.length_nil, Nat.zero_add, groups_value, List.foldl_nil]
  | cons g gs ih =>
    intro L hs hn hd hg hfit
    rw [header_cons] at hd
    obtain ⟨hb, hd2, hi⟩ := drop_cons_info (show p.drop L.i = _ :: (header gs t kind ++ rest) from hd)
    have hg1 : g < 128 := hg g (List.mem_cons_self _ _)
    have hle := groups_value_le gs (L.numval * 128 + g)
    have hfit2 : groups_value (L.numval * 128 + g) gs * 8 + t < 2 ^ cfg.size_bits := hfit
    rw [run_step cfg p L (by omega), body_state1 cfg p L hs,
      case1_cont cfg p L g hg1 hb (by omega)]
    rw [ih { L with i := L.i + 1, numval := L.numval * 128 + g } hs hn hd2
      (fun x hx => hg x (List.mem_cons_of_mem _ hx)) hfit2]
    have e : L.i + 1 + (gs.length + 1) = L.i + ((g :: gs).length + 1) := by
      simp only [List.length_cons]; omega
    have e2 : groups_value (L.numval * 128 + g) gs = groups_value L.numval (g :: gs) := rfl
    simp only [e, e2]

/-- A narrow header read from state 0. -/
theorem run_header0 (cfg : Config) (p : List Nat) (t kind : Nat) (rest : List Nat)
    (ht : t < 8) (hk : kind < 16) (hk0 : 0 < kind) (hc : cfg.CCN_CLOSE = 0)
    (gs : List Nat) (L : Loop) (hs : L.state = 0) (hn : L.n = p.length)
    (hd : p.drop L.i = header gs t kind ++ rest) (hg : ∀ g ∈ gs, g < 128)
    (hfit : header_value gs t < 2 ^ cfg.size_bits) :
    run cfg p L = run cfg p (dispatch cfg
      { prelude cfg L kind with state := 1, i := L.i + (gs.length + 1),
                                numval := header_value gs t } kind) := by
  obtain ⟨x, xs, hx⟩ := header_first gs t kind rest hk0
  obtain ⟨hb, _, hi⟩ := drop_cons_info (hd.trans hx.1)
  have hq := case0_quote_i L
  have hne : p.getD L.i 0 ≠ cfg.CCN_CLOSE := by rw [hb, hc]; exact hx.2
  rw [run_step cfg p L (by omega), body_state0_header cfg p L hs hne]
  rw [← body_state1 cfg p { case0_quote L with numval := 0, state := 1 } rfl]
  rw [← run_step cfg p { case0_quote L with numval := 0, state := 1 }
    (by show (case0_quote L).i < (case0_quote L).n; rw [hq.1, hq.2]; omega)]
  rw [run_header1 cfg p t kind rest ht hk gs
    { case0_quote L with numval := 0, state := 1 } rfl
    (by show (case0_quote L).n = _; rw [hq.2, hn])
    (by show p.drop (case0_quote L).i = _; rw [hq.1, hd]) hg
    (show groups_value 0 gs * 8 + t < _ from hfit)]
  have e : close_start cfg
      { ({ case0_quote L with numval := 0, state := 1 } : Loop) with
        i := (case0_quote L).i + (gs.length + 1),
        numval := groups_value 0 gs * 8 + t } kind =
      { prelude cfg L kind with state := 1, i := L.i + (gs.length + 1),
                                numval := header_value gs t } := by
    simp only [hq.1, prelude, close_start, Loop.print, header_value]
    split <;> rfl
  exact congrArg (fun M => run cfg p (dispatch cfg M kind)) e

/-! ## Names -/

theorem cstr_name (name rest : List Nat) (h : ∀ b ∈ name, b ≠ 0) :
    cstr (name ++ 0 :: rest) = name := by
  unfold cstr
  rw [List.takeWhile_append_of_pos (by simpa using h)]
  simp

/-- The whole name is copied in one pass when the input holds it. -/
theorem body_name (cfg : Config) (p : List Nat) (L : Loop) (name rest : List Nat)
    (s : ccn_decoder_stack_item) (link : List ccn_decoder_stack_item)
    (hs : L.state = 4 ∨ L.state = 5) (hn : L.n = p.length)
    (hd : p.drop L.i = name ++ rest) (hlen : L.numval = name.length) (hpos : name ≠ [])
    (hnz : ∀ b ∈ name, b ≠ 0) (hst : L.d.stack = s :: link)
    (hidx : s.nameindex = L.d.stringstack.length) :
    body cfg p L =
      { L with
        d := { L.d with stack := { s with itemcount := 1 } :: link,
                        stringstack := L.d.stringstack ++ name ++ [0] },
        numval := 0, i := L.i + name.length, state := 0,
        tagstate := if L.state = 4 then 1 else 3,
        out := L.out ++ (if L.state = 4 then lit "<" ++ name
                         else lit " " ++ name ++ [61, 34]) } := by
  obtain ⟨_, hl, htk⟩ := drop_append_info hd
  have hlen0 : 0 < name.length := List.length_pos.mpr hpos
  have hchunk : (if L.n - L.i > L.numval then L.numval else L.n - L.i) = name.length := by
    split <;> omega
  have hbody : body cfg p L = case45 p L := by
    unfold body
    rcases hs with hs | hs <;> simp [hs]
  have hdrop : List.drop s.nameindex (L.d.stringstack ++ name ++ [0]) = name ++ [0] := by
    rw [hidx, List.append_assoc, List.drop_left]
  rw [hbody]
  unfold case45
  simp only [hchunk]
  rw [if_neg (by omega)]
  simp only [hlen, Nat.sub_self, if_true, htk]
  unfold name_done
  simp only [ccn_charbuf_append, hst, hdrop, strlen, cstr_name name [] hnz,
    set_itemcount, Loop.print]
  rw [if_neg (by simp [hidx])]
  rcases hs with hs | hs
  · simp [hs]
  · simp [hs]

/-- After a `TAG` header read from state 0 and the name that follows, the
start of the element is written and the tag is open. -/
theorem run_tag {cfg : Config} (hok : cfg.ok) (p : List Nat) (L : Loop)
    (gs : List Nat) (t : Nat) (name rest : List Nat)
    (hs : L.state = 0) (hn : L.n = p.length)
    (hd : p.drop L.i = header gs t cfg.CCN_TAG ++ (name ++ rest))
    (hg : ∀ g ∈ gs, g < 128) (ht : t < 8)
    (hv : header_value gs t + 1 = name.length) (hfit : name.length < 2 ^ cfg.size_bits)
    (hnz : ∀ b ∈ name, b ≠ 0) :
    run cfg p L = run cfg p
      { d := named (prelude cfg L cfg.CCN_TAG).d name, state := 0, tagstate := 1,
        numval := 0, i := L.i + (gs.length + 1) + name.length, n := L.n,
        out := (prelude cfg L cfg.CCN_TAG).out ++ (lit "<" ++ name) } := by
  have hk := ok_facts hok
  obtain ⟨hd2, hl, _⟩ := drop_append_info hd
  rw [header_length] at hd2 hl
  have hne : name ≠ [] := by
    intro h; rw [h] at hv; simp at hv
  have hpn : (prelude cfg L cfg.CCN_TAG).n = L.n := by
    unfold prelude close_start
    split <;> simp [Loop.print, (case0_quote_i L).2]
  rw [run_header0 cfg p t cfg.CCN_TAG (name ++ rest) ht hk.2.1.2 hk.2.1.1 hk.1 gs L hs hn hd hg
    (by omega), dispatch_TAG hok]
  rw [run_step cfg p _ (by
    show L.i + (gs.length + 1) < (prelude cfg L cfg.CCN_TAG).n
    rw [hpn, hn]
    have := List.length_pos.mpr hne
    simp only [List.length_append] at hl
    omega)]
  rw [body_name cfg p _ name rest
    { nameindex := (prelude cfg L cfg.CCN_TAG).d.stringstack.length, itemcount := 0,
      savedss := (prelude cfg L cfg.CCN_TAG).d.stringstack.length }
    (prelude cfg L cfg.CCN_TAG).d.stack (Or.inl rfl)
    (by show (prelude cfg L cfg.CCN_TAG).n = _; rw [hpn, hn]) hd2
    (by show (header_value gs t + 1) % 2 ^ cfg.size_bits = _
        rw [hv, Nat.mod_eq_of_lt hfit]) hne hnz
    (by simp [set_nameindex, ccn_decoder_push])
    (by simp [set_nameindex, ccn_decoder_push])]
  congr 1
  simp [named, frame, set_nameindex, ccn_decoder_push, hpn]

/-- After an `ATTR` header read from state 0 while a start tag is open and
the name that follows, the attribute name, `=` and the opening quote are
written. -/
theorem run_attr {cfg : Config} (hok : cfg.ok) (p : List Nat) (L : Loop)
    (gs : List Nat) (t : Nat) (name rest : List Nat)
    (hs : L.state = 0) (hn : L.n = p.length)
    (hd : p.drop L.i = header gs t cfg.CCN_ATTR ++ (name ++ rest))
    (hg : ∀ g ∈ gs, g < 128) (ht : t < 8)
    (hv : header_value gs t + 1 = name.length) (hfit : name.length < 2 ^ cfg.size_bits)
    (hnz : ∀ b ∈ name, b ≠ 0) (hts : (case0_quote L).tagstate = 1) :
    run cfg p L = run cfg p
      { d := named (case0_quote L).d name, state := 0, tagstate := 3,
        numval := 0, i := L.i + (gs.length + 1) + name.length, n := L.n,
        out := (case0_quote L).out ++ (lit " " ++ name ++ [61, 34]) } := by
  have hk := ok_facts hok
  obtain ⟨hd2, hl, _⟩ := drop_append_info hd
  rw [header_length] at hd2 hl
  have hne : name ≠ [] := by
    intro h; rw [h] at hv; simp at hv
  have hpre : prelude cfg L cfg.CCN_ATTR = case0_quote L := by
    unfold prelude close_start
    rw [if_neg (by simp)]
  have hpn : (case0_quote L).n = L.n := (case0_quote_i L).2
  rw [run_header0 cfg p t cfg.CCN_ATTR (name ++ rest) ht hk.2.2.1.2 hk.2.2.1.1 hk.1 gs L hs hn
    hd hg (by omega), hpre,
    dispatch_ATTR hok { case0_quote L with state := 1, i := L.i + (gs.length + 1),
                                           numval := header_value gs t } hts]
  rw [run_step cfg p _ (by
    show L.i + (gs.length + 1) < (case0_quote L).n
    rw [hpn, hn]
    have := List.length_pos.mpr hne
    simp only [List.length_append] at hl
    omega)]
  rw [body_name cfg p _ name rest
    { nameindex := (case0_quote L).d.stringstack.length, itemcount := 0,
      savedss := (case0_quote L).d.stringstack.length }
    (case0_quote L).d.stack (Or.inr rfl)
    (by show (case0_quote L).n = _; rw [hpn, hn]) hd2
    (by show (header_value gs t + 1) % 2 ^ cfg.size_bits = _
        rw [hv, Nat.mod_eq_of_lt hfit]) hne hnz
    (by simp [set_nameindex, ccn_decoder_push])
    (by simp [set_nameindex, ccn_decoder_push])]
  congr 1
  simp [named, frame, set_nameindex, ccn_decoder_push, hpn]

/-! ## Payloads -/

/-- The pre-decrement `--numval` of a counter that is not zero. -/
theorem dec_numval (bits n : Nat) (h1 : 0 < n) (h2 : n < 2 ^ bits) :
    (n + (2 ^ bits - 1)) % 2 ^ bits = n - 1 := by
  have e : n + (2 ^ bits - 1) = (n - 1) + 2 ^ bits := by omega
  rw [e, Nat.add_mod_right, Nat.mod_eq_of_lt (by omega)]

theorem body_text (cfg : Config) (p : List Nat) (L : Loop) (c : Nat)
    (hs : L.state = 3) (hb : p.getD L.i 0 = c) (hc : c ≠ 0)
    (h1 : 0 < L.numval) (h2 : L.numval < 2 ^ cfg.size_bits) :
    body cfg p L =
      { L with i := L.i + 1, numval := L.numval - 1,
               state := if L.numval - 1 = 0 then 0 else 3,
               out := L.out ++ escape c } := by
  have hbody : body cfg p L = case3 cfg p L := by
    unfold body; simp [hs]
  rw [hbody]
  unfold case3 escape
  simp only [hb, dec_numval cfg.size_bits L.numval h1 h2, hs, Loop.print, if_neg hc]
  repeat' split
  all_goals simp_all

/-- A text payload without a zero byte, read from state 3. -/
theorem run_text (cfg : Config) (p : List Nat) (rest : List Nat) :
    ∀ (txt : List Nat) (L : Loop), L.state = 3 → L.n = p.length →
      p.drop L.i = txt ++ rest → L.numval = txt.length → txt ≠ [] →
      (∀ b ∈ txt, b ≠ 0) → txt.length < 2 ^ cfg.size_bits →
      run cfg p L = run cfg p
        { L with state := 0, numval := 0, i := L.i + txt.length,
                 out := L.out ++ escape_all txt } := by
  intro txt
  induction txt with
  | nil => intro L _ _ _ _ h; exact absurd rfl h
  | cons c cs ih =>
    intro L hs hn hd hlen _ hnz hfit
    obtain ⟨hb, hd2, hi⟩ := drop_cons_info (show p.drop L.i = c :: (cs ++ rest) from hd)
    have hc : c ≠ 0 := hnz c (List.mem_cons_self _ _)
    simp only [List.length_cons] at hlen hfit
    rw [run_step cfg p L (by omega),
      body_text cfg p L c hs hb hc (by omega) (by omega)]
    by_cases hcs : cs = []
    · subst hcs
      simp only [List.length_nil] at hlen
      have e : L.numval - 1 = 0 := by omega
      simp only [e, if_true, escape_all, List.append_nil, List.length_cons, List.length_nil]
    · have hpos : 0 < cs.length := List.length_pos.mpr hcs
      have e : ¬ L.numval - 1 = 0 := by omega
      simp only [e, if_false]
      rw [ih { L with i := L.i + 1, numval := L.numval - 1, state := 3,
                      out := L.out ++ escape c } rfl hn hd2
        (by show L.numval - 1 = cs.length; omega) hcs
        (fun b hb => hnz b (List.mem_cons_of_mem _ hb)) (by omega)]
      simp only [escape_all, List.append_assoc, List.length_cons, Nat.add_assoc,
        Nat.add_comm 1]

theorem base64At_alphabet : ∀ v < 64, Base64At v = alphabet v := by decide

theorem body_blob0 (cfg : Config) (p : List Nat) (L : Loop) (c : Nat)
    (hs : L.state = 10) (hb : p.getD L.i 0 = c) (hc : c < 256)
    (h1 : 0 < L.numval) (h2 : L.numval < 2 ^ cfg.size_bits) :
    body cfg p L =
      if L.numval - 1 = 0 then
        { L with i := L.i + 1, numval := 0, state := 0,
                 out := L.out ++ [alphabet (c / 4), alphabet (c % 4 * 16), 61, 61] }
      else
        { L with i := L.i + 1, numval := L.numval - 1, state := 11,
                 out := L.out ++ [alphabet (c / 4)],
                 d := { L.d with bits := c % 4 } } := by
  have hbody : body cfg p L = case10 cfg p L := by
    unfold body; simp [hs]
  rw [hbody]
  unfold case10
  simp only [hb, dec_numval cfg.size_bits L.numval h1 h2, Loop.print, and3, shr2, shl4,
    base64At_alphabet (c / 4) (by omega), base64At_alphabet (c % 4 * 16) (by omega)]
  split
  · rename_i h; simp [h]
  · rfl

theorem body_blob1 (cfg : Config) (p : List Nat) (L : Loop) (c : Nat)
    (hs : L.state = 11) (hb : p.getD L.i 0 = c) (hc : c < 256)
    (h1 : 0 < L.numval) (h2 : L.numval < 2 ^ cfg.size_bits) :
    body cfg p L =
      if L.numval - 1 = 0 then
        { L with i := L.i + 1, numval := 0, state := 0,
                 out := L.out ++ [alphabet (L.d.bits % 4 * 16 + c / 16),
                                  alphabet (c % 16 * 4), 61] }
      else
        { L with i := L.i + 1, numval := L.numval - 1, state := 12,
                 out := L.out ++ [alphabet (L.d.bits % 4 * 16 + c / 16)],
                 d := { L.d with bits := c % 16 } } := by
  have hbody : body cfg p L = case11 cfg p L := by
    unfold body; simp [hs]
  rw [hbody]
  unfold case11
  simp only [hb, dec_numval cfg.size_bits L.numval h1 h2, Loop.print, and3, and15, shr4,
    shl4, shl2, base64At_alphabet (L.d.bits % 4 * 16 + c / 16) (by omega),
    base64At_alphabet (c % 16 * 4) (by omega)]
  split
  · rename_i h; simp [h]
  · rfl

theorem body_blob2 (cfg : Config) (p : List Nat) (L : Loop) (c : Nat)
    (hs : L.state = 12) (hb : p.getD L.i 0 = c) (hc : c < 256)
    (h1 : 0 < L.numval) (h2 : L.numval < 2 ^ cfg.size_bits) :
    body cfg p L =
      { L with i := L.i + 1, numval := L.numval - 1,
               state := if L.numval - 1 = 0 then 0 else 10,
               out := L.out ++ [alphabet (L.d.bits % 16 * 4 + c / 64),
                                alphabet (c % 64)] } := by
  have hbody : body cfg p L = case12 cfg p L := by
    unfold body; simp [hs]
  rw [hbody]
  unfold case12
  simp only [hb, dec_numval cfg.size_bits L.numval h1 h2, Loop.print, and15, and63, shr6,
    shl2, base64At_alphabet (L.d.bits % 16 * 4 + c / 64) (by omega),
    base64At_alphabet (c % 64) (by omega)]

theorem sextet_one (a : Nat) (ha : a < 256) :
    sextet (a * 2 ^ 4) 1 = a / 4 ∧ sextet (a * 2 ^ 4) 0 = a % 4 * 16 := by
  simp only [sextet]
  norm_num
  omega

theorem sextet_two (a b : Nat) (ha : a < 256) (hb : b < 256) :
    sextet ((a * 2 ^ 8 + b) * 2 ^ 2) 2 = a / 4 ∧
    sextet ((a * 2 ^ 8 + b) * 2 ^ 2) 1 = a % 4 * 16 + b / 16 ∧
    sextet ((a * 2 ^ 8 + b) * 2 ^ 2) 0 = b % 16 * 4 := by
  simp only [sextet]
  norm_num
  omega

theorem sextet_three (a b c : Nat) (ha : a < 256) (hb : b < 256) (hc : c < 256) :
    sextet ((a * 2 ^ 8 + b) * 2 ^ 8 + c) 3 = a / 4 ∧
    sextet ((a * 2 ^ 8 + b) * 2 ^ 8 + c) 2 = a % 4 * 16 + b / 16 ∧
    sextet ((a * 2 ^ 8 + b) * 2 ^ 8 + c) 1 = b % 16 * 4 + c / 64 ∧
    sextet ((a * 2 ^ 8 + b) * 2 ^ 8 + c) 0 = c % 64 := by
  simp only [sextet]
  norm_num
  omega

theorem rfc4648_one (a : Nat) (ha : a < 256) :
    rfc4648 [a] = [alphabet (a / 4), alphabet (a % 4 * 16), 61, 61] := by
  simp only [rfc4648, (sextet_one a ha).1, (sextet_one a ha).2]

theorem rfc4648_two (a b : Nat) (ha : a < 256) (hb : b < 256) :
    rfc4648 [a, b] =
      [alphabet (a / 4), alphabet (a % 4 * 16 + b / 16), alphabet (b % 16 * 4), 61] := by
  simp only [rfc4648, (sextet_two a b ha hb).1, (sextet_two a b ha hb).2.1,
    (sextet_two a b ha hb).2.2]

theorem rfc4648_three (a b c : Nat) (rest : List Nat) (ha : a < 256) (hb : b < 256)
    (hc : c < 256) :
    rfc4648 (a :: b :: c :: rest) =
      [alphabet (a / 4), alphabet (a % 4 * 16 + b / 16), alphabet (b % 16 * 4 + c / 64),
        alphabet (c % 64)] ++ rfc4648 rest := by
  simp only [rfc4648, (sextet_three a b c ha hb hc).1, (sextet_three a b c ha hb hc).2.1,
    (sextet_three a b c ha hb hc).2.2.1, (sextet_three a b c ha hb hc).2.2.2]

/-- A blob payload read from state 10: what is written is its RFC 4648
encoding. -/
theorem run_blob (cfg : Config) (p : List Nat) (rest : List Nat) :
    ∀ (payload : List Nat) (L : Loop), L.state = 10 → L.n = p.length →
      p.drop L.i = payload ++ rest → L.numval = payload.length → payload ≠ [] →
      (∀ b ∈ payload, b < 256) → payload.length < 2 ^ cfg.size_bits →
      ∃ bits, run cfg p L = run cfg p
        { L with state := 0, numval := 0, i := L.i + payload.length,
                 out := L.out ++ rfc4648 payload,
                 d := { L.d with bits := bits } } := by
  intro payload
  induction payload using rfc4648.induct with
  | case1 => intro L _ _ _ _ h; exact absurd rfl h
  | case2 a =>
    intro L hs hn hd hlen _ hlt hfit
    obtain ⟨hb, hd2, hi⟩ := drop_cons_info (show p.drop L.i = a :: rest from hd)
    have ha : a < 256 := hlt a (by simp)
    simp only [List.length_cons, List.length_nil] at hlen hfit
    refine ⟨L.d.bits, ?_⟩
    rw [run_step cfg p L (by omega), body_blob0 cfg p L a hs hb ha (by omega) (by omega),
      if_pos (by omega), rfc4648_one a ha]
    rfl
  | case3 a b =>
    intro L hs hn hd hlen _ hlt hfit
    obtain ⟨hb, hd2, hi⟩ := drop_cons_info (show p.drop L.i = a :: ([b] ++ rest) from hd)
    obtain ⟨hb2, hd3, hi2⟩ := drop_cons_info (show p.drop (L.i + 1) = b :: rest from hd2)
    have ha : a < 256 := hlt a (by simp)
    have hb' : b < 256 := hlt b (by simp)
    simp only [List.length_cons, List.length_nil] at hlen hfit
    refine ⟨a % 4, ?_⟩
    rw [run_step cfg p L (by omega), body_blob0 cfg p L a hs hb ha (by omega) (by omega),
      if_neg (by omega)]
    rw [run_step cfg p _ (by show L.i + 1 < L.n; omega),
      body_blob1 cfg p _ b rfl hb2 hb' (by show 0 < L.numval - 1; omega)
        (by show L.numval - 1 < _; omega),
      if_pos (by show L.numval - 1 - 1 = 0; omega), rfc4648_two a b ha hb']
    simp only [List.append_assoc, List.singleton_append, List.length_cons, List.length_nil,
      Nat.mod_mod, Nat.add_assoc]
  | case4 a b c tl ih =>
    intro L hs hn hd hlen _ hlt hfit
    obtain ⟨hb, hd2, hi⟩ :=
      drop_cons_info (show p.drop L.i = a :: (b :: c :: tl ++ rest) from hd)
    obtain ⟨hb2, hd3, hi2⟩ :=
      drop_cons_info (show p.drop (L.i + 1) = b :: (c :: tl ++ rest) from hd2)
    obtain ⟨hb3, hd4, hi3⟩ :=
      drop_cons_info (show p.drop (L.i + 1 + 1) = c :: (tl ++ rest) from hd3)
    have ha : a < 256 := hlt a (by simp)
    have hb' : b < 256 := hlt b (by simp)
    have hc' : c < 256 := hlt c (by simp)
    simp only [List.length_cons] at hlen hfit
    rw [run_step cfg p L (by omega), body_blob0 cfg p L a hs hb ha (by omega) (by omega),
      if_neg (by omega)]
    rw [run_step cfg p _ (by show L.i + 1 < L.n; omega),
      body_blob1 cfg p _ b rfl hb2 hb' (by show 0 < L.numval - 1; omega)
        (by show L.numval - 1 < _; omega),
      if_neg (by show ¬ L.numval - 1 - 1 = 0; omega)]
    rw [run_step cfg p _ (by show L.i + 1 + 1 < L.n; omega),
      body_blob2 cfg p _ c rfl hb3 hc' (by show 0 < L.numval - 1 - 1; omega)
        (by show L.numval - 1 - 1 < _; omega), rfc4648_three a b c tl ha hb' hc']
    by_cases htl : tl = []
    · subst htl
      simp only [List.length_nil] at hlen
      refine ⟨b % 16, ?_⟩
      have e : L.numval - 1 - 1 - 1 = 0 := by omega
      simp only [e, if_true, rfc4648, List.append_nil, List.append_assoc,
        List.singleton_append, List.length_cons, List.length_nil, Nat.mod_mod,
        Nat.add_assoc, List.cons_append, List.nil_append]
    · have hpos : 0 < tl.length := List.length_pos.mpr htl
      have e : ¬ L.numval - 1 - 1 - 1 = 0 := by omega
      simp only [e, if_false]
      obtain ⟨bits, hrun⟩ := ih
        { L with i := L.i + 1 + 1 + 1, numval := L.numval - 1 - 1 - 1, state := 10,
                 out := L.out ++ [alphabet (a / 4)] ++ [alphabet (a % 4 % 4 * 16 + b / 16)]
                   ++ [alphabet (b % 16 % 16 * 4 + c / 64), alphabet (c % 64)],
                 d := { L.d with bits := b % 16 } }
        rfl hn hd4 (by show L.numval - 1 - 1 - 1 = tl.length; omega) htl
        (fun x hx => hlt x (by simp [hx])) (by omega)
      refine ⟨bits, Eq.trans (congrArg (run cfg p) ?_)
        (hrun.trans (congrArg (run cfg p) ?_))⟩
      · rfl
      · have e1 : L.i + 1 + 1 + 1 + tl.length = L.i + (tl.length + 1 + 1 + 1) := by omega
        simp only [e1, List.append_assoc, List.singleton_append, List.length_cons,
          Nat.mod_mod, List.cons_append, List.nil_append]

/-! ## Items read from state 0 -/

theorem prelude_i (cfg : Config) (L : Loop) (kind : Nat) :
    (prelude cfg L kind).i = L.i ∧ (prelude cfg L kind).n = L.n ∧
      (prelude cfg L kind).state = L.state := by
  unfold prelude close_start case0_quote
  repeat' split
  all_goals simp [Loop.print]

/-- An `INTVAL` header read from state 0. -/
theorem run_intval {cfg : Config} (hok : cfg.ok) (p : List Nat) (L : Loop)
    (gs : List Nat) (t : Nat) (rest : List Nat)
    (hs : L.state = 0) (hn : L.n = p.length)
    (hd : p.drop L.i = header gs t cfg.CCN_INTVAL ++ rest)
    (hg : ∀ g ∈ gs, g < 128) (ht : t < 8)
    (hfit : header_value gs t < 2 ^ cfg.size_bits) :
    run cfg p L = run cfg p
      { prelude cfg L cfg.CCN_INTVAL with
        state := 0, numval := header_value gs t, i := L.i + (gs.length + 1),
        out := (prelude cfg L cfg.CCN_INTVAL).out ++ decimal (header_value gs t) } := by
  have hk := ok_facts hok
  rw [run_header0 cfg p t cfg.CCN_INTVAL rest ht hk.2.2.2.2.2.1.2 hk.2.2.2.2.2.1.1 hk.1 gs L
    hs hn hd hg hfit, dispatch_INTVAL]
  rfl

/-- A `UDATA` header read from state 0 and the text that follows. -/
theorem run_udata {cfg : Config} (hok : cfg.ok) (p : List Nat) (L : Loop)
    (gs : List Nat) (t : Nat) (txt rest : List Nat)
    (hs : L.state = 0) (hn : L.n = p.length)
    (hd : p.drop L.i = header gs t cfg.CCN_UDATA ++ (txt ++ rest))
    (hg : ∀ g ∈ gs, g < 128) (ht : t < 8)
    (hv : header_value gs t = txt.length) (hfit : txt.length < 2 ^ cfg.size_bits)
    (hnz : ∀ b ∈ txt, b ≠ 0) :
    run cfg p L = run cfg p
      { prelude cfg L cfg.CCN_UDATA with
        state := 0, numval := 0, i := L.i + (gs.length + 1) + txt.length,
        out := (prelude cfg L cfg.CCN_UDATA).out ++ escape_all txt } := by
  have hk := ok_facts hok
  obtain ⟨hd2, hl, _⟩ := drop_append_info hd
  rw [header_length] at hd2 hl
  have hp := prelude_i cfg L cfg.CCN_UDATA
  rw [run_header0 cfg p t cfg.CCN_UDATA (txt ++ rest) ht hk.2.2.2.2.1.2 hk.2.2.2.2.1.1 hk.1 gs
    L hs hn hd hg (by omega), dispatch_UDATA hok]
  by_cases htxt : txt = []
  · subst htxt
    simp only [List.length_nil] at hv
    simp only [hv, if_true, escape_all, List.append_nil, List.length_nil, Nat.add_zero]
  · have hpos : 0 < txt.length := List.length_pos.mpr htxt
    have e : ¬ header_value gs t = 0 := by omega
    simp only [e, if_false]
    rw [run_text cfg p rest txt _ rfl (by show (prelude cfg L cfg.CCN_UDATA).n = _; rw [hp.2.1, hn])
      hd2 hv htxt hnz hfit]

/-- A `BLOB` header read from state 0 and the payload that follows. -/
theorem run_blob_item {cfg : Config} (hok : cfg.ok) (p : List Nat) (L : Loop)
    (gs : List Nat) (t : Nat) (payload rest : List Nat)
    (hs : L.state = 0) (hn : L.n = p.length)
    (hd : p.drop L.i = header gs t cfg.CCN_BLOB ++ (payload ++ rest))
    (hg : ∀ g ∈ gs, g < 128) (ht : t < 8)
    (hv : header_value gs t = payload.length) (hfit : payload.length < 2 ^ cfg.size_bits)
    (hlt : ∀ b ∈ payload, b < 256) :
    ∃ bits, run cfg p L = run cfg p
      { prelude cfg L cfg.CCN_BLOB with
        state := 0, numval := 0, i := L.i + (gs.length + 1) + payload.length,
        out := (prelude cfg L cfg.CCN_BLOB).out ++ rfc4648 payload,
        d := { (prelude cfg L cfg.CCN_BLOB).d with bits := bits } } := by
  have hk := ok_facts hok
  obtain ⟨hd2, hl, _⟩ := drop_append_info hd
  rw [header_length] at hd2 hl
  have hp := prelude_i cfg L cfg.CCN_BLOB
  rw [run_header0 cfg p t cfg.CCN_BLOB (payload ++ rest) ht hk.2.2.2.1.2 hk.2.2.2.1.1 hk.1 gs
    L hs hn hd hg (by omega), dispatch_BLOB hok]
  by_cases hpl : payload = []
  · subst hpl
    simp only [List.length_nil] at hv
    refine ⟨(prelude cfg L cfg.CCN_BLOB).d.bits, ?_⟩
    simp only [hv, if_true, rfc4648, List.append_nil, List.length_nil, Nat.add_zero]
  · have hpos : 0 < payload.length := List.length_pos.mpr hpl
    have e : ¬ header_value gs t = 0 := by omega
    simp only [e, if_false]
    exact run_blob cfg p rest payload _ rfl
      (by show (prelude cfg L cfg.CCN_BLOB).n = _; rw [hp.2.1, hn]) hd2 hv hpl hlt hfit

/-- The byte `CCN_CLOSE` read in state 0. -/
theorem run_close (cfg : Config) (p : List Nat) (L : Loop) (rest : List Nat)
    (hs : L.state = 0) (hn : L.n = p.length)
    (hd : p.drop L.i = cfg.CCN_CLOSE :: rest) :
    run cfg p L = run cfg p (case0_close (case0_quote L)) := by
  obtain ⟨hb, _, hi⟩ := drop_cons_info hd
  rw [run_step cfg p L (by omega), body_state0_close cfg p L hs hb]

theorem header_value_nil (t : Nat) : header_value [] t = t := by
  simp [header_value, groups_value]

theorem header_nil (t kind : Nat) : header [] t kind = [(t <<< 4) + kind] := rfl

/-! ## Decimal digits -/

theorem decimalAux_spec : ∀ (fuel v : Nat) (acc : List Nat), v < fuel →
    ∃ ds, decimalAux fuel v acc = ds ++ acc ∧ ds ≠ [] ∧
      (∀ c ∈ ds, 48 ≤ c ∧ c ≤ 57) ∧ decimal_value ds = v ∧
      (v ≠ 0 → ds.head? ≠ some 48) ∧ (v = 0 → ds = [48]) := by
  intro fuel
  induction fuel with
  | zero => intro v acc h; omega
  | succ fuel ih =>
    intro v acc h
    by_cases hv : v < 10
    · refine ⟨[48 + v], ?_, by simp, ?_, ?_, ?_, ?_⟩
      · simp [decimalAux, hv]
      · intro c hc
        simp only [List.mem_singleton] at hc
        omega
      · simp [decimal_value]
      · intro h0
        simp only [List.head?_cons, ne_eq, Option.some.injEq]
        omega
      · intro h0; subst h0; rfl
    · obtain ⟨ds, h1, h2, h3, h4, h5, _⟩ :=
        ih (v / 10) ((48 + v % 10) :: acc) (by omega)
      refine ⟨ds ++ [48 + v % 10], ?_, by simp, ?_, ?_, ?_, ?_⟩
      · simp [decimalAux, hv, h1]
      · intro c hc
        rcases List.mem_append.mp hc with hc | hc
        · exact h3 c hc
        · simp only [List.mem_singleton] at hc
          omega
      · unfold decimal_value at h4 ⊢
        rw [List.foldl_append, h4]
        simp only [List.foldl_cons, List.foldl_nil]
        omega
      · intro _
        cases ds with
        | nil => exact absurd rfl h2
        | cons d ds =>
          have := h5 (by omega)
          simpa using this
      · intro h0; omega

/-- What `decimal` writes: digits only, no leading zero, and the number they
denote is the argument. -/
theorem decimal_spec (v : Nat) :
    decimal v ≠ [] ∧ (∀ c ∈ decimal v, 48 ≤ c ∧ c ≤ 57) ∧
      decimal_value (decimal v) = v ∧ (v ≠ 0 → (decimal v).head? ≠ some 48) ∧
      (v = 0 → decimal v = [48]) := by
  obtain ⟨ds, h1, h2, h3, h4, h5, h6⟩ := decimalAux_spec (v + 1) v [] (by omega)
  have e : decimal v = ds := by
    unfold decimal; rw [h1]; simp
  rw [e]
  exact ⟨h2, h3, h4, h5, h6⟩

/-! ## Base 64 -/

theorem alphabet_inv : ∀ v < 64, alphabet_value (alphabet v) = v ∧ alphabet v ≠ 61 := by
  decide

theorem alphabet_ne_pad (v : Nat) : alphabet v ≠ 61 := by
  unfold alphabet
  repeat' split
  all_goals omega

theorem alphabet_value_alphabet (v : Nat) (h : v < 64) : alphabet_value (alphabet v) = v :=
  (alphabet_inv v h).1

theorem sextet_lt (n k : Nat) : sextet n k < 64 := by
  unfold sextet
  exact Nat.mod_lt _ (by norm_num)

/-- The decoder of RFC 4648 gives back the bytes that were encoded. -/
theorem rfc4648_roundtrip : ∀ (payload : List Nat), (∀ b ∈ payload, b < 256) →
    rfc4648_decode (rfc4648 payload) = payload := by
  intro payload
  induction payload using rfc4648.induct with
  | case1 => intro _; rfl
  | case2 a =>
    intro h
    have ha : a < 256 := h a (by simp)
    simp only [rfc4648, rfc4648_decode, if_true, alphabet_value_alphabet _ (sextet_lt _ _)]
    simp only [sextet]
    norm_num
    omega
  | case3 a b =>
    intro h
    have ha : a < 256 := h a (by simp)
    have hb : b < 256 := h b (by simp)
    simp only [rfc4648, rfc4648_decode, if_neg (alphabet_ne_pad _), if_true,
      alphabet_value_alphabet _ (sextet_lt _ _)]
    simp only [sextet]
    norm_num
    omega
  | case4 a b c tl ih =>
    intro h
    have ha : a < 256 := h a (by simp)
    have hb : b < 256 := h b (by simp)
    have hc : c < 256 := h c (by simp)
    have ih' := ih (fun x hx => h x (by simp [hx]))
    simp only [rfc4648, List.cons_append, List.nil_append, rfc4648_decode,
      if_neg (alphabet_ne_pad _), alphabet_value_alphabet _ (sextet_lt _ _), ih']
    simp only [sextet]
    norm_num
    exact ⟨by omega, by omega, by omega, ih'⟩

/-- The padding of RFC 4648: `==` after a last group of one byte, `=` after
a last group of two bytes, none otherwise; `=` occurs nowhere else. -/
theorem rfc4648_padding : ∀ (payload : List Nat),
    (rfc4648 payload).count 61 = (3 - payload.length % 3) % 3 ∧
    (payload.length % 3 = 1 → [61, 61] <:+ rfc4648 payload) ∧
    (payload.length % 3 = 2 → [61] <:+ rfc4648 payload) ∧
    (rfc4648 payload).length = 4 * ((payload.length + 2) / 3) := by
  intro payload
  induction payload using rfc4648.induct with
  | case1 => simp [rfc4648]
  | case2 a =>
    refine ⟨?_, ?_, ?_, ?_⟩
    · simp [rfc4648, List.count_cons, alphabet_ne_pad]
    · intro _; exact ⟨[_, _], rfl⟩
    · intro h; simp at h
    · simp [rfc4648]
  | case3 a b =>
    refine ⟨?_, ?_, ?_, ?_⟩
    · simp [rfc4648, List.count_cons, alphabet_ne_pad]
    · intro h; simp at h
    · intro _; exact ⟨[_, _, _], rfl⟩
    · simp [rfc4648]
  | case4 a b c tl ih =>
    obtain ⟨i1, i2, i3, i4⟩ := ih
    have el : (a :: b :: c :: tl).length % 3 = tl.length % 3 := by
      simp only [List.length_cons]; omega
    refine ⟨?_, ?_, ?_, ?_⟩
    · rw [el, ← i1]
      simp [rfc4648, List.count_cons, alphabet_ne_pad]
    · intro h
      rw [el] at h
      exact (i2 h).trans (List.suffix_append _ _)
    · intro h
      rw [el] at h
      exact (i3 h).trans (List.suffix_append _ _)
    · simp only [rfc4648, List.cons_append, List.nil_append, List.length_cons, i4]
      omega

/-! ## Items of a document -/

theorem case0_quote_of_le {L : Loop} (h : L.tagstate ≤ 1) : case0_quote L = L := by
  unfold case0_quote
  rw [if_neg (by omega)]

theorem case0_quote_state (L : Loop) : (case0_quote L).state = L.state := by
  unfold case0_quote
  repeat' split
  all_goals simp [Loop.print]

theorem prelude_d (cfg : Config) (L : Loop) (kind : Nat) :
    (prelude cfg L kind).d = (case0_quote L).d := by
  unfold prelude close_start
  split <;> simp [Loop.print]

theorem prelude_tagstate (cfg : Config) (L : Loop) (kind : Nat)
    (hk : kind ≠ cfg.CCN_ATTR) :
    (prelude cfg L kind).tagstate =
      (if (case0_quote L).tagstate = 1 then 0 else (case0_quote L).tagstate) := by
  unfold prelude close_start
  by_cases h : (case0_quote L).tagstate = 1
  · simp [h, hk, Loop.print]
  · simp [h]

/-- Text behind its `UDATA` header is an item. -/
theorem item_udata {cfg : Config} (hok : cfg.ok) (p : List Nat) (L : Loop)
    (gs : List Nat) (t : Nat) (txt rest : List Nat)
    (hs : L.state = 0) (hn : L.n = p.length)
    (hd : p.drop L.i = header gs t cfg.CCN_UDATA ++ (txt ++ rest))
    (hg : ∀ g ∈ gs, g < 128) (ht : t < 8)
    (hv : header_value gs t = txt.length) (hfit : txt.length < 2 ^ cfg.size_bits)
    (hnz : ∀ b ∈ txt, b ≠ 0) :
    Item cfg p L ((header gs t cfg.CCN_UDATA).length + txt.length) := by
  have hk := ok_facts hok
  refine ⟨_, run_udata hok p L gs t txt rest hs hn hd hg ht hv hfit hnz, rfl,
    (prelude_i _ _ _).2.1, ?_, ?_, ?_, ?_⟩
  · simp [header_length]; omega
  · exact congrArg ccn_decoder.stack (prelude_d cfg L _)
  · exact congrArg ccn_decoder.stringstack (prelude_d cfg L _)
  · exact prelude_tagstate cfg L _ (by omega)

/-- A blob behind its `BLOB` header is an item. -/
theorem item_blob {cfg : Config} (hok : cfg.ok) (p : List Nat) (L : Loop)
    (gs : List Nat) (t : Nat) (payload rest : List Nat)
    (hs : L.state = 0) (hn : L.n = p.length)
    (hd : p.drop L.i = header gs t cfg.CCN_BLOB ++ (payload ++ rest))
    (hg : ∀ g ∈ gs, g < 128) (ht : t < 8)
    (hv : header_value gs t = payload.length) (hfit : payload.length < 2 ^ cfg.size_bits)
    (hlt : ∀ b ∈ payload, b < 256) :
    Item cfg p L ((header gs t cfg.CCN_BLOB).length + payload.length) := by
  have hk := ok_facts hok
  obtain ⟨bits, hrun⟩ := run_blob_item hok p L gs t payload rest hs hn hd hg ht hv hfit hlt
  refine ⟨_, hrun, rfl, (prelude_i _ _ _).2.1, ?_, ?_, ?_, ?_⟩
  · simp [header_length]; omega
  · show (prelude cfg L cfg.CCN_BLOB).d.stack = _
    rw [prelude_d]
  · show (prelude cfg L cfg.CCN_BLOB).d.stringstack = _
    rw [prelude_d]
  · exact prelude_tagstate cfg L _ (by omega)

/-! ### Integers of any size -/

theorem body_state9 (cfg : Config) (p : List Nat) (L : Loop) (hs : L.state = 9) :
    body cfg p L = case9 cfg p L := by
  unfold body
  simp [hs]

/-- An `INTVAL` header read from state 9. -/
theorem int_from9 (cfg : Config) (p : List Nat) (t : Nat) (rest : List Nat) (ht : t < 8)
    (hk : cfg.CCN_INTVAL < 16) :
    ∀ (gs : List Nat) (L : Loop), L.state = 9 → L.n = p.length →
      p.drop L.i = header gs t cfg.CCN_INTVAL ++ rest → (∀ g ∈ gs, g < 128) →
      ∃ L2 : Loop, run cfg p L = run cfg p L2 ∧ L2.state = 0 ∧ L2.n = L.n ∧
        L2.i = L.i + (gs.length + 1) ∧ L2.d.stack = L.d.stack ∧
        L2.d.stringstack = L.d.stringstack ∧
        L2.tagstate = (if L.tagstate = 1 then 0 else L.tagstate) := by
  intro gs
  induction gs with
  | nil =>
    intro L hs hn hd _
    obtain ⟨hb, _, hi⟩ := drop_cons_info (show p.drop L.i = _ :: rest from hd)
    have h0 : (t <<< 4) + cfg.CCN_INTVAL = t * 16 + cfg.CCN_INTVAL := by rw [shl4]
    have h1 : (t * 16 + cfg.CCN_INTVAL) &&& 127 = t * 16 + cfg.CCN_INTVAL := by
      rw [and127]; omega
    have h4 : (t * 16 + cfg.CCN_INTVAL) &&& 15 = cfg.CCN_INTVAL := by rw [and15]; omega
    refine ⟨_, run_step cfg p L (by omega), ?_⟩
    rw [body_state9 cfg p L hs]
    unfold case9
    simp only [hb, h0, h1, h4, ne_eq, not_true_eq_false, if_false, if_true]
    by_cases hts : L.tagstate = 1
    · simp [hts, Loop.print]
    · simp [hts, Loop.print]
  | cons g gs ih =>
    intro L hs hn hd hg
    rw [header_cons] at hd
    obtain ⟨hb, hd2, hi⟩ :=
      drop_cons_info (show p.drop L.i = _ :: (header gs t cfg.CCN_INTVAL ++ rest) from hd)
    have hg1 : g < 128 := hg g (List.mem_cons_self _ _)
    have hc : 128 + g ≠ (128 + g) &&& 127 := by rw [and127]; omega
    have hbody : body cfg p L =
        { L with i := L.i + 1,
                 d := { L.d with bignumval :=
                   (shl cfg.max_bits L.d.bignumval 7 + ((128 + g) &&& 127))
                     % 2 ^ cfg.max_bits } } := by
      rw [body_state9 cfg p L hs]
      unfold case9
      simp only [hb, ne_eq, hc, not_false_eq_true, if_true]
    obtain ⟨L2, h1, h2, h3, h4, h5, h6, h7⟩ := ih
      { L with i := L.i + 1,
               d := { L.d with bignumval :=
                 (shl cfg.max_bits L.d.bignumval 7 + ((128 + g) &&& 127))
                   % 2 ^ cfg.max_bits } } hs hn hd2
      (fun x hx => hg x (List.mem_cons_of_mem _ hx))
    refine ⟨L2, ?_, h2, h3, ?_, h5, h6, h7⟩
    · rw [run_step cfg p L (by omega), hbody]; exact h1
    · rw [h4]; simp only [List.length_cons]; omega

/-- A terminal `INTVAL` byte in state 1, whatever the accumulator holds. -/
theorem case1_int_any (cfg : Config) (p : List Nat) (L : Loop) (t : Nat)
    (ht : t < 8) (hk : cfg.CCN_INTVAL < 16)
    (hb : p.getD L.i 0 = (t <<< 4) + cfg.CCN_INTVAL) :
    (case1 cfg p L).state = 0 ∧ (case1 cfg p L).n = L.n ∧ (case1 cfg p L).i = L.i + 1 ∧
      (case1 cfg p L).d = L.d ∧
      (case1 cfg p L).tagstate = (if L.tagstate = 1 ∧ cfg.CCN_INTVAL ≠ cfg.CCN_ATTR then 0
        else L.tagstate) := by
  have h0 : (t <<< 4) + cfg.CCN_INTVAL = t * 16 + cfg.CCN_INTVAL := by rw [shl4]
  have h1 : (t * 16 + cfg.CCN_INTVAL) &&& 127 = t * 16 + cfg.CCN_INTVAL := by
    rw [and127]; omega
  have h4 : (t * 16 + cfg.CCN_INTVAL) &&& 15 = cfg.CCN_INTVAL := by rw [and15]; omega
  unfold case1
  simp only [hb, h0, h1, h4, ne_eq, not_true_eq_false, if_false, dispatch_INTVAL]
  split <;> simp [Loop.print]

/-- A continuation byte in state 1, whatever the accumulator holds: the
decoder stays in state 1 or moves to state 9, in which case the byte may be
left to be read again. -/
theorem case1_cont_any (cfg : Config) (p : List Nat) (L : Loop) (g : Nat) (hg : g < 128)
    (hb : p.getD L.i 0 = 128 + g) :
    (case1 cfg p L).n = L.n ∧ (case1 cfg p L).tagstate = L.tagstate ∧
      (case1 cfg p L).d.stack = L.d.stack ∧
      (case1 cfg p L).d.stringstack = L.d.stringstack ∧
      (((case1 cfg p L).state = 9 ∧ (case1 cfg p L).i = L.i) ∨
       ((case1 cfg p L).state = 9 ∧ (case1 cfg p L).i = L.i + 1) ∨
       ((case1 cfg p L).state = L.state ∧ (case1 cfg p L).i = L.i + 1)) := by
  have hc : 128 + g ≠ (128 + g) &&& 127 := by rw [and127]; omega
  unfold case1
  simp only [hb, ne_eq, hc, not_false_eq_true, if_true]
  split
  · simp
  · split <;> simp

/-- An `INTVAL` header read from state 1. -/
theorem int_from1 (cfg : Config) (p : List Nat) (t : Nat) (rest : List Nat) (ht : t < 8)
    (hk : cfg.CCN_INTVAL < 16) (hka : cfg.CCN_INTVAL ≠ cfg.CCN_ATTR) :
    ∀ (gs : List Nat) (L : Loop), L.state = 1 → L.n = p.length →
      p.drop L.i = header gs t cfg.CCN_INTVAL ++ rest → (∀ g ∈ gs, g < 128) →
      ∃ L2 : Loop, run cfg p L = run cfg p L2 ∧ L2.state = 0 ∧ L2.n = L.n ∧
        L2.i = L.i + (gs.length + 1) ∧ L2.d.stack = L.d.stack ∧
        L2.d.stringstack = L.d.stringstack ∧
        L2.tagstate = (if L.tagstate = 1 then 0 else L.tagstate) := by
  intro gs
  induction gs with
  | nil =>
    intro L hs hn hd _
    obtain ⟨hb, _, hi⟩ := drop_cons_info (show p.drop L.i = _ :: rest from hd)
    obtain ⟨c1, c2, c3, c4, c5⟩ := case1_int_any cfg p L t ht hk hb
    refine ⟨case1 cfg p L, ?_, c1, c2, ?_, by rw [c4], by rw [c4], ?_⟩
    · rw [run_step cfg p L (by omega), body_state1 cfg p L hs]
    · rw [c3]; rfl
    · rw [c5]; simp [hka]
  | cons g gs ih =>
    intro L hs hn hd hg
    have hd0 := hd
    rw [header_cons] at hd
    obtain ⟨hb, hd2, hi⟩ :=
      drop_cons_info (show p.drop L.i = _ :: (header gs t cfg.CCN_INTVAL ++ rest) from hd)
    have hg1 : g < 128 := hg g (List.mem_cons_self _ _)
    obtain ⟨c1, c2, c3, c4, c5⟩ := case1_cont_any cfg p L g hg1 hb
    have hstep : run cfg p L = run cfg p (case1 cfg p L) := by
      rw [run_step cfg p L (by omega), body_state1 cfg p L hs]
    rcases c5 with ⟨s9, hi9⟩ | ⟨s9, hi9⟩ | ⟨s1, hi1⟩
    · obtain ⟨L2, h1, h2, h3, h4, h5, h6, h7⟩ :=
        int_from9 cfg p t rest ht hk (g :: gs) (case1 cfg p L) s9 (by rw [c1, hn])
          (by rw [hi9]; exact hd0) hg
      exact ⟨L2, hstep.trans h1, h2, by rw [h3, c1], by rw [h4, hi9], by rw [h5, c3],
        by rw [h6, c4], by rw [h7, c2]⟩
    · obtain ⟨L2, h1, h2, h3, h4, h5, h6, h7⟩ :=
        int_from9 cfg p t rest ht hk gs (case1 cfg p L) s9 (by rw [c1, hn])
          (by rw [hi9]; exact hd2) (fun x hx => hg x (List.mem_cons_of_mem _ hx))
      refine ⟨L2, hstep.trans h1, h2, by rw [h3, c1], ?_, by rw [h5, c3],
        by rw [h6, c4], by rw [h7, c2]⟩
      rw [h4, hi9]; simp only [List.length_cons]; omega
    · obtain ⟨L2, h1, h2, h3, h4, h5, h6, h7⟩ :=
        ih (case1 cfg p L) (by rw [s1, hs]) (by rw [c1, hn])
          (by rw [hi1]; exact hd2) (fun x hx => hg x (List.mem_cons_of_mem _ hx))
      refine ⟨L2, hstep.trans h1, h2, by rw [h3, c1], ?_, by rw [h5, c3],
        by rw [h6, c4], by rw [h7, c2]⟩
      rw [h4, hi1]; simp only [List.length_cons]; omega

/-- An integer of any size is an item. -/
theorem item_int {cfg : Config} (hok : cfg.ok) (p : List Nat) (L : Loop)
    (gs : List Nat) (t : Nat) (rest : List Nat)
    (hs : L.state = 0) (hn : L.n = p.length)
    (hd : p.drop L.i = header gs t cfg.CCN_INTVAL ++ rest)
    (hg : ∀ g ∈ gs, g < 128) (ht : t < 8) :
    Item cfg p L (header gs t cfg.CCN_INTVAL).length := by
  have hk := ok_facts hok
  obtain ⟨x, xs, hx⟩ := header_first gs t cfg.CCN_INTVAL rest hk.2.2.2.2.2.1.1
  obtain ⟨hb, _, hi⟩ := drop_cons_info (hd.trans hx.1)
  have hq := case0_quote_i L
  have hne : p.getD L.i 0 ≠ cfg.CCN_CLOSE := by rw [hb, hk.1]; exact hx.2
  have hstep : run cfg p L = run cfg p { case0_quote L with numval := 0, state := 1 } := by
    rw [run_step cfg p L (by omega), body_state0_header cfg p L hs hne]
    rw [← body_state1 cfg p { case0_quote L with numval := 0, state := 1 } rfl]
    rw [← run_step cfg p { case0_quote L with numval := 0, state := 1 }
      (by show (case0_quote L).i < (case0_quote L).n; rw [hq.1, hq.2]; omega)]
  obtain ⟨L2, h1, h2, h3, h4, h5, h6, h7⟩ :=
    int_from1 cfg p t rest ht hk.2.2.2.2.2.1.2 (by omega) gs
      { case0_quote L with numval := 0, state := 1 } rfl
      (by show (case0_quote L).n = _; rw [hq.2, hn])
      (by show p.drop (case0_quote L).i = _; rw [hq.1, hd]) hg
  refine ⟨L2, hstep.trans h1, h2, h3.trans hq.2, ?_, h5, h6, h7⟩
  rw [h4, header_length]
  show (case0_quote L).i + _ = _
  rw [hq.1]

theorem drop_next {p : List Nat} {i : Nat} {xs ys : List Nat} (h : p.drop i = xs ++ ys) :
    p.drop (i + xs.length) = ys := (drop_append_info h).1

theorem drop_len {p : List Nat} {i : Nat} {xs ys : List Nat} (h : p.drop i = xs ++ ys) :
    xs.length + ys.length ≤ p.length := by
  have := (drop_append_info h).2.1
  omega

theorem case0_quote_two {L : Loop} (h : L.tagstate = 2) :
    (case0_quote L).tagstate = 1 ∧ (case0_quote L).d = ccn_decoder_pop L.d := by
  unfold case0_quote
  simp [h, Loop.print]

theorem case0_quote_three {L : Loop} (h : L.tagstate = 3) :
    (case0_quote L).tagstate = 2 ∧ (case0_quote L).d = L.d := by
  unfold case0_quote
  simp [h]

/-- The start of an element, seen from the frames. -/
theorem open_tag_view {cfg : Config} (hok : cfg.ok) (p : List Nat) (L : Loop)
    (gs : List Nat) (t : Nat) (name rest : List Nat)
    (hs : L.state = 0) (hn : L.n = p.length)
    (hd : p.drop L.i = header gs t cfg.CCN_TAG ++ (name ++ rest))
    (hg : ∀ g ∈ gs, g < 128) (ht : t < 8)
    (hv : header_value gs t + 1 = name.length) (hfit : name.length < 2 ^ cfg.size_bits)
    (hnz : ∀ b ∈ name, b ≠ 0) :
    ∃ L2 : Loop, run cfg p L = run cfg p L2 ∧ L2.state = 0 ∧ L2.n = L.n ∧
      L2.i = L.i + ((header gs t cfg.CCN_TAG).length + name.length) ∧ L2.tagstate = 1 ∧
      L2.d.stack = frame (case0_quote L).d.stringstack :: (case0_quote L).d.stack ∧
      L2.d.stringstack = (case0_quote L).d.stringstack ++ name ++ [0] := by
  refine ⟨_, run_tag hok p L gs t name rest hs hn hd hg ht hv hfit hnz, rfl, rfl, ?_, rfl,
    ?_, ?_⟩
  · simp [header_length]; omega
  · simp [named, prelude_d]
  · simp [named, prelude_d]

/-- The name of an attribute, seen from the frames. -/
theorem open_attr_view {cfg : Config} (hok : cfg.ok) (p : List Nat) (L : Loop)
    (gs : List Nat) (t : Nat) (name rest : List Nat)
    (hs : L.state = 0) (hn : L.n = p.length)
    (hd : p.drop L.i = header gs t cfg.CCN_ATTR ++ (name ++ rest))
    (hg : ∀ g ∈ gs, g < 128) (ht : t < 8)
    (hv : header_value gs t + 1 = name.length) (hfit : name.length < 2 ^ cfg.size_bits)
    (hnz : ∀ b ∈ name, b ≠ 0) (hts : (case0_quote L).tagstate = 1) :
    ∃ L2 : Loop, run cfg p L = run cfg p L2 ∧ L2.state = 0 ∧ L2.n = L.n ∧
      L2.i = L.i + ((header gs t cfg.CCN_ATTR).length + name.length) ∧ L2.tagstate = 3 ∧
      L2.d.stack = frame (case0_quote L).d.stringstack :: (case0_quote L).d.stack ∧
      L2.d.stringstack = (case0_quote L).d.stringstack ++ name ++ [0] := by
  refine ⟨_, run_attr hok p L gs t name rest hs hn hd hg ht hv hfit hnz hts, rfl, rfl, ?_,
    rfl, ?_, ?_⟩
  · simp [header_length]; omega
  · simp [named]
  · simp [named]

/-- The byte `CCN_CLOSE` when no attribute is pending, seen from the
frames: the top frame is popped. -/
theorem close_view (cfg : Config) (p : List Nat) (L : Loop) (rest : List Nat)
    (f : ccn_decoder_stack_item) (S : List ccn_decoder_stack_item)
    (hs : L.state = 0) (hn : L.n = p.length)
    (hd : p.drop L.i = cfg.CCN_CLOSE :: rest)
    (hts : (case0_quote L).tagstate = 0 ∨ (case0_quote L).tagstate = 1)
    (hst : (case0_quote L).d.stack = f :: S) :
    ∃ L2 : Loop, run cfg p L = run cfg p L2 ∧ L2.state = 0 ∧ L2.n = L.n ∧
      L2.i = L.i + 1 ∧ L2.tagstate = 0 ∧ L2.d.stack = S ∧
      L2.d.stringstack = (case0_quote L).d.stringstack.take f.savedss := by
  refine ⟨_, run_close cfg p L rest hs hn hd, ?_⟩
  have hq := case0_quote_i L
  have hqs := case0_quote_state L
  unfold case0_close
  simp only [hst]
  rcases hts with h | h
  · simp [h, hs, hqs, hq.1, hq.2, Loop.print, ccn_decoder_pop, hst]
  · simp [h, hs, hqs, hq.1, hq.2, Loop.print, ccn_decoder_pop, hst]

/-- The loop over a well-formed part: it ends in state 0 behind the part,
with the frames and the string stack it found. -/
theorem wellformed_run {cfg : Config} (hok : cfg.ok) (p : List Nat)
    (hp : p.length < 2 ^ cfg.size_bits) {piece : Piece} {bytes : List Nat}
    (h : WellFormed cfg piece bytes) :
    ∀ (L : Loop) (rest : List Nat), L.state = 0 → L.n = p.length →
      p.drop L.i = bytes ++ rest → L.tagstate ≤ 2 →
      piece.before (case0_quote L).tagstate →
      ∃ L2 : Loop, run cfg p L = run cfg p L2 ∧ L2.state = 0 ∧ L2.n = L.n ∧
        L2.i = L.i + bytes.length ∧ L2.tagstate ≤ 2 ∧
        (case0_quote L2).d.stack = (case0_quote L).d.stack ∧
        (case0_quote L2).d.stringstack = (case0_quote L).d.stringstack ∧
        piece.after (case0_quote L2).tagstate := by
  induction h with
  | no_attribute =>
    intro L rest hs hn hd hts hb
    exact ⟨L, rfl, hs, rfl, rfl, hts, rfl, rfl, hb⟩
  | attr gs t name gs2 t2 value tl hg ht hv hnz hg2 ht2 hv2 hnz2 _ ih =>
    intro L rest hs hn hd hts hb
    have hd1 : p.drop L.i = header gs t cfg.CCN_ATTR ++
        (name ++ (header gs2 t2 cfg.CCN_UDATA ++ (value ++ (tl ++ rest)))) := by
      rw [hd]; simp only [List.append_assoc]
    have hd1' : p.drop L.i = (header gs t cfg.CCN_ATTR ++ name) ++
        (header gs2 t2 cfg.CCN_UDATA ++ (value ++ (tl ++ rest))) := by
      rw [hd]; simp only [List.append_assoc]
    have hl := drop_len hd1'
    simp only [List.length_append] at hl
    obtain ⟨L1, r1, s1, n1, i1, t1, k1, ss1⟩ :=
      open_attr_view hok p L gs t name _ hs hn hd1 hg ht hv (by omega) hnz hb
    have hd2 : p.drop L1.i = header gs2 t2 cfg.CCN_UDATA ++ (value ++ (tl ++ rest)) := by
      rw [i1, ← List.length_append]; exact drop_next hd1'
    have hd2' : p.drop L1.i = (header gs2 t2 cfg.CCN_UDATA ++ value) ++ (tl ++ rest) := by
      rw [hd2]; simp only [List.append_assoc]
    obtain ⟨L2, r2, s2, n2, i2, k2, ss2, t2'⟩ :=
      item_udata hok p L1 gs2 t2 value (tl ++ rest) s1 (n1.trans hn) hd2 hg2 ht2 hv2
        (by omega) hnz2
    have q1 := case0_quote_three t1
    rw [q1.1] at t2'
    rw [q1.2] at k2 ss2
    have t2two : L2.tagstate = 2 := by rw [t2']; simp
    have q2 := case0_quote_two t2two
    have hpop : ccn_decoder_pop L2.d =
        { L2.d with stack := (case0_quote L).d.stack,
                    stringstack := (case0_quote L).d.stringstack } := by
      unfold ccn_decoder_pop
      rw [k2, k1]
      simp [ss2, ss1, frame]
    have hd3 : p.drop L2.i = tl ++ rest := by
      rw [i2, ← List.length_append]; exact drop_next hd2'
    obtain ⟨L3, r3, s3, n3, i3, t3, k3, ss3, a3⟩ :=
      ih L2 rest s2 ((n2.trans n1).trans hn) hd3 (by omega) q2.1
    refine ⟨L3, (r1.trans r2).trans r3, s3, (n3.trans n2).trans n1, ?_, t3, ?_, ?_, a3⟩
    · rw [i3, i2, i1]; simp only [List.length_append]; omega
    · rw [k3, q2.2, hpop]
    · rw [ss3, q2.2, hpop]
  | no_child =>
    intro L rest hs hn hd hts hb
    exact ⟨L, rfl, hs, rfl, rfl, hts, rfl, rfl, hb⟩
  | text gs t txt tl hg ht hv hnz _ ih =>
    intro L rest hs hn hd hts hb
    have hd1 : p.drop L.i = header gs t cfg.CCN_UDATA ++ (txt ++ (tl ++ rest)) := by
      rw [hd]; simp only [List.append_assoc]
    have hd1' : p.drop L.i = (header gs t cfg.CCN_UDATA ++ txt) ++ (tl ++ rest) := by
      rw [hd]; simp only [List.append_assoc]
    have hl := drop_len hd1'
    simp only [List.length_append] at hl
    obtain ⟨L2, r2, s2, n2, i2, k2, ss2, t2⟩ :=
      item_udata hok p L gs t txt (tl ++ rest) hs hn hd1 hg ht hv (by omega) hnz
    have t2' : L2.tagstate = 0 := by
      rw [t2]; rcases hb with h | h <;> simp [h]
    have q2 : case0_quote L2 = L2 := case0_quote_of_le (by omega)
    have hd3 : p.drop L2.i = tl ++ rest := by
      rw [i2, ← List.length_append]; exact drop_next hd1'
    obtain ⟨L3, r3, s3, n3, i3, t3, k3, ss3, a3⟩ :=
      ih L2 rest s2 (n2.trans hn) hd3 (by omega) (by rw [q2, t2']; exact Or.inl rfl)
    refine ⟨L3, r2.trans r3, s3, n3.trans n2, ?_, t3, ?_, ?_, a3⟩
    · rw [i3, i2]; simp only [List.length_append]; omega
    · rw [k3, q2, k2]
    · rw [ss3, q2, ss2]
  | blob gs t payload tl hg ht hv hlt _ ih =>
    intro L rest hs hn hd hts hb
    have hd1 : p.drop L.i = header gs t cfg.CCN_BLOB ++ (payload ++ (tl ++ rest)) := by
      rw [hd]; simp only [List.append_assoc]
    have hd1' : p.drop L.i = (header gs t cfg.CCN_BLOB ++ payload) ++ (tl ++ rest) := by
      rw [hd]; simp only [List.append_assoc]
    have hl := drop_len hd1'
    simp only [List.length_append] at hl
    obtain ⟨L2, r2, s2, n2, i2, k2, ss2, t2⟩ :=
      item_blob hok p L gs t payload (tl ++ rest) hs hn hd1 hg ht hv (by omega) hlt
    have t2' : L2.tagstate = 0 := by
      rw [t2]; rcases hb with h | h <;> simp [h]
    have q2 : case0_quote L2 = L2 := case0_quote_of_le (by omega)
    have hd3 : p.drop L2.i = tl ++ rest := by
      rw [i2, ← List.length_append]; exact drop_next hd1'
    obtain ⟨L3, r3, s3, n3, i3, t3, k3, ss3, a3⟩ :=
      ih L2 rest s2 (n2.trans hn) hd3 (by omega) (by rw [q2, t2']; exact Or.inl rfl)
    refine ⟨L3, r2.trans r3, s3, n3.trans n2, ?_, t3, ?_, ?_, a3⟩
    · rw [i3, i2]; simp only [List.length_append]; omega
    · rw [k3, q2, k2]
    · rw [ss3, q2, ss2]
  | integer gs t tl hg ht _ ih =>
    intro L rest hs hn hd hts hb
    have hd1 : p.drop L.i = header gs t cfg.CCN_INTVAL ++ (tl ++ rest) := by
      rw [hd]; simp only [List.append_assoc]
    obtain ⟨L2, r2, s2, n2, i2, k2, ss2, t2⟩ :=
      item_int hok p L gs t (tl ++ rest) hs hn hd1 hg ht
    have t2' : L2.tagstate = 0 := by
      rw [t2]; rcases hb with h | h <;> simp [h]
    have q2 : case0_quote L2 = L2 := case0_quote_of_le (by omega)
    have hd3 : p.drop L2.i = tl ++ rest := by
      rw [i2]; exact drop_next hd1
    obtain ⟨L3, r3, s3, n3, i3, t3, k3, ss3, a3⟩ :=
      ih L2 rest s2 (n2.trans hn) hd3 (by omega) (by rw [q2, t2']; exact Or.inl rfl)
    refine ⟨L3, r2.trans r3, s3, n3.trans n2, ?_, t3, ?_, ?_, a3⟩
    · rw [i3, i2]; simp only [List.length_append]; omega
    · rw [k3, q2, k2]
    · rw [ss3, q2, ss2]
  | child e tl _ _ ihe ih =>
    intro L rest hs hn hd hts hb
    have hd1 : p.drop L.i = e ++ (tl ++ rest) := by
      rw [hd]; simp only [List.append_assoc]
    obtain ⟨L2, r2, s2, n2, i2, t2, k2, ss2, a2⟩ :=
      ihe L (tl ++ rest) hs hn hd1 hts hb
    have hd3 : p.drop L2.i = tl ++ rest := by
      rw [i2]; exact drop_next hd1
    obtain ⟨L3, r3, s3, n3, i3, t3, k3, ss3, a3⟩ :=
      ih L2 rest s2 (n2.trans hn) hd3 t2 (Or.inl a2)
    refine ⟨L3, r2.trans r3, s3, n3.trans n2, ?_, t3, k3.trans k2, ss3.trans ss2, a3⟩
    rw [i3, i2]; simp only [List.length_append]; omega
  | element gs t name attrs children hg ht hv hnz _ _ iha ihc =>
    intro L rest hs hn hd hts hb
    have hd1 : p.drop L.i = header gs t cfg.CCN_TAG ++
        (name ++ (attrs ++ (children ++ ([cfg.CCN_CLOSE] ++ rest)))) := by
      rw [hd]; simp only [List.append_assoc]
    have hd1' : p.drop L.i = (header gs t cfg.CCN_TAG ++ name) ++
        (attrs ++ (children ++ ([cfg.CCN_CLOSE] ++ rest))) := by
      rw [hd]; simp only [List.append_assoc]
    have hl := drop_len hd1'
    simp only [List.length_append] at hl
    obtain ⟨L1, r1, s1, n1, i1, t1, k1, ss1⟩ :=
      open_tag_view hok p L gs t name _ hs hn hd1 hg ht hv (by omega) hnz
    have q1 : case0_quote L1 = L1 := case0_quote_of_le (by omega)
    have hd2 : p.drop L1.i = attrs ++ (children ++ ([cfg.CCN_CLOSE] ++ rest)) := by
      rw [i1, ← List.length_append]; exact drop_next hd1'
    obtain ⟨L2, r2, s2, n2, i2, t2, k2, ss2, a2⟩ :=
      iha L1 _ s1 (n1.trans hn) hd2 (by omega) (by rw [q1]; exact t1)
    have hd3 : p.drop L2.i = children ++ ([cfg.CCN_CLOSE] ++ rest) := by
      rw [i2]; exact drop_next hd2
    obtain ⟨L3, r3, s3, n3, i3, t3, k3, ss3, a3⟩ :=
      ihc L2 _ s2 ((n2.trans n1).trans hn) hd3 t2 (Or.inr a2)
    have hd4 : p.drop L3.i = cfg.CCN_CLOSE :: rest := by
      rw [i3]; exact drop_next hd3
    rw [q1] at k2 ss2
    obtain ⟨L4, r4, s4, n4, i4, t4, k4, ss4⟩ :=
      close_view cfg p L3 rest _ _ s3 (((n3.trans n2).trans n1).trans hn) hd4 a3
        ((k3.trans k2).trans k1)
    have q4 : case0_quote L4 = L4 := case0_quote_of_le (by omega)
    refine ⟨L4, ((r1.trans r2).trans r3).trans r4, s4,
      ((n4.trans n3).trans n2).trans n1, ?_, by omega, ?_, ?_, ?_⟩
    · rw [i4, i3, i2, i1]; simp only [List.length_append, List.length_singleton]; omega
    · rw [q4, k4]
    · rw [q4, ss4, ss3, ss2, ss1]
      simp [frame]
    · rw [q4]; exact t4

theorem enter_create (p : List Nat) :
    enter ccn_decoder_create p =
      { d := ccn_decoder_create, state := 0, tagstate := 0, numval := 0, i := 0,
        n := p.length, out := [] } := rfl

theorem drop_of_split {p : List Nat} {i : Nat} (pre suf : List Nat)
    (h : p = pre ++ suf) (hi : i = pre.length) : p.drop i = suf := by
  subst h hi; simp

/-- The element `TAG name, CLOSE` in one call. -/
theorem decode_self_closing {cfg : Config} (hok : cfg.ok) (name : List Nat)
    (h1 : 1 ≤ name.length) (h8 : name.length ≤ 8) (hnz : ∀ b ∈ name, b ≠ 0) :
    ccn_decoder_decode cfg ccn_decoder_create
        ([((name.length - 1) <<< 4) + cfg.CCN_TAG] ++ name ++ [cfg.CCN_CLOSE]) =
      { d := ccn_decoder_create, ret := name.length + 2,
        out := lit "<" ++ name ++ lit "/>" } := by
  have hk := ok_facts hok
  have h2 := two_pow_size hok
  rw [decode_eq_run, enter_create]
  rw [run_tag hok _ _ [] (name.length - 1) name [cfg.CCN_CLOSE] rfl rfl
    (drop_of_split [] _ (by simp [header_nil]) rfl) (by simp) (by omega)
    (by rw [header_value_nil]; omega) (by omega) hnz]
  rw [run_close cfg _ _ [] rfl (by simp)
    (drop_of_split ([((name.length - 1) <<< 4) + cfg.CCN_TAG] ++ name) _ (by simp)
      (by simp; omega))]
  rw [run_halted _ _ _ (by
    rw [(case0_close_i _).1, (case0_close_i _).2, (case0_quote_i _).1, (case0_quote_i _).2]
    simp; omega)]
  simp [leave, case0_close, case0_quote, named, Loop.print, prelude, close_start, frame,
    ccn_decoder_pop, ccn_decoder_create]
  omega

theorem escape_all_plain (v : List Nat)
    (h : ∀ b ∈ v, b ≠ 38 ∧ b ≠ 60 ∧ b ≠ 62 ∧ b ≠ 34) : escape_all v = v := by
  induction v with
  | nil => rfl
  | cons c cs ih =>
    have hc := h c (List.mem_cons_self _ _)
    simp only [escape_all, escape, if_neg hc.1, if_neg hc.2.1, if_neg hc.2.2.1,
      if_neg hc.2.2.2, ih (fun b hb => h b (List.mem_cons_of_mem _ hb))]
    rfl

/-- An `INTVAL` header alone, decoded on a fresh decoder. -/
theorem decode_intval {cfg : Config} (hok : cfg.ok) (gs : List Nat) (t : Nat)
    (hg : ∀ g ∈ gs, g < 128) (ht : t < 8)
    (hfit : header_value gs t < 2 ^ cfg.size_bits) :
    ccn_decoder_decode cfg ccn_decoder_create (header gs t cfg.CCN_INTVAL) =
      { d := { ccn_decoder_create with numval := header_value gs t },
        ret := gs.length + 1, out := decimal (header_value gs t) } := by
  rw [decode_eq_run, enter_create]
  rw [run_intval hok _ _ gs t [] rfl rfl (drop_of_split [] _ (by simp) rfl) hg ht hfit]
  rw [run_halted _ _ _ (by simp [header_length, (prelude_i _ _ _).2.1])]
  simp [leave, prelude, close_start, case0_quote, ccn_decoder_create]

/-! ## The header byte rule -/

set_option maxRecDepth 100000 in
theorem high_bit : ∀ b < 256, (b &&& 128 = 0 ↔ b < 128) := by decide

theorem shl_or (bits x k y : Nat) (hk : k ≤ bits) (hy : y < 2 ^ k) :
    (shl bits x k + y) % 2 ^ bits = shl bits x k ||| y := by
  have e : 2 ^ bits = 2 ^ (bits - k) * 2 ^ k := by
    rw [← Nat.pow_add, Nat.sub_add_cancel hk]
  have hs : shl bits x k = 2 ^ k * (x % 2 ^ (bits - k)) := by
    rw [shl_mul, e, Nat.mul_mod_mul_right, Nat.mul_comm]
  have hm : x % 2 ^ (bits - k) < 2 ^ (bits - k) := Nat.mod_lt _ (Nat.two_pow_pos _)
  have hlt : 2 ^ k * (x % 2 ^ (bits - k)) + y < 2 ^ bits := by
    have h1 : 2 ^ k * (x % 2 ^ (bits - k)) + y < 2 ^ k * (x % 2 ^ (bits - k) + 1) := by
      rw [Nat.mul_add, Nat.mul_one]; omega
    have h2 : 2 ^ k * (x % 2 ^ (bits - k) + 1) ≤ 2 ^ k * 2 ^ (bits - k) :=
      Nat.mul_le_mul_left _ hm
    rw [e, Nat.mul_comm (2 ^ (bits - k))]
    omega
  rw [hs, Nat.mod_eq_of_lt hlt, Nat.mul_add_lt_is_or hy]

/-- A start tag alone: the decoder is left with the frame of the element
and with `tagstate = 1`. -/
theorem decode_open_tag {cfg : Config} (hok : cfg.ok) (name : List Nat)
    (h1 : 1 ≤ name.length) (h8 : name.length ≤ 8) (hnz : ∀ b ∈ name, b ≠ 0) :
    ccn_decoder_decode cfg ccn_decoder_create
        ([((name.length - 1) <<< 4) + cfg.CCN_TAG] ++ name) =
      { d := { named ccn_decoder_create name with tagstate := 1 },
        ret := name.length + 1, out := lit "<" ++ name } := by
  have hk := ok_facts hok
  have h2 := two_pow_size hok
  rw [decode_eq_run, enter_create]
  rw [run_tag hok _ _ [] (name.length - 1) name [] rfl rfl
    (drop_of_split [] _ (by simp [header_nil]) rfl) (by simp) (by omega)
    (by rw [header_value_nil]; omega) (by omega) hnz]
  rw [run_halted _ _ _ (by simp; omega)]
  simp [leave, named, prelude, close_start, case0_quote, frame, ccn_decoder_create]
  omega

/-- The byte `CCN_CLOSE` given in a call of its own to the decoder that
`decode_open_tag` leaves: the local `tagstate` starts at `0`, so the full
closing tag is written. -/
theorem decode_close_alone (cfg : Config) (name : List Nat)
    (hnz : ∀ b ∈ name, b ≠ 0) :
    ccn_decoder_decode cfg { named ccn_decoder_create name with tagstate := 1 }
        [cfg.CCN_CLOSE] =
      { d := ccn_decoder_create, ret := 1, out := lit "</" ++ name ++ lit ">" } := by
  rw [decode_eq_run]
  rw [run_close cfg _ _ [] rfl rfl (drop_of_split [] _ (by simp) rfl)]
  rw [run_halted _ _ _ (by
    rw [(case0_close_i _).1, (case0_close_i _).2, (case0_quote_i _).1, (case0_quote_i _).2]
    simp [enter])]
  simp [leave, enter, case0_close, case0_quote, named, Loop.print, frame,
    ccn_decoder_pop, ccn_decoder_create, cstr_name name [] hnz]

theorem take_open_tag (x : Nat) (name : List Nat) (c : Nat) :
    ([x] ++ name ++ [c]).take (name.length + 1) = [x] ++ name ∧
    ([x] ++ name ++ [c]).drop (name.length + 1) = [c] := by
  constructor
  · rw [List.take_append_of_le_length (by simp)]
    exact List.take_of_length_le (by simp)
  · exact drop_of_split ([x] ++ name) [c] rfl (by simp)

/-- The array `test1` is the encoding of a well-formed element. -/
theorem test1_wellformed : WellFormed cfg64 Piece.element (test1 cfg64) := by
  have a : WellFormed cfg64 Piece.element [0x01, 97, 0x14, 88, 0] :=
    WellFormed.element [] 0 [97] [] [0x14, 88] (by decide) (by decide) (by decide)
      (by decide) WellFormed.no_attribute
      (WellFormed.text [] 1 [88] [] (by decide) (by decide) (by decide) (by decide)
        WellFormed.no_child)
  have b : WellFormed cfg64 Piece.element
      [0x01, 98, 0x32, 116, 121, 112, 101, 0x54, 101, 109, 112, 116, 121, 0] :=
    WellFormed.element [] 0 [98] [0x32, 116, 121, 112, 101, 0x54, 101, 109, 112, 116, 121] []
      (by decide) (by decide) (by decide) (by decide)
      (WellFormed.attr [] 3 [116, 121, 112, 101] [] 5 [101, 109, 112, 116, 121] []
        (by decide) (by decide) (by decide) (by decide) (by decide) (by decide) (by decide)
        (by decide) WellFormed.no_attribute)
      WellFormed.no_child
  have c : WellFormed cfg64 Piece.element [0x21, 98, 105, 110, 0x43, 1, 0x23, 0x45, 0x67, 0] :=
    WellFormed.element [] 2 [98, 105, 110] [] [0x43, 1, 0x23, 0x45, 0x67]
      (by decide) (by decide) (by decide) (by decide) WellFormed.no_attribute
      (WellFormed.blob [] 4 [1, 0x23, 0x45, 0x67] [] (by decide) (by decide) (by decide)
        (by decide) WellFormed.no_child)
  have d : WellFormed cfg64 Piece.element [0x21, 105, 110, 116, 133, 0x25, 0] :=
    WellFormed.element [] 2 [105, 110, 116] [] [133, 0x25]
      (by decide) (by decide) (by decide) (by decide) WellFormed.no_attribute
      (WellFormed.integer [5] 2 [] (by decide) (by decide) WellFormed.no_child)
  have e : WellFormed cfg64 Piece.element
      [0x21, 105, 110, 116, 0x32, 116, 121, 112, 101, 0x34, 66, 73, 71,
        129, 130, 131, 132, 133, 134, 135, 136, 0x15, 0] :=
    WellFormed.element [] 2 [105, 110, 116] [0x32, 116, 121, 112, 101, 0x34, 66, 73, 71]
      [129, 130, 131, 132, 133, 134, 135, 136, 0x15]
      (by decide) (by decide) (by decide) (by decide)
      (WellFormed.attr [] 3 [116, 121, 112, 101] [] 3 [66, 73, 71] []
        (by decide) (by decide) (by decide) (by decide) (by decide) (by decide) (by decide)
        (by decide) WellFormed.no_attribute)
      (WellFormed.integer [1, 2, 3, 4, 5, 6, 7, 8] 1 [] (by decide) (by decide)
        WellFormed.no_child)
  have f : WellFormed cfg64 Piece.children [0x64, 72, 105, 38, 98, 121, 101] :=
    WellFormed.text [] 6 [72, 105, 38, 98, 121, 101] [] (by decide) (by decide) (by decide)
      (by decide) WellFormed.no_child
  exact WellFormed.element [] 2 [70, 111, 111] [] _
    (by decide) (by decide) (by decide) (by decide) WellFormed.no_attribute
    (WellFormed.child _ _ a (WellFormed.child _ _ b (WellFormed.child _ _ c
      (WellFormed.child _ _ d (WellFormed.child _ _ e f)))))

/-! ## The claims -/

/-- C1: the code does not have the property. When the element
`TAG name, CLOSE` is cut just before the byte `CCN_CLOSE`, the second call
starts with `tagstate = 0` and writes the full closing tag where the single
call writes `/>`. -/
theorem chunk_split_changes_output (cfg : Config) (hok : cfg.ok) (name : List Nat)
    (h1 : 1 ≤ name.length) (h8 : name.length ≤ 8) (hnz : ∀ b ∈ name, b ≠ 0) :
    (ccn_decoder_decode cfg ccn_decoder_create
        ([((name.length - 1) <<< 4) + cfg.CCN_TAG] ++ name ++ [cfg.CCN_CLOSE])).out
      = lit "<" ++ name ++ lit "/>" ∧
    (decode_split cfg ccn_decoder_create
        ([((name.length - 1) <<< 4) + cfg.CCN_TAG] ++ name ++ [cfg.CCN_CLOSE])
        (name.length + 1)).out
      = lit "<" ++ name ++ lit "</" ++ name ++ lit ">" ∧
    (decode_split cfg ccn_decoder_create
        ([((name.length - 1) <<< 4) + cfg.CCN_TAG] ++ name ++ [cfg.CCN_CLOSE])
        (name.length + 1)).out
      ≠ (ccn_decoder_decode cfg ccn_decoder_create
        ([((name.length - 1) <<< 4) + cfg.CCN_TAG] ++ name ++ [cfg.CCN_CLOSE])).out := by
  have e1 := decode_self_closing hok name h1 h8 hnz
  have e2 : (decode_split cfg ccn_decoder_create
        ([((name.length - 1) <<< 4) + cfg.CCN_TAG] ++ name ++ [cfg.CCN_CLOSE])
        (name.length + 1)).out = lit "<" ++ name ++ lit "</" ++ name ++ lit ">" := by
    unfold decode_split
    simp only []
    rw [(take_open_tag _ name _).1, (take_open_tag _ name _).2,
      decode_open_tag hok name h1 h8 hnz, decode_close_alone cfg name hnz]
    simp only [List.append_assoc]
  refine ⟨by rw [e1], e2, ?_⟩
  rw [e1, e2]
  intro h
  have := congrArg List.length h
  simp [lit] at this

theorem chunk_split_changes_output_witness :
    (ccn_decoder_decode cfg64 ccn_decoder_create [0x21, 70, 111, 111, 0]).out
      = lit "<Foo/>" ∧
    (decode_split cfg64 ccn_decoder_create [0x21, 70, 111, 111, 0] 4).out
      = lit "<Foo</Foo>" :=
  ⟨(chunk_split_changes_output cfg64 (by decide) [70, 111, 111] (by decide) (by decide)
      (by decide)).1,
   (chunk_split_changes_output cfg64 (by decide) [70, 111, 111] (by decide) (by decide)
      (by decide)).2.1⟩

/-- C2, as the code has it: in state 1 a byte with the high bit set is a
continuation byte and a byte with the high bit clear is the terminal byte. -/
theorem header_byte_rule (cfg : Config) (p : List Nat) (L : Loop) (b : Nat)
    (hw : 7 ≤ cfg.size_bits) (hs : L.state = 1) (hb : p.getD L.i 0 = b) (hb256 : b < 256) :
    (b &&& 128 ≠ 0 → ¬ L.numval > shl cfg.size_bits L.numval 7 →
      (body cfg p L).numval = shl cfg.size_bits L.numval 7 ||| (b &&& 127) ∧
      (body cfg p L).i = L.i + 1 ∧ (body cfg p L).out = L.out ∧
      (body cfg p L).state =
        (if (body cfg p L).numval > shl cfg.size_bits (body cfg p L).numval 3
          then 9 else 1)) ∧
    (b &&& 128 ≠ 0 → L.numval > shl cfg.size_bits L.numval 7 →
      (body cfg p L).state = 9 ∧ (body cfg p L).i = L.i ∧ (body cfg p L).out = L.out ∧
      (body cfg p L).d.bignumval = L.numval % 2 ^ cfg.max_bits) ∧
    (b &&& 128 = 0 →
      body cfg p L = dispatch cfg (close_start cfg
        { L with i := L.i + 1, numval := shl cfg.size_bits L.numval 3 ||| (b >>> 4) }
        (b &&& 15)) (b &&& 15)) := by
  have hhb := high_bit b hb256
  have h127 : b &&& 127 < 2 ^ 7 := by rw [and127]; omega
  have e7 := shl_or cfg.size_bits L.numval 7 (b &&& 127) hw h127
  rw [body_state1 cfg p L hs]
  refine ⟨?_, ?_, ?_⟩
  · intro h1 h2
    have hc : b ≠ b &&& 127 := by
      have : ¬ b < 128 := fun h => h1 (hhb.mpr h)
      rw [and127]; omega
    unfold case1
    simp only [hb, ne_eq, hc, not_false_eq_true, if_true, if_neg h2, e7]
    split <;> simp [hs]
  · intro h1 h2
    have hc : b ≠ b &&& 127 := by
      have : ¬ b < 128 := fun h => h1 (hhb.mpr h)
      rw [and127]; omega
    unfold case1
    simp only [hb, ne_eq, hc, not_false_eq_true, if_true, if_pos h2]
    simp
  · intro h1
    have hlt : b < 128 := hhb.mp h1
    have hc : b = b &&& 127 := by rw [and127]; omega
    have h4 : b >>> 4 < 2 ^ 3 := by rw [shr4]; omega
    have e3 := shl_or cfg.size_bits L.numval 3 (b >>> 4) (by omega) h4
    unfold case1 close_start
    simp only [hb, ne_eq, ← hc, not_true_eq_false, if_false, e3]

/-- C2, as the spec has it, does not hold: the byte `0x25` has its high bit
clear and ends the header, the byte `0x85` has its high bit set and
continues it. -/
theorem header_byte_rule_as_stated_fails :
    ¬ (∀ (cfg : Config) (p : List Nat) (L : Loop) (b : Nat), cfg.ok → L.state = 1 →
        p.getD L.i 0 = b → b < 256 → b &&& 128 = 0 →
        (body cfg p L).state = 1 ∧
        (body cfg p L).numval = shl cfg.size_bits L.numval 7 ||| (b &&& 127)) ∧
    ¬ (∀ (cfg : Config) (p : List Nat) (L : Loop) (b : Nat), cfg.ok → L.state = 1 →
        p.getD L.i 0 = b → b < 256 → b &&& 128 ≠ 0 →
        (body cfg p L).numval = shl cfg.size_bits L.numval 3 ||| (b >>> 4)) := by
  constructor
  · intro h
    have := h cfg64 [0x25]
      { d := ccn_decoder_create, state := 1, tagstate := 0, numval := 0, i := 0, n := 1,
        out := [] } 0x25 (by decide) rfl rfl (by decide) (by decide)
    revert this
    decide
  · intro h
    have := h cfg64 [0x85]
      { d := ccn_decoder_create, state := 1, tagstate := 0, numval := 0, i := 0, n := 1,
        out := [] } 0x85 (by decide) rfl rfl (by decide) (by decide)
    revert this
    decide

theorem header_byte_rule_witness :
    (body cfg64 [0x85, 0x25] (enter { ccn_decoder_create with state := 1 } [0x85, 0x25])).numval
      = 5 ∧
    body cfg64 [0x25] (enter { ccn_decoder_create with state := 1 } [0x25]) =
      { d := { ccn_decoder_create with state := 1 }, state := 0, tagstate := 0, numval := 2,
        i := 1, n := 1, out := [50] } := by
  have h1 := header_byte_rule cfg64 [0x85, 0x25]
    (enter { ccn_decoder_create with state := 1 } [0x85, 0x25]) 0x85 (by decide) rfl rfl
    (by decide)
  have h2 := header_byte_rule cfg64 [0x25]
    (enter { ccn_decoder_create with state := 1 } [0x25]) 0x25 (by decide) rfl rfl
    (by decide)
  refine ⟨?_, ?_⟩
  · rw [(h1.1 (by decide) (by decide)).1]; decide
  · rw [h2.2.2 (by decide)]; decide

/-- C3: the code does not have the property. The byte `>` of a text
payload is written as `&gt;` followed by `&quot;`. -/
theorem text_escape_gt_runs_on (cfg : Config) (hok : cfg.ok) :
    ccn_decoder_decode cfg ccn_decoder_create [(1 <<< 4) + cfg.CCN_UDATA, 62] =
      { d := ccn_decoder_create, ret := 2, out := lit "&gt;&quot;" } := by
  rw [decode_eq_run, enter_create]
  rw [run_udata hok _ _ [] 1 [62] [] rfl rfl (drop_of_split [] _ (by simp [header_nil]) rfl)
    (by simp) (by omega) (header_value_nil _)
    (by have := two_pow_size hok; simp only [List.length_cons, List.length_nil]; omega)
    (by simp)]
  rw [run_halted _ _ _ (by simp [(prelude_i _ _ _).2.1])]
  simp [leave, prelude, close_start, case0_quote, ccn_decoder_create]
  decide

theorem text_escape_gt_runs_on_witness :
    ccn_decoder_decode cfg64 ccn_decoder_create [0x14, 62] =
      { d := ccn_decoder_create, ret := 2, out := lit "&gt;&quot;" } :=
  text_escape_gt_runs_on cfg64 (by decide)

/-- C4: the bytes of a blob of `n` bytes behind a `BLOB` header of value
`n` (any number of continuation bytes) are written as their RFC 4648
base 64 encoding, with `==` when `n % 3 = 1`, `=` when `n % 3 = 2` and no
padding otherwise, the decoder is back in state 0, and the decoder of
RFC 4648 gives the bytes back. -/
theorem blob_is_base64 (cfg : Config) (hok : cfg.ok) (gs : List Nat) (t : Nat)
    (payload : List Nat) (hg : ∀ g ∈ gs, g < 128) (ht : t < 8)
    (hv : header_value gs t = payload.length)
    (hfit : payload.length < 2 ^ cfg.size_bits) (hlt : ∀ b ∈ payload, b < 256) :
    (ccn_decoder_decode cfg ccn_decoder_create (header gs t cfg.CCN_BLOB ++ payload)).out
        = rfc4648 payload ∧
    (ccn_decoder_decode cfg ccn_decoder_create (header gs t cfg.CCN_BLOB ++ payload)).d.state
        = 0 ∧
    (ccn_decoder_decode cfg ccn_decoder_create (header gs t cfg.CCN_BLOB ++ payload)).ret
        = gs.length + 1 + payload.length ∧
    (payload.length % 3 = 1 → [61, 61] <:+ rfc4648 payload) ∧
    (payload.length % 3 = 2 → [61] <:+ rfc4648 payload) ∧
    (rfc4648 payload).count 61 = (3 - payload.length % 3) % 3 ∧
    rfc4648_decode
      (ccn_decoder_decode cfg ccn_decoder_create (header gs t cfg.CCN_BLOB ++ payload)).out
        = payload := by
  have hp := rfc4648_padding payload
  have hr := rfc4648_roundtrip payload hlt
  obtain ⟨bits, hrun⟩ := run_blob_item hok (header gs t cfg.CCN_BLOB ++ payload)
    { d := ccn_decoder_create, state := 0, tagstate := 0, numval := 0, i := 0,
      n := (header gs t cfg.CCN_BLOB ++ payload).length, out := [] }
    gs t payload [] rfl rfl (drop_of_split [] _ (by simp) rfl) hg ht hv hfit hlt
  rw [decode_eq_run, enter_create, hrun]
  rw [run_halted _ _ _ (by simp [header_length, (prelude_i _ _ _).2.1])]
  simp only [leave, prelude, close_start, case0_quote, Loop.print]
  simp [hr, hp.1, hp.2.1, hp.2.2.1]
  exact ⟨hp.2.1, hp.2.2.1⟩

theorem blob_is_base64_witness :
    (ccn_decoder_decode cfg64 ccn_decoder_create [0x43, 0x01, 0x23, 0x45, 0x67]).out
      = lit "ASNFZw==" ∧
    rfc4648_decode (lit "ASNFZw==") = [0x01, 0x23, 0x45, 0x67] :=
  ⟨(blob_is_base64 cfg64 (by decide) [] 4 [0x01, 0x23, 0x45, 0x67] (by decide) (by decide)
      (by decide) (by decide) (by decide)).1.trans (by decide),
   by decide⟩

/-- C5: the code does not have the property. With a 32-bit `size_t` the
integer of `test1` marked `BIG`, whose value `4574801679883329` needs more
than 32 bits and fits 64 bits, is written as `71202052512833`: the test
`numval > (numval << 7)` misses the overflow at the sixth continuation
byte. -/
theorem wide_integer_loses_precision :
    header_value [1, 2, 3, 4, 5, 6, 7, 8] 1 = 4574801679883329 ∧
    2 ^ cfg32.size_bits ≤ header_value [1, 2, 3, 4, 5, 6, 7, 8] 1 ∧
    header_value [1, 2, 3, 4, 5, 6, 7, 8] 1 < 2 ^ cfg32.max_bits ∧
    header [1, 2, 3, 4, 5, 6, 7, 8] 1 cfg32.CCN_INTVAL
      = [129, 130, 131, 132, 133, 134, 135, 136, (1 <<< 4) + cfg32.CCN_INTVAL] ∧
    (ccn_decoder_decode cfg32 ccn_decoder_create
      (header [1, 2, 3, 4, 5, 6, 7, 8] 1 cfg32.CCN_INTVAL)).out = lit "71202052512833" ∧
    (ccn_decoder_decode cfg32 ccn_decoder_create
      (header [1, 2, 3, 4, 5, 6, 7, 8] 1 cfg32.CCN_INTVAL)).d.bignumval = 71202052512833 ∧
    lit "71202052512833" ≠ decimal (header_value [1, 2, 3, 4, 5, 6, 7, 8] 1) := by
  decide

/-- C6: an `INTVAL` header of any number of continuation bytes whose value
`V` fits `size_t`, decoded on a fresh decoder, writes `V` in decimal (digits
only, no leading zero, the number they denote is `V`), consumes the header
and ends in state 0; two headers of the same value write the same text. -/
theorem narrow_integer_decimal (cfg : Config) (hok : cfg.ok) (gs : List Nat) (t : Nat)
    (hg : ∀ g ∈ gs, g < 128) (ht : t < 8)
    (hfit : header_value gs t < 2 ^ cfg.size_bits) :
    (ccn_decoder_decode cfg ccn_decoder_create (header gs t cfg.CCN_INTVAL)).out
        = decimal (header_value gs t) ∧
    (ccn_decoder_decode cfg ccn_decoder_create (header gs t cfg.CCN_INTVAL)).d.state = 0 ∧
    (ccn_decoder_decode cfg ccn_decoder_create (header gs t cfg.CCN_INTVAL)).ret
        = gs.length + 1 ∧
    (∀ c ∈ decimal (header_value gs t), 48 ≤ c ∧ c ≤ 57) ∧
    decimal_value (decimal (header_value gs t)) = header_value gs t ∧
    (header_value gs t ≠ 0 → (decimal (header_value gs t)).head? ≠ some 48) ∧
    (header_value gs t = 0 → decimal (header_value gs t) = [48]) ∧
    (∀ (gs2 : List Nat) (t2 : Nat), (∀ g ∈ gs2, g < 128) → t2 < 8 →
      header_value gs2 t2 = header_value gs t →
      (ccn_decoder_decode cfg ccn_decoder_create (header gs2 t2 cfg.CCN_INTVAL)).out =
        (ccn_decoder_decode cfg ccn_decoder_create (header gs t cfg.CCN_INTVAL)).out) := by
  have hd := decimal_spec (header_value gs t)
  rw [decode_intval hok gs t hg ht hfit]
  refine ⟨rfl, rfl, rfl, hd.2.1, hd.2.2.1, hd.2.2.2.1, hd.2.2.2.2, ?_⟩
  intro gs2 t2 hg2 ht2 hv
  rw [decode_intval hok gs2 t2 hg2 ht2 (by rw [hv]; exact hfit), hv]

theorem narrow_integer_decimal_witness :
    (ccn_decoder_decode cfg64 ccn_decoder_create
      [128 + 42 / 8, ((42 % 8) <<< 4) + cfg64.CCN_INTVAL]).out = lit "42" :=
  (narrow_integer_decimal cfg64 (by decide) [5] 2 (by decide) (by decide)
    (by decide)).1.trans (by decide)

/-- C7: for a name of 1 to 8 bytes, none of them zero, the bytes
`((len - 1) << 4) + CCN_TAG`, the name and `CCN_CLOSE` decoded in one call
on a fresh decoder write `<name/>`, are all consumed, and leave the decoder
as it was created: state 0, empty stack, `tagstate` 0. -/
theorem self_closing_element (cfg : Config) (hok : cfg.ok) (name : List Nat)
    (h1 : 1 ≤ name.length) (h8 : name.length ≤ 8) (hnz : ∀ b ∈ name, b ≠ 0) :
    ccn_decoder_decode cfg ccn_decoder_create
        ([((name.length - 1) <<< 4) + cfg.CCN_TAG] ++ name ++ [cfg.CCN_CLOSE]) =
      { d := ccn_decoder_create, ret := name.length + 2,
        out := lit "<" ++ name ++ lit "/>" } :=
  decode_self_closing hok name h1 h8 hnz

theorem self_closing_element_witness :
    ccn_decoder_decode cfg64 ccn_decoder_create [0x21, 70, 111, 111, 0] =
      { d := ccn_decoder_create, ret := 5, out := lit "<Foo/>" } :=
  self_closing_element cfg64 (by decide) [70, 111, 111] (by decide) (by decide) (by decide)

/-- C8: for an element name `e` and an attribute name `a` of 1 to 8
bytes, none of them zero, and a value `v` of 1 to 7 bytes, none of them
zero, `&`, `<`, `>` or the double quote, the sequence `TAG e, ATTR a,
UDATA v, CLOSE` decoded in one call on a fresh decoder writes `<e a="v"/>`
and leaves the decoder as it was created. -/
theorem attribute_rendering (cfg : Config) (hok : cfg.ok) (e a v : List Nat)
    (he1 : 1 ≤ e.length) (he8 : e.length ≤ 8) (henz : ∀ b ∈ e, b ≠ 0)
    (ha1 : 1 ≤ a.length) (ha8 : a.length ≤ 8) (hanz : ∀ b ∈ a, b ≠ 0)
    (hv1 : 1 ≤ v.length) (hv7 : v.length ≤ 7)
    (hvz : ∀ b ∈ v, b ≠ 0 ∧ b ≠ 38 ∧ b ≠ 60 ∧ b ≠ 62 ∧ b ≠ 34) :
    ccn_decoder_decode cfg ccn_decoder_create
        ([((e.length - 1) <<< 4) + cfg.CCN_TAG] ++ e ++
          [((a.length - 1) <<< 4) + cfg.CCN_ATTR] ++ a ++
          [(v.length <<< 4) + cfg.CCN_UDATA] ++ v ++ [cfg.CCN_CLOSE]) =
      { d := ccn_decoder_create, ret := e.length + a.length + v.length + 4,
        out := lit "<" ++ e ++ lit " " ++ a ++ [61, 34] ++ v ++ [34] ++ lit "/>" } := by
  have hk := ok_facts hok
  have h2 := two_pow_size hok
  rw [decode_eq_run, enter_create]
  rw [run_tag hok _ _ [] (e.length - 1) e
    ([((a.length - 1) <<< 4) + cfg.CCN_ATTR] ++ a ++
      [(v.length <<< 4) + cfg.CCN_UDATA] ++ v ++ [cfg.CCN_CLOSE]) rfl rfl
    (drop_of_split [] _ (by simp [header_nil]) rfl) (by simp) (by omega)
    (by rw [header_value_nil]; omega) (by omega) henz]
  rw [run_attr hok _ _ [] (a.length - 1) a
    ([(v.length <<< 4) + cfg.CCN_UDATA] ++ v ++ [cfg.CCN_CLOSE]) rfl (by simp)
    (drop_of_split ([((e.length - 1) <<< 4) + cfg.CCN_TAG] ++ e) _ (by simp [header_nil])
      (by simp; omega))
    (by simp) (by omega) (by rw [header_value_nil]; omega) (by omega) hanz
    (by simp [case0_quote])]
  rw [run_udata hok _ _ [] v.length v [cfg.CCN_CLOSE] rfl (by simp)
    (drop_of_split ([((e.length - 1) <<< 4) + cfg.CCN_TAG] ++ e ++
        [((a.length - 1) <<< 4) + cfg.CCN_ATTR] ++ a) _ (by simp [header_nil])
      (by simp; omega))
    (by simp) (by omega) (header_value_nil _) (by omega) (fun b hb => (hvz b hb).1)]
  rw [run_close cfg _ _ [] rfl (by simp [(prelude_i _ _ _).2.1])
    (drop_of_split ([((e.length - 1) <<< 4) + cfg.CCN_TAG] ++ e ++
        [((a.length - 1) <<< 4) + cfg.CCN_ATTR] ++ a ++
        [(v.length <<< 4) + cfg.CCN_UDATA] ++ v) _ (by simp)
      (by simp; omega))]
  rw [run_halted _ _ _ (by
    rw [(case0_close_i _).1, (case0_close_i _).2, (case0_quote_i _).1, (case0_quote_i _).2]
    simp [(prelude_i _ _ _).2.1]; omega)]
  have hA : cfg.CCN_UDATA ≠ cfg.CCN_ATTR := by omega
  simp [leave, case0_close, case0_quote, named, Loop.print, prelude, close_start, frame,
    ccn_decoder_pop, ccn_decoder_create, hA, escape_all_plain v (fun b hb => (hvz b hb).2)]
  omega

theorem attribute_rendering_witness :
    ccn_decoder_decode cfg64 ccn_decoder_create
        [0x01, 98, 0x32, 116, 121, 112, 101, 0x54, 101, 109, 112, 116, 121, 0] =
      { d := ccn_decoder_create, ret := 14,
        out := [60, 98, 32, 116, 121, 112, 101, 61, 34, 101, 109, 112, 116, 121, 34, 47, 62] } :=
  attribute_rendering cfg64 (by decide) [98] [116, 121, 112, 101] [101, 109, 112, 116, 121]
    (by decide) (by decide) (by decide) (by decide) (by decide) (by decide) (by decide)
    (by decide) (by decide)

/-- C9: for an element name `e` of 1 to 8 bytes, none of them zero, and a
text `t` of 1 to 7 bytes, none of them zero, `&`, `<`, `>` or the double
quote, the sequence `TAG e, UDATA t, CLOSE` decoded in one call on a fresh
decoder writes `<e>t</e>`, the closing tag with the name of the top frame,
and the frame is popped: the decoder is left as it was created. -/
theorem element_with_text (cfg : Config) (hok : cfg.ok) (e t : List Nat)
    (he1 : 1 ≤ e.length) (he8 : e.length ≤ 8) (henz : ∀ b ∈ e, b ≠ 0)
    (ht1 : 1 ≤ t.length) (ht7 : t.length ≤ 7)
    (htz : ∀ b ∈ t, b ≠ 0 ∧ b ≠ 38 ∧ b ≠ 60 ∧ b ≠ 62 ∧ b ≠ 34) :
    ccn_decoder_decode cfg ccn_decoder_create
        ([((e.length - 1) <<< 4) + cfg.CCN_TAG] ++ e ++
          [(t.length <<< 4) + cfg.CCN_UDATA] ++ t ++ [cfg.CCN_CLOSE]) =
      { d := ccn_decoder_create, ret := e.length + t.length + 3,
        out := lit "<" ++ e ++ lit ">" ++ t ++ lit "</" ++ e ++ lit ">" } := by
  have hk := ok_facts hok
  have h2 := two_pow_size hok
  rw [decode_eq_run, enter_create]
  rw [run_tag hok _ _ [] (e.length - 1) e
    ([(t.length <<< 4) + cfg.CCN_UDATA] ++ t ++ [cfg.CCN_CLOSE]) rfl rfl
    (drop_of_split [] _ (by simp [header_nil]) rfl) (by simp) (by omega)
    (by rw [header_value_nil]; omega) (by omega) henz]
  rw [run_udata hok _ _ [] t.length t [cfg.CCN_CLOSE] rfl (by simp)
    (drop_of_split ([((e.length - 1) <<< 4) + cfg.CCN_TAG] ++ e) _ (by simp [header_nil])
      (by simp; omega))
    (by simp) (by omega) (header_value_nil _) (by omega) (fun b hb => (htz b hb).1)]
  rw [run_close cfg _ _ [] rfl (by simp [(prelude_i _ _ _).2.1])
    (drop_of_split ([((e.length - 1) <<< 4) + cfg.CCN_TAG] ++ e ++
        [(t.length <<< 4) + cfg.CCN_UDATA] ++ t) _ (by simp)
      (by simp; omega))]
  rw [run_halted _ _ _ (by
    rw [(case0_close_i _).1, (case0_close_i _).2, (case0_quote_i _).1, (case0_quote_i _).2]
    simp [(prelude_i _ _ _).2.1]; omega)]
  have hA : cfg.CCN_UDATA ≠ cfg.CCN_ATTR := by omega
  simp [leave, case0_close, case0_quote, named, Loop.print, prelude, close_start, frame,
    ccn_decoder_pop, ccn_decoder_create, hA, escape_all_plain t (fun b hb => (htz b hb).2),
    cstr_name e [] henz]
  omega

theorem element_with_text_witness :
    ccn_decoder_decode cfg64 ccn_decoder_create [0x01, 97, 0x14, 88, 0] =
      { d := ccn_decoder_create, ret := 5, out := lit "<a>X</a>" } :=
  element_with_text cfg64 (by decide) [97] [88] (by decide) (by decide) (by decide)
    (by decide) (by decide) (by decide)

/-- C10: for every input of fewer than `2 ^ size_bits` bytes that encodes
one well-formed element, `ccn_decoder_decode` on a fresh decoder returns the
length of the input and leaves `state = 0`, an empty stack and
`tagstate = 0`, which is what `process_test` checks. -/
theorem wellformed_document_decodes (cfg : Config) (hok : cfg.ok) (p : List Nat)
    (hp : p.length < 2 ^ cfg.size_bits) (h : WellFormed cfg Piece.element p) :
    (ccn_decoder_decode cfg ccn_decoder_create p).ret = p.length ∧
    (ccn_decoder_decode cfg ccn_decoder_create p).d.state = 0 ∧
    (ccn_decoder_decode cfg ccn_decoder_create p).d.stack = [] ∧
    (ccn_decoder_decode cfg ccn_decoder_create p).d.tagstate = 0 := by
  obtain ⟨L2, r2, s2, n2, i2, t2, k2, _, a2⟩ :=
    wellformed_run hok p hp h (enter ccn_decoder_create p) [] rfl rfl (by simp [enter])
      (by simp [enter]) (Or.inl rfl)
  have ht : L2.tagstate = 0 := by
    by_cases h1 : L2.tagstate ≤ 1
    · rw [case0_quote_of_le h1] at a2; exact a2
    · have := (case0_quote_two (L := L2) (by omega)).1
      rw [this] at a2
      exact absurd (show (1 : Int) = 0 from a2) (by decide)
  rw [case0_quote_of_le (by omega)] at k2
  rw [decode_eq_run, r2, run_halted cfg p L2 (by rw [i2, n2]; simp [enter])]
  refine ⟨?_, s2, ?_, ht⟩
  · show L2.i = _
    rw [i2]; simp [enter]
  · show L2.d.stack = _
    rw [k2]; rfl

theorem wellformed_document_decodes_witness :
    (ccn_decoder_decode cfg64 ccn_decoder_create (test1 cfg64)).ret = (test1 cfg64).length ∧
    (ccn_decoder_decode cfg64 ccn_decoder_create (test1 cfg64)).d.state = 0 ∧
    (ccn_decoder_decode cfg64 ccn_decoder_create (test1 cfg64)).d.stack = [] ∧
    (ccn_decoder_decode cfg64 ccn_decoder_create (test1 cfg64)).d.tagstate = 0 :=
  wellformed_document_decodes cfg64 (by decide) (test1 cfg64) (by decide) test1_wellformed

/-! ## The frames and the string stack -/

theorem frames_ok_mono {st : List ccn_decoder_stack_item} {a b : Nat}
    (h : frames_ok st a) (hab : a ≤ b) : frames_ok st b := by
  cases st with
  | nil => trivial
  | cons f below => exact ⟨h.1, le_trans h.2.1 hab, h.2.2⟩

theorem frames_ok_savedss {f : ccn_decoder_stack_item} {below : List ccn_decoder_stack_item}
    {len : Nat} (h : frames_ok (f :: below) len) : f.savedss ≤ len :=
  le_trans h.1 h.2.1

theorem arena_ok_pop {d : ccn_decoder} (h : arena_ok d) : arena_ok (ccn_decoder_pop d) := by
  unfold ccn_decoder_pop
  cases hst : d.stack with
  | nil => simpa [arena_ok, hst] using h
  | cons f below =>
    unfold arena_ok at h
    rw [hst] at h
    have hle := frames_ok_savedss h
    simp only [arena_ok, List.length_take, Nat.min_eq_left hle]
    exact h.2.2

theorem arena_ok_push {d : ccn_decoder} (h : arena_ok d) :
    arena_ok (set_nameindex (ccn_decoder_push d) d.stringstack.length) := by
  unfold arena_ok at h
  simp only [arena_ok, set_nameindex, ccn_decoder_push, frames_ok]
  exact ⟨le_refl _, le_refl _, h⟩

theorem arena_ok_append {d : ccn_decoder} (bytes : List Nat) (h : arena_ok d) :
    arena_ok { d with stringstack := ccn_charbuf_append d.stringstack bytes } := by
  unfold arena_ok at h
  simp only [arena_ok, ccn_charbuf_append, List.length_append]
  exact frames_ok_mono h (Nat.le_add_right _ _)

theorem arena_ok_itemcount {d : ccn_decoder} (v : Nat) (h : arena_ok d) :
    arena_ok (set_itemcount d v) := by
  unfold arena_ok at h
  unfold set_itemcount
  cases hst : d.stack with
  | nil => simpa [arena_ok, hst] using h
  | cons f below =>
    rw [hst] at h
    simp only [arena_ok, frames_ok]
    exact h

theorem arena_ok_of_eq {d e : ccn_decoder} (h : arena_ok d) (hs : e.stack = d.stack)
    (hl : e.stringstack = d.stringstack) : arena_ok e := by
  unfold arena_ok at h ⊢
  rw [hs, hl]; exact h

theorem case0_quote_arena {L : Loop} (h : arena_ok L.d) : arena_ok (case0_quote L).d := by
  unfold case0_quote
  split
  · split
    · exact arena_ok_pop h
    · exact h
  · exact h

theorem case0_close_arena {L : Loop} (h : arena_ok L.d) : arena_ok (case0_close L).d := by
  unfold case0_close
  simp only []
  split
  · exact h
  · split
    · exact h
    · split
      · exact arena_ok_pop h
      · exact arena_ok_pop h

theorem dispatch_arena (cfg : Config) {L : Loop} (c : Nat) (h : arena_ok L.d) :
    arena_ok (dispatch cfg L c).d := by
  unfold dispatch
  repeat' split
  all_goals first
    | exact h
    | exact arena_ok_push h

theorem case1_arena (cfg : Config) (p : List Nat) {L : Loop} (h : arena_ok L.d) :
    arena_ok (case1 cfg p L).d := by
  unfold case1
  simp only []
  split
  · split
    · exact arena_ok_of_eq h rfl rfl
    · split
      · exact arena_ok_of_eq h rfl rfl
      · exact h
  · apply dispatch_arena
    split <;> exact h

theorem case0_arena (cfg : Config) (p : List Nat) {L : Loop} (h : arena_ok L.d) :
    arena_ok (case0 cfg p L).d := by
  unfold case0
  simp only []
  split
  · exact case0_close_arena (case0_quote_arena h)
  · exact case1_arena cfg p (case0_quote_arena h)

theorem name_done_arena {L : Loop} (h : arena_ok L.d) : arena_ok (name_done L).d := by
  have h1 : arena_ok { L.d with stringstack := ccn_charbuf_append L.d.stringstack [0] } :=
    arena_ok_append [0] h
  unfold name_done
  simp only []
  split
  · exact h1
  · split
    · exact h1
    · split
      · exact arena_ok_itemcount 1 h1
      · exact arena_ok_itemcount 1 h1

theorem case45_arena (p : List Nat) {L : Loop} (h : arena_ok L.d) :
    arena_ok (case45 p L).d := by
  unfold case45
  generalize (if L.n - L.i > L.numval then L.numval else L.n - L.i) = chunk
  simp only []
  split
  · exact h
  · split
    · exact name_done_arena (arena_ok_append _ h)
    · exact arena_ok_append _ h

theorem case_byte_arena (cfg : Config) (p : List Nat) {L : Loop} (h : arena_ok L.d) :
    arena_ok (case2 cfg p L).d ∧ arena_ok (case3 cfg p L).d ∧ arena_ok (case9 cfg p L).d ∧
    arena_ok (case10 cfg p L).d ∧ arena_ok (case11 cfg p L).d ∧
    arena_ok (case12 cfg p L).d := by
  refine ⟨?_, ?_, ?_, ?_, ?_, ?_⟩
  · unfold case2; exact h
  · unfold case3; simp only []; repeat' split
    all_goals exact h
  · unfold case9; simp only []; repeat' split
    all_goals exact arena_ok_of_eq h rfl rfl
  · unfold case10; simp only []; repeat' split
    all_goals exact arena_ok_of_eq h rfl rfl
  · unfold case11; simp only []; repeat' split
    all_goals exact arena_ok_of_eq h rfl rfl
  · unfold case12; exact h

theorem body_arena (cfg : Config) (p : List Nat) {L : Loop} (h : arena_ok L.d) :
    arena_ok (body cfg p L).d := by
  have hb := case_byte_arena cfg p h
  unfold body
  repeat' split
  · exact case0_arena cfg p h
  · exact case1_arena cfg p h
  · exact hb.1
  · exact hb.2.1
  · exact case45_arena p h
  · exact hb.2.2.1
  · exact hb.2.2.2.1
  · exact hb.2.2.2.2.1
  · exact hb.2.2.2.2.2
  · exact h

theorem loop_arena (cfg : Config) (p : List Nat) (f : Nat) :
    ∀ L : Loop, arena_ok L.d → arena_ok (loop cfg p f L).d := by
  induction f with
  | zero => intro L h; exact h
  | succ f ih =>
    intro L h
    simp only [loop]
    split
    · exact ih _ (body_arena cfg p h)
    · exact h

theorem decode_arena (cfg : Config) (d : ccn_decoder) (p : List Nat) (h : arena_ok d) :
    arena_ok (ccn_decoder_decode cfg d p).d := by
  unfold ccn_decoder_decode leave
  exact arena_ok_of_eq (loop_arena cfg p _ (enter d p) h) rfl rfl

theorem reachable_arena {cfg : Config} {d : ccn_decoder} (h : Reachable cfg d) :
    arena_ok d := by
  induction h with
  | fresh => trivial
  | call d p _ ih => exact decode_arena cfg d p ih

/-- What `frames_ok` says frame by frame. -/
theorem frames_ok_spec : ∀ (st : List ccn_decoder_stack_item) (len : Nat),
    frames_ok st len →
    (∀ f ∈ st, f.savedss ≤ f.nameindex ∧ f.nameindex ≤ len) ∧
    st.Pairwise (fun inner outer => outer.savedss ≤ inner.savedss ∧
      outer.nameindex ≤ inner.savedss) := by
  intro st
  induction st with
  | nil => intro len _; simp
  | cons f below ih =>
    intro len h
    obtain ⟨h1, h2⟩ := ih f.savedss h.2.2
    refine ⟨?_, ?_⟩
    · intro g hg
      rcases List.mem_cons.mp hg with rfl | hg
      · exact ⟨h.1, h.2.1⟩
      · have := h1 g hg
        have := h.1
        have := h.2.1
        omega
    · rw [List.pairwise_cons]
      refine ⟨?_, h2⟩
      intro g hg
      have := h1 g hg
      omega

/-! ## The values of `state` and the consumed count -/

theorem valid_of_live {s : Int} (h : live_state s) : valid_state s := Or.inl h

theorem dispatch_valid (cfg : Config) (L : Loop) (c : Nat) :
    valid_state (dispatch cfg L c).state := by
  unfold dispatch
  repeat' split
  all_goals simp [valid_state, live_state, Loop.print]

theorem case1_valid (cfg : Config) (p : List Nat) (L : Loop) (h : valid_state L.state) :
    valid_state (case1 cfg p L).state := by
  unfold case1
  simp only []
  split
  · split
    · simp [valid_state, live_state, Loop.print]
    · split
      · simp [valid_state, live_state, Loop.print]
      · exact h
  · exact dispatch_valid _ _ _

theorem case0_quote_state_eq (L : Loop) : (case0_quote L).state = L.state := by
  unfold case0_quote
  repeat' split
  all_goals rfl

theorem case0_close_valid (L : Loop) (h : valid_state L.state) :
    valid_state (case0_close L).state := by
  unfold case0_close
  simp only []
  repeat' split
  all_goals first
    | exact h
    | simp [valid_state, live_state, Loop.print]

theorem case0_valid (cfg : Config) (p : List Nat) (L : Loop) (h : valid_state L.state) :
    valid_state (case0 cfg p L).state := by
  unfold case0
  simp only []
  split
  · exact case0_close_valid _ (by rw [case0_quote_state_eq]; exact h)
  · exact case1_valid cfg p _ (by simp [valid_state, live_state, Loop.print])

theorem name_done_valid (L : Loop) : valid_state (name_done L).state := by
  unfold name_done
  simp only []
  repeat' split
  all_goals simp [valid_state, live_state, Loop.print]

theorem case45_valid (p : List Nat) (L : Loop) (h : valid_state L.state) :
    valid_state (case45 p L).state := by
  unfold case45
  generalize (if L.n - L.i > L.numval then L.numval else L.n - L.i) = chunk
  simp only []
  split
  · simp [valid_state, live_state, Loop.print]
  · split
    · exact name_done_valid _
    · exact h

theorem case_byte_valid (cfg : Config) (p : List Nat) (L : Loop) (h : valid_state L.state) :
    valid_state (case2 cfg p L).state ∧ valid_state (case3 cfg p L).state ∧
    valid_state (case9 cfg p L).state ∧ valid_state (case10 cfg p L).state ∧
    valid_state (case11 cfg p L).state ∧ valid_state (case12 cfg p L).state := by
  refine ⟨?_, ?_, ?_, ?_, ?_, ?_⟩
  · unfold case2; simp only []; split
    · simp [valid_state, live_state, Loop.print]
    · exact h
  · unfold case3; simp only []
    have h0 : valid_state (if (L.numval + (2 ^ cfg.size_bits - 1)) % 2 ^ cfg.size_bits = 0
        then 0 else L.state) := by
      split
      · simp [valid_state, live_state, Loop.print]
      · exact h
    repeat' split
    all_goals first
      | exact h
      | simp [valid_state, live_state, Loop.print]
  · unfold case9; simp only []; repeat' split
    all_goals first
      | exact h
      | simp [valid_state, live_state, Loop.print]
  · unfold case10; simp only []; repeat' split
    all_goals simp [valid_state, live_state, Loop.print]
  · unfold case11; simp only []; repeat' split
    all_goals simp [valid_state, live_state, Loop.print]
  · unfold case12; simp only []; split
    all_goals simp [valid_state, live_state, Loop.print]

theorem body_valid (cfg : Config) (p : List Nat) (L : Loop) (h : valid_state L.state) :
    valid_state (body cfg p L).state := by
  have hb := case_byte_valid cfg p L h
  unfold body
  repeat' split
  · exact case0_valid cfg p L h
  · exact case1_valid cfg p L h
  · exact hb.1
  · exact hb.2.1
  · exact case45_valid p L h
  · exact hb.2.2.1
  · exact hb.2.2.2.1
  · exact hb.2.2.2.2.1
  · exact hb.2.2.2.2.2
  · exact h

/-- In a live state a pass keeps `n` and moves `i` forward within the
chunk; in any other state it sets `n` to `i`. -/
theorem body_bounds (cfg : Config) (p : List Nat) (L : Loop) (h : L.i < L.n) :
    (live_state L.state → (body cfg p L).n = L.n ∧ L.i ≤ (body cfg p L).i ∧
      (body cfg p L).i ≤ L.n) ∧
    (¬ live_state L.state → body cfg p L = { L with n := L.i }) := by
  have hb := case_byte_progress cfg p L
  have h0 := case0_progress cfg p L
  have h1 := case1_progress cfg p L
  have h45 := case45_progress p L h
  constructor
  · intro hl
    unfold body
    split
    · rcases h0 with ⟨a, ⟨b, _⟩ | b⟩ <;> refine ⟨a, ?_, ?_⟩ <;> omega
    split
    · rcases h1 with ⟨a, ⟨b, _⟩ | b⟩ <;> refine ⟨a, ?_, ?_⟩ <;> omega
    split
    · refine ⟨hb.1.1, ?_, ?_⟩ <;> rw [hb.1.2] <;> omega
    split
    · refine ⟨hb.2.1.1, ?_, ?_⟩ <;> rw [hb.2.1.2] <;> omega
    split
    · rcases h45 with ⟨a, ⟨b, _⟩ | b⟩ <;> refine ⟨a, ?_, ?_⟩ <;> omega
    split
    · refine ⟨hb.2.2.1.1, ?_, ?_⟩ <;> rw [hb.2.2.1.2] <;> omega
    split
    · refine ⟨hb.2.2.2.1.1, ?_, ?_⟩ <;> rw [hb.2.2.2.1.2] <;> omega
    split
    · refine ⟨hb.2.2.2.2.1.1, ?_, ?_⟩ <;> rw [hb.2.2.2.2.1.2] <;> omega
    split
    · refine ⟨hb.2.2.2.2.2.1, ?_, ?_⟩ <;> rw [hb.2.2.2.2.2.2] <;> omega
    · rename_i a0 a1 a2 a3 a45 a9 a10 a11 a12
      exfalso
      unfold live_state at hl
      omega
  · intro hl
    unfold live_state at hl
    unfold body
    iterate 9 rw [if_neg (by omega)]

theorem body_count (cfg : Config) (p : List Nat) (n0 : Nat) (L : Loop) (h : L.i < L.n)
    (hc : count_ok n0 L) : count_ok n0 (body cfg p L) := by
  obtain ⟨hv, hi, hn⟩ := hc
  have hn0 : L.n = n0 := by
    rcases hn with hn | hn
    · exact hn
    · omega
  have hb := body_bounds cfg p L h
  by_cases hl : live_state L.state
  · obtain ⟨a, b, c⟩ := hb.1 hl
    exact ⟨body_valid cfg p L hv, by omega, Or.inl (by omega)⟩
  · rw [hb.2 hl]
    have hneg : L.state < 0 := by
      rcases hv with hv | hv
      · exact absurd hv hl
      · exact hv
    exact ⟨hv, hi, Or.inr ⟨hneg, rfl⟩⟩

theorem loop_count (cfg : Config) (p : List Nat) (n0 : Nat) (f : Nat) :
    ∀ L : Loop, count_ok n0 L → count_ok n0 (loop cfg p f L) := by
  induction f with
  | zero => intro L h; exact h
  | succ f ih =>
    intro L h
    simp only [loop]
    split
    · rename_i hlt
      exact ih _ (body_count cfg p n0 L hlt h)
    · exact h

theorem decode_valid (cfg : Config) (d : ccn_decoder) (p : List Nat)
    (h : valid_state d.state) : valid_state (ccn_decoder_decode cfg d p).d.state := by
  have := loop_count cfg p p.length (3 * p.length + 3) (enter d p)
    ⟨h, Nat.zero_le _, Or.inl rfl⟩
  exact this.1

theorem reachable_valid {cfg : Config} {d : ccn_decoder} (h : Reachable cfg d) :
    valid_state d.state := by
  induction h with
  | fresh => decide
  | call d p _ ih => exact decode_valid cfg d p ih

/-- The count that a call returns, for a decoder whose state is one the
code assigns. -/
theorem decode_count (cfg : Config) (d : ccn_decoder) (p : List Nat)
    (h : valid_state d.state) :
    (ccn_decoder_decode cfg d p).ret ≤ p.length ∧
    ((ccn_decoder_decode cfg d p).ret < p.length →
      (ccn_decoder_decode cfg d p).d.state < 0) := by
  have hc := loop_count cfg p p.length (3 * p.length + 3) (enter d p)
    ⟨h, Nat.zero_le _, Or.inl rfl⟩
  have hh : ¬ (loop cfg p (3 * p.length + 3) (enter d p)).i
      < (loop cfg p (3 * p.length + 3) (enter d p)).n := by
    rw [loop_eq_run]
    · exact run_done cfg p _
    · have := slack_le (enter d p).state
      simp only [mu, enter] at *
      omega
  obtain ⟨_, hi, hn⟩ := hc
  refine ⟨hi, ?_⟩
  intro hlt
  rcases hn with hn | hn
  · exfalso
    have : (ccn_decoder_decode cfg d p).ret
        = (loop cfg p (3 * p.length + 3) (enter d p)).i := rfl
    omega
  · exact hn.1

/-! ## Error states -/

theorem not_live_of_neg {s : Int} (h : s < 0) : ¬ live_state s := by
  unfold live_state; omega

theorem body_default (cfg : Config) (p : List Nat) (L : Loop) (h : ¬ live_state L.state) :
    body cfg p L = { L with n := L.i } := by
  unfold live_state at h
  unfold body
  iterate 9 rw [if_neg (by omega)]

/-- From an error state the loop does one pass at most, which only sets
`n` to `i`. -/
theorem run_error (cfg : Config) (p : List Nat) (L : Loop) (h : L.state < 0) :
    run cfg p L = if L.i < L.n then { L with n := L.i } else L := by
  by_cases hlt : L.i < L.n
  · rw [if_pos hlt, run_step cfg p L hlt, body_default cfg p L (not_live_of_neg h)]
    exact run_halted cfg p _ (by simp)
  · rw [if_neg hlt]
    exact run_halted cfg p L hlt

theorem leave_run_error (cfg : Config) (p : List Nat) (L : Loop) (h : L.state < 0) :
    leave (run cfg p L) = leave L := by
  rw [run_error cfg p L h]
  split <;> rfl

/-- A call whose first pass ends in an error state returns what that pass
leaves. -/
theorem decode_first_pass_error (cfg : Config) (d : ccn_decoder) (p : List Nat)
    (hp : p ≠ []) (h : (body cfg p (enter d p)).state < 0) :
    ccn_decoder_decode cfg d p = leave (body cfg p (enter d p)) := by
  have hlen : 0 < p.length := List.length_pos.mpr hp
  rw [decode_eq_run, run_step cfg p (enter d p) (by simpa [enter] using hlen),
    leave_run_error cfg p _ h]

theorem decode_error (cfg : Config) (d : ccn_decoder) (p : List Nat) (h : d.state < 0) :
    ccn_decoder_decode cfg d p = { d := { d with tagstate := 0 }, ret := 0, out := [] } := by
  rw [decode_eq_run, leave_run_error cfg p (enter d p) h]
  rfl

/-- The pass in which an error arises in a state that reads byte by byte
consumes one byte, the one the error is about. -/
theorem error_pass_one_byte (cfg : Config) (p : List Nat) (L : Loop)
    (h0 : ¬ L.state < 0) (h1 : (body cfg p L).state < 0)
    (h45 : ¬ (L.state = 4 ∨ L.state = 5)) : (body cfg p L).i = L.i + 1 := by
  have hb := case_byte_progress cfg p L
  by_cases hl : live_state L.state
  · unfold live_state at hl
    have e0 := case0_progress cfg p L
    have e1 := case1_progress cfg p L
    revert h1
    unfold body
    split
    · intro h1
      rcases e0.2 with ⟨_, b⟩ | b
      · rw [b] at h1; exact absurd h1 (by decide)
      · exact b
    split
    · intro h1
      rcases e1.2 with ⟨_, b⟩ | b
      · rw [b] at h1; exact absurd h1 (by decide)
      · exact b
    split
    · intro _; exact hb.1.2
    split
    · intro _; exact hb.2.1.2
    split
    · intro _; exact hb.2.2.1.2
    split
    · intro _; exact hb.2.2.2.1.2
    split
    · intro _; exact hb.2.2.2.2.1.2
    split
    · intro _; exact hb.2.2.2.2.2.2
    · intro _; omega
  · rw [body_default cfg p L hl] at h1
    exact absurd h1 h0

/-- The pass of a name-copy state takes what the chunk holds of the name,
whether or not it ends in an error state. -/
theorem name_pass_bytes (cfg : Config) (p : List Nat) (L : Loop)
    (h45 : L.state = 4 ∨ L.state = 5) :
    (body cfg p L).i = L.i + (if L.n - L.i > L.numval then L.numval else L.n - L.i) := by
  have hbody : body cfg p L = case45 p L := by
    unfold body
    rcases h45 with hs | hs <;> simp [hs]
  rw [hbody]
  unfold case45
  generalize (if L.n - L.i > L.numval then L.numval else L.n - L.i) = chunk
  simp only []
  split
  · rename_i hc; simp [hc]
  · split
    · rw [(name_done_i _).1]
    · rfl

/-! ### The triggers -/

theorem body_close_empty (cfg : Config) (p : List Nat) (L : Loop)
    (hs : L.state = 0) (hst : L.d.stack = []) (hb : p.getD L.i 0 = cfg.CCN_CLOSE) :
    (body cfg p L).state = -103 ∧ (body cfg p L).i = L.i + 1 ∧
      (body cfg p L).d.stack = [] ∧ (body cfg p L).d.stringstack = L.d.stringstack := by
  rw [body_state0_close cfg p L hs hb]
  have hq : (case0_quote L).d.stack = [] ∧
      (case0_quote L).d.stringstack = L.d.stringstack := by
    unfold case0_quote
    repeat' split
    all_goals simp [Loop.print, ccn_decoder_pop, hst]
  have hi := case0_quote_i L
  unfold case0_close
  simp only [hq.1, hq.2, hi.1]
  simp

theorem body_text_zero (cfg : Config) (p : List Nat) (L : Loop)
    (hs : L.state = 3) (hb : p.getD L.i 0 = 0) :
    body cfg p L =
      { L with i := L.i + 1,
               numval := (L.numval + (2 ^ cfg.size_bits - 1)) % 2 ^ cfg.size_bits,
               state := -184 } := by
  have hbody : body cfg p L = case3 cfg p L := by
    unfold body; simp [hs]
  rw [hbody]
  unfold case3
  simp only [hb, if_true]

/-- The inner switch on `CCN_ATTR` when no start tag is open. -/
theorem dispatch_ATTR_closed {cfg : Config} (h : cfg.ok) (L : Loop) (ht : L.tagstate ≠ 1) :
    dispatch cfg L cfg.CCN_ATTR = { L with state := -154 } := by
  have hk := ok_facts h
  unfold dispatch
  rw [if_neg (by omega), if_neg (by omega), if_neg (by omega), if_pos ⟨rfl, ht⟩]

/-- A terminal byte in state 1, whatever the accumulator holds. -/
theorem case1_term_any (cfg : Config) (p : List Nat) (L : Loop) (b : Nat)
    (hb : p.getD L.i 0 = b) (hlt : b < 128) :
    case1 cfg p L =
      dispatch cfg
        (close_start cfg
          { L with i := L.i + 1,
                   numval := (shl cfg.size_bits L.numval 3 + (b >>> 4)) % 2 ^ cfg.size_bits }
          (b &&& 15)) (b &&& 15) := by
  have hc : b = b &&& 127 := by rw [and127]; omega
  unfold case1 close_start
  simp only [hb, ne_eq, ← hc, not_true_eq_false, if_false]

theorem close_start_ATTR (cfg : Config) (L : Loop) : close_start cfg L cfg.CCN_ATTR = L := by
  unfold close_start
  rw [if_neg (by simp)]

/-- A terminal byte in state 9. -/
theorem body_wide_term (cfg : Config) (p : List Nat) (L : Loop) (b : Nat)
    (hs : L.state = 9) (hb : p.getD L.i 0 = b) (hlt : b < 128) :
    (body cfg p L).state = (if b &&& 15 = cfg.CCN_INTVAL then 0 else -253) ∧
    (body cfg p L).i = L.i + 1 ∧
    (body cfg p L).d.stack = L.d.stack ∧
    (body cfg p L).d.stringstack = L.d.stringstack ∧
    (body cfg p L).numval = L.numval ∧
    (body cfg p L).d.bignumval
      = (shl cfg.max_bits L.d.bignumval 3 + (b >>> 4)) % 2 ^ cfg.max_bits ∧
    (body cfg p L).out = L.out ++ (if L.tagstate = 1 then lit ">" else []) ++
      (if b &&& 15 = cfg.CCN_INTVAL then decimal (body cfg p L).d.bignumval else []) := by
  have hc : b = b &&& 127 := by rw [and127]; omega
  have hbody : body cfg p L = case9 cfg p L := by
    unfold body; simp [hs]
  rw [hbody]
  unfold case9
  simp only [hb, ne_eq, ← hc, not_true_eq_false, if_false]
  by_cases hk : b &&& 15 = cfg.CCN_INTVAL <;> by_cases ht : L.tagstate = 1 <;>
    simp [hk, ht, Loop.print]

/-! ## Names with a zero byte -/

theorem strlen_lt_of_zero : ∀ (name rest : List Nat), (∃ b ∈ name, b = 0) →
    strlen (name ++ rest) < name.length := by
  intro name
  induction name with
  | nil => intro rest h; obtain ⟨b, hb, _⟩ := h; cases hb
  | cons x xs ih =>
    intro rest h
    by_cases hx : x = 0
    · subst hx
      simp [strlen, cstr]
    · have h2 : ∃ b ∈ xs, b = 0 := by
        obtain ⟨b, hb, hb0⟩ := h
        rcases List.mem_cons.mp hb with rfl | hb
        · exact absurd hb0 hx
        · exact ⟨b, hb, hb0⟩
      have := ih rest h2
      simp only [strlen, cstr, List.cons_append, List.length_cons] at this ⊢
      rw [List.takeWhile_cons_of_pos (by simpa using hx)]
      simp only [List.length_cons]
      omega

/-- The whole name is copied in one pass; with a zero byte in it the pass
ends in the error state of the `strlen` test. -/
theorem body_name_zero (cfg : Config) (p : List Nat) (L : Loop) (name rest : List Nat)
    (s : ccn_decoder_stack_item) (link : List ccn_decoder_stack_item)
    (hs : L.state = 4 ∨ L.state = 5) (hn : L.n = p.length)
    (hd : p.drop L.i = name ++ rest) (hlen : L.numval = name.length) (hpos : name ≠ [])
    (hz : ∃ b ∈ name, b = 0) (hst : L.d.stack = s :: link)
    (hidx : s.nameindex = L.d.stringstack.length) :
    body cfg p L =
      { L with
        d := { L.d with stringstack := L.d.stringstack ++ name ++ [0] },
        numval := 0, i := L.i + name.length, state := -220 } := by
  obtain ⟨_, hl, htk⟩ := drop_append_info hd
  have hlen0 : 0 < name.length := List.length_pos.mpr hpos
  have hchunk : (if L.n - L.i > L.numval then L.numval else L.n - L.i) = name.length := by
    split <;> omega
  have hbody : body cfg p L = case45 p L := by
    unfold body
    rcases hs with hs | hs <;> simp [hs]
  have hdrop : List.drop s.nameindex (L.d.stringstack ++ name ++ [0]) = name ++ [0] := by
    rw [hidx, List.append_assoc, List.drop_left]
  have hstr := strlen_lt_of_zero name [0] hz
  rw [hbody]
  unfold case45
  simp only [hchunk]
  rw [if_neg (by omega)]
  simp only [hlen, Nat.sub_self, if_true, htk]
  unfold name_done
  simp only [ccn_charbuf_append, hst, hdrop]
  rw [if_pos (by
    simp only [List.length_append, List.length_singleton, hidx]
    omega)]

/-- What the inner switch leaves for a `TAG` header, or for an `ATTR`
header while a start tag is open. -/
theorem dispatch_name {cfg : Config} (hok : cfg.ok) (M : Loop) (kind : Nat)
    (hk : kind = cfg.CCN_TAG ∨ (kind = cfg.CCN_ATTR ∧ M.tagstate = 1)) :
    dispatch cfg M kind =
      { M with numval := (M.numval + 1) % 2 ^ cfg.size_bits
               d := set_nameindex (ccn_decoder_push M.d) M.d.stringstack.length
               state := if kind = cfg.CCN_TAG then 4 else 5 } := by
  have hf := ok_facts hok
  rcases hk with rfl | ⟨rfl, ht⟩
  · rw [dispatch_TAG hok]; simp
  · rw [dispatch_ATTR hok M ht]
    have : ¬ cfg.CCN_ATTR = cfg.CCN_TAG := by omega
    simp [this]

/-- The pass over a name behind its header: it ends in an error state if
and only if the name holds a zero byte. -/
theorem name_copy_outcome {cfg : Config} (hok : cfg.ok) (p : List Nat) (M : Loop)
    (kind : Nat) (hk : kind = cfg.CCN_TAG ∨ (kind = cfg.CCN_ATTR ∧ M.tagstate = 1))
    (name rest : List Nat) (hv : M.numval + 1 = name.length)
    (hfit : name.length < 2 ^ cfg.size_bits) (hn : M.n = p.length)
    (hd : p.drop M.i = name ++ rest) :
    ((dispatch cfg M kind).state = 4 ∨ (dispatch cfg M kind).state = 5) ∧
    (dispatch cfg M kind).numval = name.length ∧
    ((body cfg p (dispatch cfg M kind)).state < 0 ↔ ∃ b ∈ name, b = 0) ∧
    (body cfg p (dispatch cfg M kind)).i = M.i + name.length ∧
    ((∀ b ∈ name, b ≠ 0) →
      (body cfg p (dispatch cfg M kind)).state = 0 ∧
      (body cfg p (dispatch cfg M kind)).d.stringstack = M.d.stringstack ++ name ++ [0] ∧
      ∃ s, (body cfg p (dispatch cfg M kind)).d.stack = s :: M.d.stack ∧
        s.savedss = M.d.stringstack.length ∧
        cstr ((body cfg p (dispatch cfg M kind)).d.stringstack.drop s.nameindex) = name) := by
  have hne : name ≠ [] := by
    intro h; rw [h] at hv; simp at hv
  have hst : (dispatch cfg M kind).state = 4 ∨ (dispatch cfg M kind).state = 5 := by
    rw [dispatch_name hok M kind hk]
    by_cases h : kind = cfg.CCN_TAG
    · left; simp [h]
    · right; simp [h]
  have hnum : (dispatch cfg M kind).numval = name.length := by
    rw [dispatch_name hok M kind hk]
    show (M.numval + 1) % 2 ^ cfg.size_bits = _
    rw [hv, Nat.mod_eq_of_lt hfit]
  have hdn : (dispatch cfg M kind).n = p.length := by
    rw [(dispatch_i cfg M kind).2, hn]
  have hdi : (dispatch cfg M kind).i = M.i := (dispatch_i cfg M kind).1
  have hstack : (dispatch cfg M kind).d.stack =
      { nameindex := M.d.stringstack.length, itemcount := 0,
        savedss := M.d.stringstack.length } :: M.d.stack := by
    rw [dispatch_name hok M kind hk]
    simp [set_nameindex, ccn_decoder_push]
  have hss : (dispatch cfg M kind).d.stringstack = M.d.stringstack := by
    rw [dispatch_name hok M kind hk]
    simp [set_nameindex, ccn_decoder_push]
  refine ⟨hst, hnum, ?_, ?_, ?_⟩
  · by_cases hz : ∃ b ∈ name, b = 0
    · rw [body_name_zero cfg p _ name rest _ _ hst hdn (by rw [hdi]; exact hd) hnum hne hz
        hstack (by rw [hss])]
      simp [hz]
    · have hnz : ∀ b ∈ name, b ≠ 0 := fun b hb h0 => hz ⟨b, hb, h0⟩
      rw [body_name cfg p _ name rest _ _ hst hdn (by rw [hdi]; exact hd) hnum hne hnz
        hstack (by rw [hss])]
      simp [hz]
  · rw [name_pass_bytes cfg p _ hst, hdn, hdi, hnum]
    have := (drop_append_info hd).2.1
    simp only [List.length_append] at this
    split <;> omega
  · intro hnz
    rw [body_name cfg p _ name rest _ _ hst hdn (by rw [hdi]; exact hd) hnum hne hnz
      hstack (by rw [hss])]
    refine ⟨rfl, by simp [hss], ⟨_, rfl, rfl, ?_⟩⟩
    simp [hss, cstr_name name [] hnz]

/-! ## The comparison of name components -/

theorem memcmp_spec : ∀ (a b : List Nat), a.length = b.length →
    (memcmp a b b.length = 0 ↔ a = b) ∧
    (memcmp a b b.length < 0 ↔ bytewise_lt a b) ∧
    (0 < memcmp a b b.length ↔ bytewise_lt b a) := by
  intro a
  induction a with
  | nil =>
    intro b h
    cases b with
    | nil => simp [memcmp, bytewise_lt]
    | cons y ys => simp at h
  | cons x xs ih =>
    intro b h
    cases b with
    | nil => simp at h
    | cons y ys =>
      simp only [List.length_cons, Nat.add_right_cancel_iff] at h
      obtain ⟨i1, i2, i3⟩ := ih ys h
      by_cases hxy : x = y
      · subst hxy
        simp only [memcmp, List.length_cons, if_true, bytewise_lt, lt_self_iff_false,
          false_or, true_and, List.cons.injEq]
        exact ⟨i1, i2, i3⟩
      · simp only [memcmp, List.length_cons, if_neg hxy, bytewise_lt, List.cons.injEq]
        refine ⟨?_, ?_, ?_⟩
        · constructor
          · intro h0; omega
          · intro h0; exact absurd h0.1 hxy
        · constructor
          · intro h0; left; omega
          · intro h0
            rcases h0 with h0 | h0
            · omega
            · exact absurd h0.1 hxy
        · constructor
          · intro h0; left; omega
          · intro h0
            rcases h0 with h0 | h0
            · omega
            · exact absurd h0.1.symm hxy

/-! ## A call boundary behind an attribute name -/

/-- The bytes `TAG e, ATTR a` alone: the decoder is left with the frames of
the element and of the attribute and with `tagstate = 3`. -/
theorem decode_open_attr {cfg : Config} (hok : cfg.ok) (e a : List Nat)
    (he1 : 1 ≤ e.length) (he8 : e.length ≤ 8) (henz : ∀ b ∈ e, b ≠ 0)
    (ha1 : 1 ≤ a.length) (ha8 : a.length ≤ 8) (hanz : ∀ b ∈ a, b ≠ 0) :
    ccn_decoder_decode cfg ccn_decoder_create
        ([((e.length - 1) <<< 4) + cfg.CCN_TAG] ++ e ++
          [((a.length - 1) <<< 4) + cfg.CCN_ATTR] ++ a) =
      { d := { named (named ccn_decoder_create e) a with tagstate := 3 },
        ret := e.length + a.length + 2,
        out := lit "<" ++ e ++ lit " " ++ a ++ [61, 34] } := by
  have hk := ok_facts hok
  have h2 := two_pow_size hok
  rw [decode_eq_run, enter_create]
  rw [run_tag hok _ _ [] (e.length - 1) e
    ([((a.length - 1) <<< 4) + cfg.CCN_ATTR] ++ a) rfl rfl
    (drop_of_split [] _ (by simp [header_nil]) rfl) (by simp) (by omega)
    (by rw [header_value_nil]; omega) (by omega) henz]
  rw [run_attr hok _ _ [] (a.length - 1) a [] rfl (by simp)
    (drop_of_split ([((e.length - 1) <<< 4) + cfg.CCN_TAG] ++ e) _ (by simp [header_nil])
      (by simp; omega))
    (by simp) (by omega) (by rw [header_value_nil]; omega) (by omega) hanz
    (by simp [case0_quote])]
  rw [run_halted _ _ _ (by simp; omega)]
  simp [leave, case0_quote, named, Loop.print, prelude, close_start, frame,
    ccn_decoder_create]
  omega

/-- The byte `CCN_CLOSE` given in a call of its own to the decoder that
`decode_open_attr` leaves: the local `tagstate` starts at `0`, the closing
tag of the attribute name is written and the frame of the attribute is
popped. -/
theorem decode_close_after_attr (cfg : Config) (e a : List Nat)
    (hanz : ∀ b ∈ a, b ≠ 0) :
    ccn_decoder_decode cfg { named (named ccn_decoder_create e) a with tagstate := 3 }
        [cfg.CCN_CLOSE] =
      { d := named ccn_decoder_create e, ret := 1, out := lit "</" ++ a ++ lit ">" } := by
  rw [decode_eq_run]
  rw [run_close cfg _ _ [] rfl rfl (drop_of_split [] _ (by simp) rfl)]
  rw [run_halted _ _ _ (by
    rw [(case0_close_i _).1, (case0_close_i _).2, (case0_quote_i _).1, (case0_quote_i _).2]
    simp [enter])]
  simp [leave, enter, case0_close, case0_quote, named, Loop.print, frame,
    ccn_decoder_pop, ccn_decoder_create, cstr_name a [] hanz]
  have e1 : e ++ 0 :: (a ++ [0]) = (e ++ [0]) ++ (a ++ [0]) := by simp
  rw [e1, List.take_left' (by simp)]

/-- The bytes `TAG e, ATTR a, CLOSE` in one call: the loop ends in the
error state of the `CCN_CLOSE` branch. -/
theorem decode_attr_close {cfg : Config} (hok : cfg.ok) (e a : List Nat)
    (he1 : 1 ≤ e.length) (he8 : e.length ≤ 8) (henz : ∀ b ∈ e, b ≠ 0)
    (ha1 : 1 ≤ a.length) (ha8 : a.length ≤ 8) (hanz : ∀ b ∈ a, b ≠ 0) :
    ccn_decoder_decode cfg ccn_decoder_create
        ([((e.length - 1) <<< 4) + cfg.CCN_TAG] ++ e ++
          [((a.length - 1) <<< 4) + cfg.CCN_ATTR] ++ a ++ [cfg.CCN_CLOSE]) =
      { d := { named (named ccn_decoder_create e) a with state := -103, tagstate := 2 },
        ret := e.length + a.length + 3,
        out := lit "<" ++ e ++ lit " " ++ a ++ [61, 34] } := by
  have hk := ok_facts hok
  have h2 := two_pow_size hok
  rw [decode_eq_run, enter_create]
  rw [run_tag hok _ _ [] (e.length - 1) e
    ([((a.length - 1) <<< 4) + cfg.CCN_ATTR] ++ a ++ [cfg.CCN_CLOSE]) rfl rfl
    (drop_of_split [] _ (by simp [header_nil]) rfl) (by simp) (by omega)
    (by rw [header_value_nil]; omega) (by omega) henz]
  rw [run_attr hok _ _ [] (a.length - 1) a [cfg.CCN_CLOSE] rfl (by simp)
    (drop_of_split ([((e.length - 1) <<< 4) + cfg.CCN_TAG] ++ e) _ (by simp [header_nil])
      (by simp; omega))
    (by simp) (by omega) (by rw [header_value_nil]; omega) (by omega) hanz
    (by simp [case0_quote])]
  rw [run_close cfg _ _ [] rfl (by simp)
    (drop_of_split ([((e.length - 1) <<< 4) + cfg.CCN_TAG] ++ e ++
        [((a.length - 1) <<< 4) + cfg.CCN_ATTR] ++ a) _ (by simp)
      (by simp; omega))]
  rw [run_halted _ _ _ (by
    rw [(case0_close_i _).1, (case0_close_i _).2, (case0_quote_i _).1, (case0_quote_i _).2]
    simp; omega)]
  simp [leave, case0_close, case0_quote, named, Loop.print, prelude, close_start, frame,
    ccn_decoder_create]
  omega

/-- C11: (1) in state 0 with an empty stack the byte `CCN_CLOSE`, which is
the byte zero, puts the loop in the error state `-103`, within a call and as
the first byte of a call; (2) a terminal byte of kind `CCN_ATTR` read while
`tagstate` is not 1 puts the loop in the error state `-154` and leaves the
decoder, its stack included, as it was, in state 1, in state 0 (where the
byte is the whole header) and as the first byte of a call. -/
theorem error_triggers (cfg : Config) (hok : cfg.ok) :
    cfg.CCN_CLOSE = 0 ∧
    (∀ (p : List Nat) (L : Loop), L.state = 0 → L.d.stack = [] →
      p.getD L.i 0 = cfg.CCN_CLOSE →
      (body cfg p L).state = -103 ∧ (body cfg p L).i = L.i + 1 ∧
      (body cfg p L).d.stack = []) ∧
    (∀ (d : ccn_decoder) (rest : List Nat), d.state = 0 → d.stack = [] →
      (ccn_decoder_decode cfg d (cfg.CCN_CLOSE :: rest)).d.state = -103 ∧
      (ccn_decoder_decode cfg d (cfg.CCN_CLOSE :: rest)).ret = 1 ∧
      (ccn_decoder_decode cfg d (cfg.CCN_CLOSE :: rest)).out = [] ∧
      (ccn_decoder_decode cfg d (cfg.CCN_CLOSE :: rest)).d.stack = []) ∧
    (∀ (p : List Nat) (L : Loop) (b : Nat), L.state = 1 → p.getD L.i 0 = b → b < 128 →
      b &&& 15 = cfg.CCN_ATTR → L.tagstate ≠ 1 →
      (body cfg p L).state = -154 ∧ (body cfg p L).d = L.d ∧
      (body cfg p L).out = L.out ∧ (body cfg p L).i = L.i + 1) ∧
    (∀ (p : List Nat) (L : Loop) (b : Nat), L.state = 0 → p.getD L.i 0 = b →
      b ≠ cfg.CCN_CLOSE → b < 128 → b &&& 15 = cfg.CCN_ATTR →
      (case0_quote L).tagstate ≠ 1 →
      (body cfg p L).state = -154 ∧ (body cfg p L).d = L.d ∧
      (body cfg p L).out = L.out ∧ (body cfg p L).i = L.i + 1) ∧
    (∀ (d : ccn_decoder) (t : Nat) (rest : List Nat), d.state = 0 → t < 8 →
      (ccn_decoder_decode cfg d (((t <<< 4) + cfg.CCN_ATTR) :: rest)).d.state = -154 ∧
      (ccn_decoder_decode cfg d (((t <<< 4) + cfg.CCN_ATTR) :: rest)).ret = 1 ∧
      (ccn_decoder_decode cfg d (((t <<< 4) + cfg.CCN_ATTR) :: rest)).out = [] ∧
      (ccn_decoder_decode cfg d (((t <<< 4) + cfg.CCN_ATTR) :: rest)).d.stack = d.stack) := by
  have hk := ok_facts hok
  have attr1 : ∀ (p : List Nat) (L : Loop) (b : Nat), p.getD L.i 0 = b → b < 128 →
      b &&& 15 = cfg.CCN_ATTR → L.tagstate ≠ 1 →
      case1 cfg p L =
        { L with i := L.i + 1,
                 numval := (shl cfg.size_bits L.numval 3 + (b >>> 4)) % 2 ^ cfg.size_bits,
                 state := -154 } := by
    intro p L b hb hlt hkind hts
    rw [case1_term_any cfg p L b hb hlt, hkind, close_start_ATTR,
      dispatch_ATTR_closed hok
        { L with i := L.i + 1,
                 numval := (shl cfg.size_bits L.numval 3 + (b >>> 4)) % 2 ^ cfg.size_bits }
        hts]
  have attr0 : ∀ (p : List Nat) (L : Loop) (b : Nat), L.state = 0 → p.getD L.i 0 = b →
      b ≠ cfg.CCN_CLOSE → b < 128 → b &&& 15 = cfg.CCN_ATTR →
      (case0_quote L).tagstate ≠ 1 →
      (body cfg p L).state = -154 ∧ (body cfg p L).d = L.d ∧
      (body cfg p L).out = L.out ∧ (body cfg p L).i = L.i + 1 := by
    intro p L b hs hb hne hlt hkind hts
    have hq : case0_quote L = { L with tagstate := (case0_quote L).tagstate } := by
      revert hts
      unfold case0_quote
      split
      · split
        · intro hts; simp [Loop.print] at hts; omega
        · intro _; rfl
      · intro _; rfl
    rw [body_state0_header cfg p L hs (by rw [hb]; exact hne)]
    rw [attr1 p { case0_quote L with numval := 0, state := 1 } b
      (by rw [← hb]; exact congrArg (fun k => p.getD k 0) (case0_quote_i L).1)
      hlt hkind hts]
    rw [hq]
    exact ⟨rfl, rfl, rfl, rfl⟩
  refine ⟨hk.1, ?_, ?_, ?_, attr0, ?_⟩
  · intro p L hs hst hb
    have := body_close_empty cfg p L hs hst hb
    exact ⟨this.1, this.2.1, this.2.2.1⟩
  · intro d rest hs hst
    have hb := body_close_empty cfg (cfg.CCN_CLOSE :: rest) (enter d (cfg.CCN_CLOSE :: rest))
      hs hst rfl
    have hout : (body cfg (cfg.CCN_CLOSE :: rest) (enter d (cfg.CCN_CLOSE :: rest))).out
        = [] := by
      rw [body_state0_close cfg (cfg.CCN_CLOSE :: rest) (enter d (cfg.CCN_CLOSE :: rest))
        hs rfl]
      simp [case0_close, case0_quote, enter, hst]
    rw [decode_first_pass_error cfg d _ (by simp) (by rw [hb.1]; decide)]
    exact ⟨hb.1, hb.2.1, hout, hb.2.2.1⟩
  · intro p L b hs hb hlt hkind hts
    rw [body_state1 cfg p L hs, attr1 p L b hb hlt hkind hts]
    exact ⟨rfl, rfl, rfl, rfl⟩
  · intro d t rest hs ht
    have h0 : (t <<< 4) + cfg.CCN_ATTR = t * 16 + cfg.CCN_ATTR := by rw [shl4]
    have hb := attr0 (((t <<< 4) + cfg.CCN_ATTR) :: rest)
      (enter d (((t <<< 4) + cfg.CCN_ATTR) :: rest)) ((t <<< 4) + cfg.CCN_ATTR) hs rfl
      (by rw [hk.1, h0]; omega) (by rw [h0]; omega) (by rw [h0, and15]; omega)
      (by simp [case0_quote, enter])
    rw [decode_first_pass_error cfg d _ (by simp) (by rw [hb.1]; decide)]
    refine ⟨hb.1, hb.2.2.2, hb.2.2.1, ?_⟩
    show (body cfg _ _).d.stack = d.stack
    rw [hb.2.1]
    rfl

theorem error_triggers_witness :
    (ccn_decoder_decode cfg64 ccn_decoder_create [0, 0x21, 70]).d.state = -103 ∧
    (ccn_decoder_decode cfg64 ccn_decoder_create [0, 0x21, 70]).ret = 1 ∧
    (ccn_decoder_decode cfg64 ccn_decoder_create [0x32, 116]).d.state = -154 ∧
    (ccn_decoder_decode cfg64 ccn_decoder_create [0x32, 116]).d.stack = [] :=
  ⟨((error_triggers cfg64 (by decide)).2.2.1 ccn_decoder_create [0x21, 70] rfl rfl).1,
   ((error_triggers cfg64 (by decide)).2.2.1 ccn_decoder_create [0x21, 70] rfl rfl).2.1,
   ((error_triggers cfg64 (by decide)).2.2.2.2.2 ccn_decoder_create 3 [116] rfl
      (by decide)).1,
   ((error_triggers cfg64 (by decide)).2.2.2.2.2 ccn_decoder_create 3 [116] rfl
      (by decide)).2.2.2⟩

/-- C12, as amended: a call on a decoder in an error state returns 0,
writes nothing and leaves the decoder as it was, the state included (only
`tagstate` is stored as 0); and once the loop is in an error state it
consumes no byte, writes nothing and changes neither the decoder nor the
state. The pass in which the error arises ends right behind the offending
byte in every state that reads byte by byte; in the name-copy states the
pass takes the bytes of the name that the chunk holds, up to the end of the
name, before the name is checked. -/
theorem error_states_absorbing (cfg : Config) (d : ccn_decoder) (p : List Nat)
    (h : d.state < 0) :
    ccn_decoder_decode cfg d p = { d := { d with tagstate := 0 }, ret := 0, out := [] } ∧
    (ccn_decoder_decode cfg d p).d.state = d.state ∧
    (ccn_decoder_decode cfg d p).d.stack = d.stack ∧
    (ccn_decoder_decode cfg d p).d.stringstack = d.stringstack ∧
    (∀ L : Loop, L.state < 0 →
      (run cfg p L).i = L.i ∧ (run cfg p L).out = L.out ∧ (run cfg p L).d = L.d ∧
      (run cfg p L).state = L.state) ∧
    (∀ L : Loop, ¬ L.state < 0 → (body cfg p L).state < 0 →
      ¬ (L.state = 4 ∨ L.state = 5) → (body cfg p L).i = L.i + 1) ∧
    (∀ L : Loop, L.state = 4 ∨ L.state = 5 →
      (body cfg p L).i = L.i + (if L.n - L.i > L.numval then L.numval else L.n - L.i)) := by
  refine ⟨decode_error cfg d p h, ?_, ?_, ?_, ?_, ?_, ?_⟩
  · rw [decode_error cfg d p h]
  · rw [decode_error cfg d p h]
  · rw [decode_error cfg d p h]
  · intro L hL
    rw [run_error cfg p L hL]
    split <;> exact ⟨rfl, rfl, rfl, rfl⟩
  · intro L h0 h1 h45
    exact error_pass_one_byte cfg p L h0 h1 h45
  · intro L h45
    exact name_pass_bytes cfg p L h45

theorem error_states_absorbing_witness :
    ccn_decoder_decode cfg64 { ccn_decoder_create with state := -103 } [0x21, 70, 111, 111] =
      { d := { ccn_decoder_create with state := -103 }, ret := 0, out := [] } :=
  (error_states_absorbing cfg64 { ccn_decoder_create with state := -103 }
    [0x21, 70, 111, 111] (by decide)).1

/-- C12, the claim as stated fails: behind a `TAG` header that declares
three bytes the name `A`, zero, `B` puts the decoder in the error state
`-220`; the zero byte is at index 2 of the chunk and the call returns 4, so
the byte `B` at index 3, behind the offending byte, is consumed in the call
in which the error arises (it is on the string stack); the byte behind the
name is not. -/
theorem error_pass_consumes_name_tail :
    (ccn_decoder_decode cfg64 ccn_decoder_create [0x21, 65, 0, 66, 7]).d.state = -220 ∧
    ([0x21, 65, 0, 66, 7] : List Nat).getD 2 0 = 0 ∧
    (ccn_decoder_decode cfg64 ccn_decoder_create [0x21, 65, 0, 66, 7]).ret = 4 ∧
    (ccn_decoder_decode cfg64 ccn_decoder_create [0x21, 65, 0, 66, 7]).d.stringstack
      = [65, 0, 66, 0] := by
  decide

/-- C13: in state 3 a byte equal to zero puts the loop in the error state
`-184` whatever the remaining count is, also when the count is 1 and the
byte is the last one of the payload; the same holds for the first byte of a
call on a decoder in state 3. -/
theorem text_zero_fatal (cfg : Config) :
    (∀ (p : List Nat) (L : Loop), L.state = 3 → p.getD L.i 0 = 0 →
      (body cfg p L).state = -184 ∧ (body cfg p L).i = L.i + 1 ∧
      (body cfg p L).out = L.out ∧ (body cfg p L).d = L.d) ∧
    (∀ (d : ccn_decoder) (rest : List Nat), d.state = 3 →
      (ccn_decoder_decode cfg d (0 :: rest)).d.state = -184 ∧
      (ccn_decoder_decode cfg d (0 :: rest)).ret = 1 ∧
      (ccn_decoder_decode cfg d (0 :: rest)).out = []) := by
  constructor
  · intro p L hs hb
    rw [body_text_zero cfg p L hs hb]
    exact ⟨rfl, rfl, rfl, rfl⟩
  · intro d rest hs
    have hb := body_text_zero cfg (0 :: rest) (enter d (0 :: rest)) hs rfl
    rw [decode_first_pass_error cfg d _ (by simp)
      (by rw [hb]; show (-184 : Int) < 0; decide), hb]
    exact ⟨rfl, rfl, rfl⟩

theorem text_zero_fatal_witness :
    (ccn_decoder_decode cfg64 { ccn_decoder_create with state := 3, numval := 1 }
      [0, 65]).d.state = -184 :=
  ((text_zero_fatal cfg64).2 { ccn_decoder_create with state := 3, numval := 1 } [65] rfl).1

/-- A `TAG` header and the name behind it on a fresh decoder: the call
ends in an error state if and only if the name holds a zero byte. -/
theorem decode_tag_name {cfg : Config} (hok : cfg.ok) (gs : List Nat) (t : Nat)
    (name : List Nat) (hg : ∀ g ∈ gs, g < 128) (ht : t < 8)
    (hv : header_value gs t + 1 = name.length) (hfit : name.length < 2 ^ cfg.size_bits) :
    ((ccn_decoder_decode cfg ccn_decoder_create (header gs t cfg.CCN_TAG ++ name)).d.state < 0
      ↔ ∃ b ∈ name, b = 0) ∧
    ((∀ b ∈ name, b ≠ 0) →
      (ccn_decoder_decode cfg ccn_decoder_create (header gs t cfg.CCN_TAG ++ name)).d.state = 0
      ∧ (ccn_decoder_decode cfg ccn_decoder_create
          (header gs t cfg.CCN_TAG ++ name)).d.stringstack = name ++ [0]) := by
  have hk := ok_facts hok
  have hne : name ≠ [] := by
    intro h; rw [h] at hv; simp at hv
  have hpos : 0 < name.length := List.length_pos.mpr hne
  have hrun := run_header0 cfg (header gs t cfg.CCN_TAG ++ name) t cfg.CCN_TAG name ht
    hk.2.1.2 hk.2.1.1 hk.1 gs
    { d := ccn_decoder_create, state := 0, tagstate := 0, numval := 0, i := 0,
      n := (header gs t cfg.CCN_TAG ++ name).length, out := [] }
    rfl rfl (drop_of_split [] _ (by simp) rfl) hg (by omega)
  have hpre : prelude cfg
      { d := ccn_decoder_create, state := 0, tagstate := 0, numval := 0, i := 0,
        n := (header gs t cfg.CCN_TAG ++ name).length, out := [] } cfg.CCN_TAG =
      { d := ccn_decoder_create, state := 0, tagstate := 0, numval := 0, i := 0,
        n := (header gs t cfg.CCN_TAG ++ name).length, out := [] } := by
    simp [prelude, close_start, case0_quote]
  rw [hpre] at hrun
  obtain ⟨o1, o2, o3, o4, o5⟩ := name_copy_outcome hok (header gs t cfg.CCN_TAG ++ name)
    { d := ccn_decoder_create, state := 1, tagstate := 0, numval := header_value gs t,
      i := 0 + (gs.length + 1), n := (header gs t cfg.CCN_TAG ++ name).length, out := [] }
    cfg.CCN_TAG (Or.inl rfl) name [] hv hfit rfl
    (drop_of_split (header gs t cfg.CCN_TAG) _ (by simp) (by simp [header_length]))
  have hdi := dispatch_i cfg
    { d := ccn_decoder_create, state := 1, tagstate := 0, numval := header_value gs t,
      i := 0 + (gs.length + 1), n := (header gs t cfg.CCN_TAG ++ name).length, out := [] }
    cfg.CCN_TAG
  have hstep := run_step cfg (header gs t cfg.CCN_TAG ++ name) _
    (show (dispatch cfg
      { d := ccn_decoder_create, state := 1, tagstate := 0, numval := header_value gs t,
        i := 0 + (gs.length + 1), n := (header gs t cfg.CCN_TAG ++ name).length, out := [] }
      cfg.CCN_TAG).i < _ by
        rw [hdi.1, hdi.2]; simp [header_length]; omega)
  have hdec : ccn_decoder_decode cfg ccn_decoder_create (header gs t cfg.CCN_TAG ++ name) =
      leave (body cfg (header gs t cfg.CCN_TAG ++ name) (dispatch cfg
        { d := ccn_decoder_create, state := 1, tagstate := 0, numval := header_value gs t,
          i := 0 + (gs.length + 1), n := (header gs t cfg.CCN_TAG ++ name).length,
          out := [] } cfg.CCN_TAG)) := by
    rw [decode_eq_run, enter_create, hrun, hstep]
    by_cases hz : ∃ b ∈ name, b = 0
    · rw [leave_run_error cfg _ _ (o3.mpr hz)]
    · rw [run_halted]
      have hbn := (body_bounds cfg (header gs t cfg.CCN_TAG ++ name) _
        (show (dispatch cfg
          { d := ccn_decoder_create, state := 1, tagstate := 0,
            numval := header_value gs t, i := 0 + (gs.length + 1),
            n := (header gs t cfg.CCN_TAG ++ name).length, out := [] }
          cfg.CCN_TAG).i < _ by
            rw [hdi.1, hdi.2]; simp [header_length]; omega)).1
        (by unfold live_state; rcases o1 with h | h <;> rw [h] <;> decide)
      rw [o4, hbn.1, hdi.2]
      simp [header_length]
  rw [hdec]
  refine ⟨o3, ?_⟩
  intro hnz
  obtain ⟨a1, a2, _⟩ := o5 hnz
  exact ⟨a1, by show (body cfg _ _).d.stringstack = _; rw [a2]; rfl⟩

/-- C14: for a `TAG` header, or an `ATTR` header read while a start tag
is open, that declares a name of `L` bytes (`1 ≤ L < 2 ^ size_bits`, the
accumulator holds `L - 1`) and is followed by `L` bytes, the name-copy pass
consumes the `L` bytes and ends in an error state if and only if one of them
is zero; when none is zero it ends in state 0, the string stack has grown by
the name and a zero byte, and the new top frame names exactly those `L`
bytes. The same holds for the call on a fresh decoder of a `TAG` header of
any length and its name. -/
theorem name_zero_fatal (cfg : Config) (hok : cfg.ok) (name : List Nat)
    (hfit : name.length < 2 ^ cfg.size_bits) :
    (∀ (p : List Nat) (M : Loop) (kind : Nat) (rest : List Nat),
      kind = cfg.CCN_TAG ∨ (kind = cfg.CCN_ATTR ∧ M.tagstate = 1) →
      M.numval + 1 = name.length → M.n = p.length → p.drop M.i = name ++ rest →
      ((dispatch cfg M kind).state = 4 ∨ (dispatch cfg M kind).state = 5) ∧
      (dispatch cfg M kind).numval = name.length ∧
      ((body cfg p (dispatch cfg M kind)).state < 0 ↔ ∃ b ∈ name, b = 0) ∧
      (body cfg p (dispatch cfg M kind)).i = M.i + name.length ∧
      ((∀ b ∈ name, b ≠ 0) →
        (body cfg p (dispatch cfg M kind)).state = 0 ∧
        (body cfg p (dispatch cfg M kind)).d.stringstack = M.d.stringstack ++ name ++ [0] ∧
        ∃ s, (body cfg p (dispatch cfg M kind)).d.stack = s :: M.d.stack ∧
          s.savedss = M.d.stringstack.length ∧
          cstr ((body cfg p (dispatch cfg M kind)).d.stringstack.drop s.nameindex)
            = name)) ∧
    (∀ (gs : List Nat) (t : Nat), (∀ g ∈ gs, g < 128) → t < 8 →
      header_value gs t + 1 = name.length →
      ((ccn_decoder_decode cfg ccn_decoder_create
          (header gs t cfg.CCN_TAG ++ name)).d.state < 0 ↔ ∃ b ∈ name, b = 0) ∧
      ((∀ b ∈ name, b ≠ 0) →
        (ccn_decoder_decode cfg ccn_decoder_create
          (header gs t cfg.CCN_TAG ++ name)).d.state = 0 ∧
        (ccn_decoder_decode cfg ccn_decoder_create
          (header gs t cfg.CCN_TAG ++ name)).d.stringstack = name ++ [0])) := by
  constructor
  · intro p M kind rest hk hv hn hd
    exact name_copy_outcome hok p M kind hk name rest hv hfit hn hd
  · intro gs t hg ht hv
    exact decode_tag_name hok gs t name hg ht hv hfit

theorem name_zero_fatal_witness :
    ((ccn_decoder_decode cfg64 ccn_decoder_create [0x21, 65, 0, 66]).d.state < 0
      ↔ ∃ b ∈ [65, 0, 66], b = 0) ∧
    (ccn_decoder_decode cfg64 ccn_decoder_create [0x21, 65, 0, 66]).d.state = -220 :=
  ⟨((name_zero_fatal cfg64 (by decide) [65, 0, 66] (by decide)).2 [] 2 (by decide)
      (by decide) (by decide)).1,
   by decide⟩

theorem take_open_attr (x : Nat) (e : List Nat) (y : Nat) (a : List Nat) (c : Nat) :
    ([x] ++ e ++ [y] ++ a ++ [c]).take (e.length + a.length + 2) = [x] ++ e ++ [y] ++ a ∧
    ([x] ++ e ++ [y] ++ a ++ [c]).drop (e.length + a.length + 2) = [c] := by
  constructor
  · rw [List.take_append_of_le_length (by simp; omega)]
    exact List.take_of_length_le (by simp; omega)
  · exact drop_of_split ([x] ++ e ++ [y] ++ a) [c] rfl (by simp; omega)

/-- C15: the code does not have the property when the call of
`ccn_decoder_decode` ends behind the attribute name. In one call the bytes
`TAG e, ATTR a, CLOSE` end in the error state `-103` with both frames on the
stack and nothing written for the `CCN_CLOSE` byte. Given in a call of its
own, the `CCN_CLOSE` byte finds the local `tagstate` at 0: the call writes
the closing tag of the attribute name, pops the frame of the attribute and
ends in state 0. -/
theorem close_with_attribute_pending (cfg : Config) (hok : cfg.ok) (e a : List Nat)
    (he1 : 1 ≤ e.length) (he8 : e.length ≤ 8) (henz : ∀ b ∈ e, b ≠ 0)
    (ha1 : 1 ≤ a.length) (ha8 : a.length ≤ 8) (hanz : ∀ b ∈ a, b ≠ 0) :
    (ccn_decoder_decode cfg ccn_decoder_create
        ([((e.length - 1) <<< 4) + cfg.CCN_TAG] ++ e ++
          [((a.length - 1) <<< 4) + cfg.CCN_ATTR] ++ a ++ [cfg.CCN_CLOSE])) =
      { d := { named (named ccn_decoder_create e) a with state := -103, tagstate := 2 },
        ret := e.length + a.length + 3,
        out := lit "<" ++ e ++ lit " " ++ a ++ [61, 34] } ∧
    (ccn_decoder_decode cfg ccn_decoder_create
        ([((e.length - 1) <<< 4) + cfg.CCN_TAG] ++ e ++
          [((a.length - 1) <<< 4) + cfg.CCN_ATTR] ++ a)).d =
      { named (named ccn_decoder_create e) a with tagstate := 3 } ∧
    decode_split cfg ccn_decoder_create
        ([((e.length - 1) <<< 4) + cfg.CCN_TAG] ++ e ++
          [((a.length - 1) <<< 4) + cfg.CCN_ATTR] ++ a ++ [cfg.CCN_CLOSE])
        (e.length + a.length + 2) =
      { d := named ccn_decoder_create e, ret := e.length + a.length + 3,
        out := lit "<" ++ e ++ lit " " ++ a ++ [61, 34] ++ (lit "</" ++ a ++ lit ">") } ∧
    (named ccn_decoder_create e).state = 0 ∧
    (named ccn_decoder_create e).stack.length = 1 ∧
    (named (named ccn_decoder_create e) a).stack.length = 2 := by
  refine ⟨decode_attr_close hok e a he1 he8 henz ha1 ha8 hanz, ?_, ?_, rfl, rfl, rfl⟩
  · rw [decode_open_attr hok e a he1 he8 henz ha1 ha8 hanz]
  · unfold decode_split
    simp only []
    rw [(take_open_attr _ e _ a _).1, (take_open_attr _ e _ a _).2,
      decode_open_attr hok e a he1 he8 henz ha1 ha8 hanz,
      decode_close_after_attr cfg e a hanz]
    rfl

theorem close_with_attribute_pending_witness :
    (ccn_decoder_decode cfg64 ccn_decoder_create
      [0x01, 98, 0x32, 116, 121, 112, 101, 0]).d.state = -103 ∧
    (decode_split cfg64 ccn_decoder_create
      [0x01, 98, 0x32, 116, 121, 112, 101, 0] 7).d.state = 0 ∧
    (decode_split cfg64 ccn_decoder_create
      [0x01, 98, 0x32, 116, 121, 112, 101, 0] 7).out
      = [60, 98, 32, 116, 121, 112, 101, 61, 34] ++ lit "</type>" :=
  ⟨congrArg (fun r => r.d.state)
      (close_with_attribute_pending cfg64 (by decide) [98] [116, 121, 112, 101] (by decide)
        (by decide) (by decide) (by decide) (by decide) (by decide)).1,
   congrArg (fun r => r.d.state)
      (close_with_attribute_pending cfg64 (by decide) [98] [116, 121, 112, 101] (by decide)
        (by decide) (by decide) (by decide) (by decide) (by decide)).2.2.1,
   congrArg (fun r => r.out)
      (close_with_attribute_pending cfg64 (by decide) [98] [116, 121, 112, 101] (by decide)
        (by decide) (by decide) (by decide) (by decide) (by decide)).2.2.1⟩

/-- C16: in state 9 a terminal byte (high bit clear) of kind `CCN_INTVAL`
brings the loop back to state 0 with the decimal number written; a terminal
byte of any other kind, `CCN_TAG`, `CCN_ATTR`, `CCN_BLOB` and `CCN_UDATA`
among them, puts it in the error state `-253`. In both cases the byte is
consumed, the stack and the string stack stay as they were and `numval` is
not touched, so that no frame is pushed and no payload is started. -/
theorem wide_path_only_integers (cfg : Config) (hok : cfg.ok) (p : List Nat) (L : Loop)
    (b : Nat) (hs : L.state = 9) (hb : p.getD L.i 0 = b) (hlt : b < 128) :
    (b &&& 15 = cfg.CCN_INTVAL → (body cfg p L).state = 0 ∧
      (body cfg p L).out = L.out ++ (if L.tagstate = 1 then lit ">" else []) ++
        decimal ((shl cfg.max_bits L.d.bignumval 3 + (b >>> 4)) % 2 ^ cfg.max_bits)) ∧
    (b &&& 15 ≠ cfg.CCN_INTVAL → (body cfg p L).state = -253) ∧
    (b &&& 15 = cfg.CCN_TAG ∨ b &&& 15 = cfg.CCN_ATTR ∨ b &&& 15 = cfg.CCN_BLOB ∨
      b &&& 15 = cfg.CCN_UDATA → (body cfg p L).state = -253) ∧
    (body cfg p L).i = L.i + 1 ∧
    (body cfg p L).d.stack = L.d.stack ∧
    (body cfg p L).d.stringstack = L.d.stringstack ∧
    (body cfg p L).numval = L.numval := by
  have hk := ok_facts hok
  obtain ⟨w1, w2, w3, w4, w5, w6, w7⟩ := body_wide_term cfg p L b hs hb hlt
  refine ⟨?_, ?_, ?_, w2, w3, w4, w5⟩
  · intro h
    rw [w1, w7, w6]
    simp [h]
  · intro h
    rw [w1]; simp [h]
  · intro h
    rw [w1]
    have : ¬ b &&& 15 = cfg.CCN_INTVAL := by
      rcases h with h | h | h | h <;> rw [h] <;> omega
    simp [this]

theorem wide_path_only_integers_witness :
    (body cfg64 [0x21]
      { d := ccn_decoder_create, state := 9, tagstate := 0, numval := 0, i := 0, n := 1,
        out := [] }).state = -253 :=
  (wide_path_only_integers cfg64 (by decide) [0x21]
    { d := ccn_decoder_create, state := 9, tagstate := 0, numval := 0, i := 0, n := 1,
      out := [] } 0x21 rfl rfl (by decide)).2.1 (by decide)

/-- C17: for a decoder whose state is one the code assigns (a live state or
an error state, which is the case of every decoder that calls can produce)
and a chunk of `n` bytes, the loop of `ccn_decoder_decode` comes to its end
within the passes the embedding allows, the returned count `r` is at most
`n`, `r = n` when the call does not end in an error state, and `r < n` only
when it ends in an error state. -/
theorem consumed_count (cfg : Config) (d : ccn_decoder) (p : List Nat)
    (h : valid_state d.state) :
    ¬ (loop cfg p (3 * p.length + 3) (enter d p)).i
        < (loop cfg p (3 * p.length + 3) (enter d p)).n ∧
    0 ≤ (ccn_decoder_decode cfg d p).ret ∧
    (ccn_decoder_decode cfg d p).ret ≤ p.length ∧
    (¬ (ccn_decoder_decode cfg d p).d.state < 0 →
      (ccn_decoder_decode cfg d p).ret = p.length) ∧
    ((ccn_decoder_decode cfg d p).ret < p.length →
      (ccn_decoder_decode cfg d p).d.state < 0) ∧
    valid_state (ccn_decoder_decode cfg d p).d.state := by
  have hc := decode_count cfg d p h
  have hh : ¬ (loop cfg p (3 * p.length + 3) (enter d p)).i
      < (loop cfg p (3 * p.length + 3) (enter d p)).n := by
    rw [loop_eq_run]
    · exact run_done cfg p _
    · have := slack_le (enter d p).state
      simp only [mu, enter] at *
      omega
  refine ⟨hh, Nat.zero_le _, hc.1, ?_, hc.2, decode_valid cfg d p h⟩
  intro hne
  by_contra hlt
  exact hne (hc.2 (by omega))

theorem consumed_count_witness :
    (ccn_decoder_decode cfg64 ccn_decoder_create [0x21, 70, 111, 111, 0, 0, 7]).ret ≤ 7 ∧
    ((ccn_decoder_decode cfg64 ccn_decoder_create [0x21, 70, 111, 111, 0, 0, 7]).ret < 7 →
      (ccn_decoder_decode cfg64 ccn_decoder_create
        [0x21, 70, 111, 111, 0, 0, 7]).d.state < 0) ∧
    (ccn_decoder_decode cfg64 ccn_decoder_create [0x21, 70, 111, 111, 0, 0, 7]).ret = 6 :=
  ⟨(consumed_count cfg64 ccn_decoder_create [0x21, 70, 111, 111, 0, 0, 7]
      (by decide)).2.2.1,
   (consumed_count cfg64 ccn_decoder_create [0x21, 70, 111, 111, 0, 0, 7]
      (by decide)).2.2.2.2.1,
   by decide⟩

/-- C18: when component `i` of the name exists, with bytes `comp`,
`r_util_name_comp_compare` returns 0 if and only if `comp` and `buf` have
the same length and the same bytes, a negative number if and only if `comp`
is shorter or of the same length and bytewise smaller, and a positive number
if and only if `comp` is longer or of the same length and bytewise larger. -/
theorem name_comp_compare_order
    (ndn_name_comp_get : List Nat → List Nat → Nat → Option (List Nat))
    (data indexbuf : List Nat) (i : Nat) (comp buf : List Nat)
    (hget : ndn_name_comp_get data indexbuf i = some comp) :
    (r_util_name_comp_compare ndn_name_comp_get data indexbuf i buf = 0 ↔
      comp.length = buf.length ∧ comp = buf) ∧
    (r_util_name_comp_compare ndn_name_comp_get data indexbuf i buf < 0 ↔
      comp.length < buf.length ∨ (comp.length = buf.length ∧ bytewise_lt comp buf)) ∧
    (0 < r_util_name_comp_compare ndn_name_comp_get data indexbuf i buf ↔
      comp.length > buf.length ∨ (comp.length = buf.length ∧ bytewise_lt buf comp)) := by
  unfold r_util_name_comp_compare
  rw [hget]
  simp only []
  by_cases h1 : comp.length < buf.length
  · rw [if_pos h1]
    refine ⟨?_, ?_, ?_⟩
    · constructor
      · intro h; exact absurd h (by decide)
      · intro h; omega
    · constructor
      · intro _; exact Or.inl h1
      · intro _; decide
    · constructor
      · intro h; exact absurd h (by decide)
      · intro h; rcases h with h | h <;> omega
  · rw [if_neg h1]
    by_cases h2 : comp.length > buf.length
    · rw [if_pos h2]
      refine ⟨?_, ?_, ?_⟩
      · constructor
        · intro h; exact absurd h (by decide)
        · intro h; omega
      · constructor
        · intro h; exact absurd h (by decide)
        · intro h; rcases h with h | h <;> omega
      · constructor
        · intro _; exact Or.inl h2
        · intro _; decide
    · rw [if_neg h2]
      have heq : comp.length = buf.length := by omega
      obtain ⟨m1, m2, m3⟩ := memcmp_spec comp buf heq
      refine ⟨?_, ?_, ?_⟩
      · rw [m1]; constructor
        · intro h; exact ⟨heq, h⟩
        · intro h; exact h.2
      · rw [m2]; constructor
        · intro h; exact Or.inr ⟨heq, h⟩
        · intro h; rcases h with h | h
          · omega
          · exact h.2
      · rw [m3]; constructor
        · intro h; exact Or.inr ⟨heq, h⟩
        · intro h; rcases h with h | h
          · omega
          · exact h.2

theorem name_comp_compare_order_witness :
    r_util_name_comp_compare (fun _ _ _ => some [1, 2, 3]) [] [] 0 [1, 2, 4] < 0 ↔
      [1, 2, 3].length < [1, 2, 4].length ∨
        ([1, 2, 3].length = [1, 2, 4].length ∧ bytewise_lt [1, 2, 3] [1, 2, 4]) :=
  (name_comp_compare_order (fun _ _ _ => some [1, 2, 3]) [] [] 0 [1, 2, 3] [1, 2, 4]
    rfl).2.1

/-- C19: in every decoder that calls of `ccn_decoder_decode` on a fresh
decoder can produce, every frame of the stack has
`savedss ≤ nameindex ≤ stringstack.length`, and of two frames the outer one
has the smaller or equal `savedss` (the stack lists the inner frame
first). -/
theorem arena_invariant (cfg : Config) (d : ccn_decoder) (h : Reachable cfg d) :
    (∀ f ∈ d.stack, f.savedss ≤ f.nameindex ∧ f.nameindex ≤ d.stringstack.length) ∧
    d.stack.Pairwise (fun inner outer => outer.savedss ≤ inner.savedss) := by
  obtain ⟨h1, h2⟩ := frames_ok_spec d.stack d.stringstack.length (reachable_arena h)
  exact ⟨h1, h2.imp (fun hab => hab.1)⟩

theorem arena_invariant_witness :
    (∀ f ∈ (ccn_decoder_decode cfg64 ccn_decoder_create [0x01, 98, 0x32, 116]).d.stack,
      f.savedss ≤ f.nameindex ∧
      f.nameindex ≤
        (ccn_decoder_decode cfg64 ccn_decoder_create
          [0x01, 98, 0x32, 116]).d.stringstack.length) ∧
    (ccn_decoder_decode cfg64 ccn_decoder_create [0x01, 98, 0x32, 116]).d.stack.Pairwise
      (fun inner outer => outer.savedss ≤ inner.savedss) :=
  arena_invariant cfg64 _ (Reachable.call _ [0x01, 98, 0x32, 116] Reachable.fresh)

/-- C20: `ccn_decoder_pop` unlinks the top frame and cuts the string stack
back to the `savedss` of that frame; `ccn_decoder_push` followed by any
appends to the string stack (and by stores to the fields `nameindex` and
`itemcount` of the new frame) followed by `ccn_decoder_pop` gives back the
stack and the string stack, hence its length, that were there before the
push; on an empty stack `ccn_decoder_pop` changes nothing. -/
theorem pop_undoes_push (d : ccn_decoder) (chunks : List (List Nat)) (v w : Nat) :
    (ccn_decoder_pop
      (set_itemcount
        { set_nameindex (ccn_decoder_push d) v with
          stringstack := chunks.foldl ccn_charbuf_append d.stringstack } w)).stack
      = d.stack ∧
    (ccn_decoder_pop
      (set_itemcount
        { set_nameindex (ccn_decoder_push d) v with
          stringstack := chunks.foldl ccn_charbuf_append d.stringstack } w)).stringstack
      = d.stringstack ∧
    (ccn_decoder_pop
      { ccn_decoder_push d with
        stringstack := chunks.foldl ccn_charbuf_append d.stringstack }).stack = d.stack ∧
    (ccn_decoder_pop
      { ccn_decoder_push d with
        stringstack := chunks.foldl ccn_charbuf_append d.stringstack }).stringstack.length
      = d.stringstack.length ∧
    (∀ (s : ccn_decoder_stack_item) (link : List ccn_decoder_stack_item),
      d.stack = s :: link →
      (ccn_decoder_pop d).stack = link ∧
      (ccn_decoder_pop d).stringstack = d.stringstack.take s.savedss ∧
      (s.savedss ≤ d.stringstack.length →
        (ccn_decoder_pop d).stringstack.length = s.savedss)) ∧
    (d.stack = [] → ccn_decoder_pop d = d) := by
  have happ : ∀ (cs : List (List Nat)) (ss : List Nat),
      ∃ extra, cs.foldl ccn_charbuf_append ss = ss ++ extra := by
    intro cs
    induction cs with
    | nil => intro ss; exact ⟨[], by simp⟩
    | cons c cs ih =>
      intro ss
      obtain ⟨extra, he⟩ := ih (ccn_charbuf_append ss c)
      refine ⟨c ++ extra, ?_⟩
      rw [List.foldl_cons, he]
      simp [ccn_charbuf_append]
  obtain ⟨extra, he⟩ := happ chunks d.stringstack
  refine ⟨?_, ?_, ?_, ?_, ?_, ?_⟩
  · simp [ccn_decoder_pop, set_itemcount, set_nameindex, ccn_decoder_push]
  · simp [ccn_decoder_pop, set_itemcount, set_nameindex, ccn_decoder_push, he]
  · simp [ccn_decoder_pop, ccn_decoder_push]
  · simp [ccn_decoder_pop, ccn_decoder_push, he]
  · intro s link hst
    refine ⟨?_, ?_, ?_⟩
    · simp [ccn_decoder_pop, hst]
    · simp [ccn_decoder_pop, hst]
    · intro hle
      simp [ccn_decoder_pop, hst, hle]
  · intro hst
    simp [ccn_decoder_pop, hst]

/-! ## Segment numbers, times and the face table -/

theorem foldl_256_le (bs : List Nat) : ∀ acc : Nat,
    acc ≤ bs.foldl (fun a b => a * 256 + b) acc := by
  induction bs with
  | nil => intro acc; exact Nat.le_refl _
  | cons b bs ih =>
    intro acc
    have := ih (acc * 256 + b)
    simp only [List.foldl_cons]
    omega

theorem wrap_signed_id (bits : Nat) (v : Nat) (hb : 0 < bits) (h : v < 2 ^ (bits - 1)) :
    wrap_signed bits (v : Int) = v := by
  unfold wrap_signed
  have h2 : (2 : Int) ^ bits = 2 ^ (bits - 1) + 2 ^ (bits - 1) := by
    have : bits = (bits - 1) + 1 := by omega
    conv_lhs => rw [this, pow_succ]
    ring
  have h3 : ((v : Int) + 2 ^ (bits - 1)) % 2 ^ bits = (v : Int) + 2 ^ (bits - 1) := by
    apply Int.emod_eq_of_lt
    · positivity
    · rw [h2]
      have : (v : Int) < 2 ^ (bits - 1) := by exact_mod_cast h
      linarith
  rw [h3]
  ring

/-- The loop computes the big-endian number when that number fits the
signed type. -/
theorem segment_loop_fits (bits : Nat) (hb : 0 < bits) (bs : List Nat) : ∀ acc : Nat,
    bs.foldl (fun a b => a * 256 + b) acc < 2 ^ (bits - 1) →
    segment_loop bits (acc : Int) bs = ((bs.foldl (fun a b => a * 256 + b) acc : Nat) : Int) := by
  induction bs with
  | nil => intro acc _; rfl
  | cons b bs ih =>
    intro acc h
    simp only [List.foldl_cons] at h ⊢
    have hle := foldl_256_le bs (acc * 256 + b)
    have hw : wrap_signed bits ((acc : Int) * 256 + (b : Int)) = ((acc * 256 + b : Nat) : Int) := by
      have := wrap_signed_id bits (acc * 256 + b) hb (by omega)
      rw [← this]
      push_cast
      rfl
    unfold segment_loop
    rw [hw]
    exact ih (acc * 256 + b) h

theorem big_endian_lt (bs : List Nat) (hb : ∀ b ∈ bs, b < 256) : ∀ acc : Nat,
    bs.foldl (fun a b => a * 256 + b) acc < (acc + 1) * 256 ^ bs.length := by
  induction bs with
  | nil => intro acc; simp
  | cons b bs ih =>
    intro acc
    have h1 := ih (fun x hx => hb x (List.mem_cons_of_mem _ hx)) (acc * 256 + b)
    have h2 : b < 256 := hb b (List.mem_cons_self _ _)
    simp only [List.foldl_cons, List.length_cons]
    calc bs.foldl (fun a b => a * 256 + b) (acc * 256 + b)
        < (acc * 256 + b + 1) * 256 ^ bs.length := h1
      _ ≤ ((acc + 1) * 256) * 256 ^ bs.length := by
          apply Nat.mul_le_mul_right; omega
      _ = (acc + 1) * 256 ^ (bs.length + 1) := by ring

theorem getD_set_cell (a : List (Option Nat)) (i j : Nat) (x : Option Nat) :
    (a.set i x).getD j none = if j = i ∧ i < a.length then x else a.getD j none := by
  simp only [List.getD_eq_getElem?_getD, List.getElem?_set]
  by_cases h : i = j
  · subst h
    by_cases h2 : i < a.length
    · simp [h2]
    · have : a[i]? = none := List.getElem?_eq_none (by omega)
      simp [h2, this]
  · have : ¬ j = i := fun e => h e.symm
    simp [h, this]

theorem getD_clear_cells : ∀ (k : Nat) (a : List (Option Nat)) (n j : Nat),
    (clear_cells a n k).getD j none = if n ≤ j ∧ j < n + k then none else a.getD j none := by
  intro k
  induction k with
  | zero =>
    intro a n j
    have : ¬ (n ≤ j ∧ j < n + 0) := by omega
    rw [if_neg this]
    rfl
  | succ k ih =>
    intro a n j
    unfold clear_cells
    rw [ih, getD_set_cell]
    by_cases h1 : n + 1 ≤ j ∧ j < n + 1 + k
    · have : n ≤ j ∧ j < n + (k + 1) := by omega
      simp [h1, this]
    · by_cases h2 : j = n
      · subst h2
        have : j ≤ j ∧ j < j + (k + 1) := by omega
        simp [h1, this]
        intro hlen
        have : a[j]? = none := List.getElem?_eq_none hlen
        simp [this]
      · have : ¬ (n ≤ j ∧ j < n + (k + 1)) := by omega
        simp [h1, this, h2]

theorem getD_realloc (a : List (Option Nat)) (c j : Nat) :
    (realloc a c).getD j none = if j < c then a.getD j none else none := by
  unfold realloc
  simp only [List.getD_eq_getElem?_getD]
  by_cases h : j < c
  · rw [if_pos h]
    by_cases h2 : j < a.length
    · rw [List.getElem?_append_left (by simp; omega), List.getElem?_take_of_lt h]
    · rw [List.getElem?_append_right (by simp; omega)]
      have : a[j]? = none := List.getElem?_eq_none (by omega)
      rw [this]
      simp only [List.getElem?_replicate]
      split <;> rfl
  · rw [if_neg h]
    have : (List.take c a ++ List.replicate (c - a.length) none)[j]? = none :=
      List.getElem?_eq_none (by simp; omega)
    simp [this]

theorem length_clear_cells : ∀ (k : Nat) (a : List (Option Nat)) (n : Nat),
    (clear_cells a n k).length = a.length := by
  intro k
  induction k with
  | zero => intro a n; rfl
  | succ k ih => intro a n; unfold clear_cells; rw [ih]; simp

theorem length_realloc (a : List (Option Nat)) (c : Nat) : (realloc a c).length = c := by
  unfold realloc
  simp
  omega

/-- A lookup after the code behind `use_i`, for a pointer whose `filedesc`
is already `i`. -/
theorem lookup_use_i (h : ccnr_handle) (mem : Nat → fdholder) (f i : Nat)
    (hf : (mem f).filedesc = i) (j : Nat) :
    (use_i h mem f i).lookup j =
      some (if j = i ∧ i < h.fdholder_by_fd.length ∧ i < h.face_limit then some f
            else r_io_fdholder_from_fd mem h j) := by
  have hmem : Function.update mem f { mem f with filedesc := i } = mem := by
    funext x
    by_cases hx : x = f
    · subst hx
      simp [Function.update, ← hf]
    · simp [Function.update, hx]
  unfold use_i
  simp only [enroll_result.lookup, hmem]
  unfold r_io_fdholder_from_fd
  simp only [getD_set_cell]
  by_cases hj : j = i
  · subst hj
    by_cases h1 : j < h.face_limit
    · by_cases h2 : j < h.fdholder_by_fd.length
      · simp [h1, h2, hf]
      · simp [h1, h2]
    · simp [h1]
  · simp [hj]

/-- C25: the claim does not hold for a descriptor whose cell is in use.
When `r_io_enroll_face` returns the `filedesc` of the fdholder (`i`), a
lookup of `i` gives that fdholder; when moreover cell `i` was free or beyond
the table, a lookup of any other descriptor gives what it gave before. With
cell `i` in use and `i + 1 < face_limit` the code takes the `realloc` path,
which cuts the table to `i + 1` cells: the fdholder of descriptor 2 of a
table of three is lost when descriptor 1 is enrolled again. -/
theorem enroll_face_frame (realloc_ok : Bool) (mem : Nat → fdholder) (h : ccnr_handle)
    (f : Nat) (hwf : h.fdholder_by_fd.length = h.face_limit)
    (hret : (r_io_enroll_face realloc_ok mem h f).value = some ((mem f).filedesc : Int)) :
    (r_io_enroll_face realloc_ok mem h f).lookup (mem f).filedesc = some (some f) ∧
    (((mem f).filedesc < h.face_limit →
        h.fdholder_by_fd.getD (mem f).filedesc none = none) →
      ∀ j, j ≠ (mem f).filedesc →
        (r_io_enroll_face realloc_ok mem h f).lookup j
          = some (r_io_fdholder_from_fd mem h j)) ∧
    (r_io_enroll_face true (fun a => if a = 11 then { filedesc := 2 } else { filedesc := 1 })
        { face_limit := 3, fdholder_by_fd := [none, some 10, some 11] } 12).value
      = some 1 ∧
    r_io_fdholder_from_fd (fun a => if a = 11 then { filedesc := 2 } else { filedesc := 1 })
        { face_limit := 3, fdholder_by_fd := [none, some 10, some 11] } 2 = some 11 ∧
    (r_io_enroll_face true (fun a => if a = 11 then { filedesc := 2 } else { filedesc := 1 })
        { face_limit := 3, fdholder_by_fd := [none, some 10, some 11] } 12).lookup 2
      = some none := by
  refine ⟨?_, ?_, by decide, by decide, by decide⟩
  · revert hret
    unfold r_io_enroll_face
    simp only []
    split
    · rename_i h1
      rw [if_pos h1.2]
      intro _
      rw [lookup_use_i h mem f _ rfl]
      simp [hwf, h1.1]
    · split
      · intro hret; simp [enroll_result.value] at hret
      · split
        · intro hret
          simp only [enroll_result.value, Option.some.injEq] at hret
          omega
        · intro _
          rw [lookup_use_i _ mem f _ rfl]
          simp [length_clear_cells, length_realloc]
  · revert hret
    unfold r_io_enroll_face
    simp only []
    split
    · rename_i h1
      rw [if_pos h1.2]
      intro _ _ j hj
      rw [lookup_use_i h mem f _ rfl]
      simp [hj]
    · rename_i h1
      split
      · intro hret; simp [enroll_result.value] at hret
      · split
        · intro hret
          simp only [enroll_result.value, Option.some.injEq] at hret
          omega
        · intro _ hfree j hj
          have hge : h.face_limit ≤ (mem f).filedesc := by
            by_contra hlt
            exact h1 ⟨by omega, hfree (by omega)⟩
          rw [lookup_use_i _ mem f _ rfl]
          simp only [hj, false_and, if_false]
          unfold r_io_fdholder_from_fd
          simp only [getD_clear_cells, getD_realloc]
          by_cases h2 : j < h.face_limit
          · have e1 : j < (mem f).filedesc + 1 := by omega
            have e2 : ¬ (h.face_limit ≤ j ∧
                j < h.face_limit + ((mem f).filedesc + 1 - h.face_limit)) := by omega
            simp [h2, e1, e2]
          · by_cases h3 : j < (mem f).filedesc + 1
            · have e2 : h.face_limit ≤ j ∧
                  j < h.face_limit + ((mem f).filedesc + 1 - h.face_limit) := by omega
              simp [h2, h3, e2]
            · simp [h2, h3]

theorem enroll_face_frame_witness :
    (r_io_enroll_face true (fun _ => { filedesc := 4 })
        { face_limit := 2, fdholder_by_fd := [none, some 7] } 9).lookup 4 = some (some 9) ∧
    ∀ j, j ≠ 4 →
      (r_io_enroll_face true (fun _ => { filedesc := 4 })
        { face_limit := 2, fdholder_by_fd := [none, some 7] } 9).lookup j
        = some (r_io_fdholder_from_fd (fun _ => { filedesc := 4 })
            { face_limit := 2, fdholder_by_fd := [none, some 7] } j) :=
  ⟨(enroll_face_frame true (fun _ => { filedesc := 4 })
      { face_limit := 2, fdholder_by_fd := [none, some 7] } 9 rfl (by decide)).1,
   (enroll_face_frame true (fun _ => { filedesc := 4 })
      { face_limit := 2, fdholder_by_fd := [none, some 7] } 9 rfl (by decide)).2.1
      (by decide)⟩

/-- C26: the claim does not hold for a content of nine bytes whose second
byte is 128 or more. For a content `data` with first byte 0 and
`1 ≤ len ≤ 9` (with `sizeof(intmax_t) = 8`) whose big-endian value behind
the first byte is below `2 ^ 63`, which is the case of every content of at
most eight bytes, the result is that value, hence not negative and not -1
(and 0 when `len = 1`); the result is -1 when `start ≥ stop`, when there is
no content, when it is empty, when its first byte is not 0 and when
`len > 9`. With nine bytes the sum leaves the range of `intmax_t`: the
content 00 FF FF FF FF FF FF FF FF gives -1, the failure value. -/
theorem segment_from_component_value
    (ndn_ref_tagged_BLOB : List Nat → Nat → Nat → Option (List Nat))
    (ndnb : List Nat) (start stop : Nat) (data : List Nat)
    (hblob : ndn_ref_tagged_BLOB ndnb start stop = some data) :
    (start < stop → 1 ≤ data.length → data.length ≤ 9 → data.getD 0 0 = 0 →
      big_endian (data.drop 1) < 2 ^ 63 →
      r_util_segment_from_component ndn_ref_tagged_BLOB 8 ndnb start stop
        = (big_endian (data.drop 1) : Int) ∧
      0 ≤ r_util_segment_from_component ndn_ref_tagged_BLOB 8 ndnb start stop ∧
      r_util_segment_from_component ndn_ref_tagged_BLOB 8 ndnb start stop ≠ -1 ∧
      (data.length = 1 →
        r_util_segment_from_component ndn_ref_tagged_BLOB 8 ndnb start stop = 0)) ∧
    (data.length ≤ 8 → (∀ b ∈ data, b < 256) → big_endian (data.drop 1) < 2 ^ 63) ∧
    (data.length = 9 → (∀ b ∈ data, b < 256) → data.getD 1 0 < 128 →
      big_endian (data.drop 1) < 2 ^ 63) ∧
    (stop ≤ start ∨ data = [] ∨ data.getD 0 0 ≠ 0 ∨ 9 < data.length →
      r_util_segment_from_component ndn_ref_tagged_BLOB 8 ndnb start stop = -1) ∧
    (∀ (other : List Nat → Nat → Nat → Option (List Nat)),
      other ndnb start stop = none →
      r_util_segment_from_component other 8 ndnb start stop = -1) ∧
    r_util_segment_from_component
      (fun _ _ _ => some [0, 255, 255, 255, 255, 255, 255, 255, 255]) 8 [] 0 1 = -1 ∧
    r_util_segment_from_component
      (fun _ _ _ => some [0, 128, 0, 0, 0, 0, 0, 0, 0]) 8 [] 0 1 = -(2 ^ 63) := by
  have hval : start < stop → 1 ≤ data.length → data.length ≤ 9 → data.getD 0 0 = 0 →
      big_endian (data.drop 1) < 2 ^ 63 →
      r_util_segment_from_component ndn_ref_tagged_BLOB 8 ndnb start stop
        = (big_endian (data.drop 1) : Int) := by
    intro h1 h2 h3 h4 h5
    unfold r_util_segment_from_component
    rw [if_pos h1, hblob]
    simp only []
    rw [if_pos ⟨by omega, h4, by omega⟩]
    exact segment_loop_fits 64 (by decide) (data.drop 1) 0 h5
  refine ⟨?_, ?_, ?_, ?_, ?_, ?_, ?_⟩
  · intro h1 h2 h3 h4 h5
    have e := hval h1 h2 h3 h4 h5
    refine ⟨e, ?_, ?_, ?_⟩
    · rw [e]; exact Int.ofNat_nonneg _
    · rw [e]
      have := Int.ofNat_nonneg (big_endian (data.drop 1))
      omega
    · intro h6
      rw [e]
      have : data.drop 1 = [] := List.drop_eq_nil_of_le (by omega)
      rw [this]
      rfl
  · intro h1 hb
    have := big_endian_lt (data.drop 1) (fun b hb2 => hb b (List.mem_of_mem_drop hb2)) 0
    have hl : (data.drop 1).length ≤ 7 := by simp; omega
    have hp : 256 ^ (data.drop 1).length ≤ 256 ^ 7 := Nat.pow_le_pow_right (by decide) hl
    unfold big_endian
    have h7 : (256 : Nat) ^ 7 < 2 ^ 63 := by norm_num
    omega
  · intro h1 hb h2
    match data, h1, hb, h2 with
    | [_, b1, b2, b3, b4, b5, b6, b7, b8], _, hb, h2 =>
      have c1 : b1 < 128 := h2
      have c2 : b2 < 256 := hb b2 (by simp)
      have c3 : b3 < 256 := hb b3 (by simp)
      have c4 : b4 < 256 := hb b4 (by simp)
      have c5 : b5 < 256 := hb b5 (by simp)
      have c6 : b6 < 256 := hb b6 (by simp)
      have c7 : b7 < 256 := hb b7 (by simp)
      have c8 : b8 < 256 := hb b8 (by simp)
      simp only [big_endian, List.drop, List.foldl]
      omega
  · intro h
    unfold r_util_segment_from_component
    split
    · rw [hblob]
      simp only []
      rw [if_neg]
      rintro ⟨a1, a2, a3⟩
      rcases h with h | h | h | h
      · omega
      · rw [h] at a1; simp at a1
      · exact h a2
      · omega
    · rfl
  · intro other ho
    unfold r_util_segment_from_component
    split
    · rw [ho]
    · rfl
  · simp [r_util_segment_from_component, segment_loop, wrap_signed]
  · norm_num [r_util_segment_from_component, segment_loop, wrap_signed]

theorem segment_from_component_value_witness :
    r_util_segment_from_component (fun _ _ _ => some [0, 1, 2]) 8 [] 0 1
      = (big_endian [1, 2] : Int) ∧
    r_util_segment_from_component (fun _ _ _ => some [0, 1, 2]) 8 [] 0 1 ≠ -1 :=
  ⟨((segment_from_component_value (fun _ _ _ => some [0, 1, 2]) [] 0 1 [0, 1, 2] rfl).1
      (by decide) (by decide) (by decide) (by decide) (by decide)).1,
   ((segment_from_component_value (fun _ _ _ => some [0, 1, 2]) [] 0 1 [0, 1, 2] rfl).1
      (by decide) (by decide) (by decide) (by decide) (by decide)).2.2.1⟩

/-- C27: `r_util_timecmp` returns -1, 0 or 1; 0 if and only if the seconds
and the microseconds are equal; -1 if and only if `(secA, usecA)` is
smaller than `(secB, usecB)` in the lexicographic order, 1 if and only if it
is larger; and with the two times swapped it returns the negated value. -/
theorem timecmp_three_way (secA : Int) (usecA : Nat) (secB : Int) (usecB : Nat) :
    (r_util_timecmp secA usecA secB usecB = -1 ∨ r_util_timecmp secA usecA secB usecB = 0 ∨
      r_util_timecmp secA usecA secB usecB = 1) ∧
    (r_util_timecmp secA usecA secB usecB = 0 ↔ secA = secB ∧ usecA = usecB) ∧
    (r_util_timecmp secA usecA secB usecB = -1 ↔
      secA < secB ∨ (secA = secB ∧ usecA < usecB)) ∧
    (r_util_timecmp secA usecA secB usecB = 1 ↔
      secB < secA ∨ (secA = secB ∧ usecB < usecA)) ∧
    r_util_timecmp secB usecB secA usecA = - r_util_timecmp secA usecA secB usecB := by
  unfold r_util_timecmp
  refine ⟨?_, ?_, ?_, ?_, ?_⟩
  · split_ifs <;> simp
  · split_ifs <;> constructor <;> intro h <;>
      first | omega | (exfalso; revert h; decide)
  · split_ifs <;> constructor <;> intro h <;>
      first | omega | (exfalso; revert h; decide)
  · split_ifs <;> constructor <;> intro h <;>
      first | omega | (exfalso; revert h; decide)
  · split_ifs <;> first | rfl | omega

/-! ## The terminal byte of a header -/

theorem case0_quote_low (L : Loop) (h : ¬ L.tagstate > 1) : case0_quote L = L := by
  unfold case0_quote
  rw [if_neg h]

/-- The pass that reads the terminal byte of a header, in state 1 or in
state 0 (where the byte is the whole header). -/
theorem body_header_term (cfg : Config) (p : List Nat) (L : Loop) (b : Nat)
    (hs : (L.state = 0 ∧ b ≠ cfg.CCN_CLOSE) ∨ L.state = 1)
    (hb : p.getD L.i 0 = b) (hlt : b < 128) :
    body cfg p L =
      dispatch cfg (close_start cfg (at_switch cfg L b) (b &&& 15)) (b &&& 15) := by
  unfold at_switch
  rcases hs with ⟨h0, hne⟩ | h1
  · have hq := (case0_quote_i L).1
    rw [body_state0_header cfg p L h0 (by rw [hb]; exact hne),
      case1_term_any cfg p { case0_quote L with numval := 0, state := 1 } b
        (by rw [← hb]; exact congrArg (fun k => p.getD k 0) hq) hlt]
    simp only [h0, if_true, hq]
  · obtain ⟨d, st, ts, nv, i, n, out⟩ := L
    simp only at h1 hb
    subst h1
    rw [body_state1 cfg p _ rfl, case1_term_any cfg p _ b hb hlt]
    rfl

theorem close_start_fields (cfg : Config) (L : Loop) (kind : Nat) :
    (close_start cfg L kind).d = L.d ∧ (close_start cfg L kind).state = L.state ∧
    (close_start cfg L kind).numval = L.numval ∧ (close_start cfg L kind).i = L.i ∧
    (close_start cfg L kind).n = L.n ∧
    (close_start cfg L kind).out =
      L.out ++ (if L.tagstate = 1 ∧ kind ≠ cfg.CCN_ATTR then lit ">" else []) ∧
    (close_start cfg L kind).tagstate =
      (if L.tagstate = 1 ∧ kind ≠ cfg.CCN_ATTR then 0 else L.tagstate) := by
  unfold close_start
  by_cases h : L.tagstate = 1 ∧ kind ≠ cfg.CCN_ATTR
  · rw [if_pos h, if_pos h, if_pos h]
    exact ⟨rfl, rfl, rfl, rfl, rfl, rfl, rfl⟩
  · rw [if_neg h, if_neg h, if_neg h]
    exact ⟨rfl, rfl, rfl, rfl, rfl, by simp, rfl⟩

theorem at_switch_fields (cfg : Config) (L : Loop) (b : Nat) :
    (at_switch cfg L b).d = (if L.state = 0 then case0_quote L else L).d ∧
    (at_switch cfg L b).state = 1 ∧
    (at_switch cfg L b).numval =
      (shl cfg.size_bits (if L.state = 0 then 0 else L.numval) 3 + (b >>> 4))
        % 2 ^ cfg.size_bits ∧
    (at_switch cfg L b).i = L.i + 1 ∧
    (at_switch cfg L b).n = L.n ∧
    (at_switch cfg L b).out = (if L.state = 0 then case0_quote L else L).out ∧
    (at_switch cfg L b).tagstate = (if L.state = 0 then case0_quote L else L).tagstate := by
  refine ⟨rfl, rfl, rfl, rfl, ?_, rfl, rfl⟩
  unfold at_switch
  by_cases h : L.state = 0
  · simp only [h, if_true]; exact (case0_quote_i L).2
  · simp only [h, if_false]

theorem shl_zero (bits k : Nat) : shl bits 0 k = 0 := by
  simp [shl]

/-! ## The payload counter does not pass zero -/

theorem pow_size_pos (cfg : Config) : 0 < 2 ^ cfg.size_bits := Nat.two_pow_pos _

theorem dispatch_counter (cfg : Config) (L : Loop) (c : Nat)
    (h : L.numval < 2 ^ cfg.size_bits) :
    counter_ok cfg (dispatch cfg L c).state (dispatch cfg L c).numval := by
  have hp := pow_size_pos cfg
  have hm := Nat.mod_lt (L.numval + 1) hp
  unfold dispatch
  repeat' split
  all_goals simp [counter_ok, payload_state, Loop.print]
  all_goals omega

theorem case1_counter (cfg : Config) (p : List Nat) (L : Loop) (hs : L.state = 1)
    (h : L.numval < 2 ^ cfg.size_bits) :
    counter_ok cfg (case1 cfg p L).state (case1 cfg p L).numval := by
  have hp := pow_size_pos cfg
  unfold case1
  simp only []
  split
  · split
    · simp [counter_ok, payload_state]; exact h
    · split
      · simp [counter_ok, payload_state]; exact Nat.mod_lt _ hp
      · simp [counter_ok, payload_state, hs]; exact Nat.mod_lt _ hp
  · apply dispatch_counter
    split
    · exact Nat.mod_lt _ hp
    · exact Nat.mod_lt _ hp

theorem case0_quote_numval (L : Loop) : (case0_quote L).numval = L.numval := by
  unfold case0_quote
  repeat' split
  all_goals rfl

theorem case0_close_counter (cfg : Config) (L : Loop) (hs : L.state = 0)
    (h : L.numval < 2 ^ cfg.size_bits) :
    counter_ok cfg (case0_close L).state (case0_close L).numval := by
  unfold case0_close
  simp only []
  repeat' split
  all_goals simp [counter_ok, payload_state, Loop.print, hs]
  all_goals exact h

theorem case0_counter (cfg : Config) (p : List Nat) (L : Loop) (hs : L.state = 0)
    (h : L.numval < 2 ^ cfg.size_bits) :
    counter_ok cfg (case0 cfg p L).state (case0 cfg p L).numval := by
  unfold case0
  simp only []
  split
  · exact case0_close_counter cfg _ (by rw [case0_quote_state_eq]; exact hs)
      (by rw [case0_quote_numval]; exact h)
  · exact case1_counter cfg p _ rfl (pow_size_pos cfg)

theorem name_done_counter (cfg : Config) (L : Loop) (h : L.numval < 2 ^ cfg.size_bits) :
    counter_ok cfg (name_done L).state (name_done L).numval := by
  unfold name_done
  simp only []
  repeat' split
  all_goals simp [counter_ok, payload_state, Loop.print]
  all_goals exact h

theorem case45_counter (cfg : Config) (p : List Nat) (L : Loop)
    (hs : L.state = 4 ∨ L.state = 5) (h : L.numval < 2 ^ cfg.size_bits) :
    counter_ok cfg (case45 p L).state (case45 p L).numval := by
  unfold case45
  generalize (if L.n - L.i > L.numval then L.numval else L.n - L.i) = chunk
  simp only []
  split
  · simp [counter_ok, payload_state]; exact h
  · split
    · exact name_done_counter cfg _ (by show L.numval - chunk < _; omega)
    · refine ⟨?_, ?_, ?_⟩
      · show L.state ≠ 2; omega
      · intro hp
        have : payload_state L.state := hp
        unfold payload_state at this
        omega
      · show L.numval - chunk < _; omega

theorem case_byte_counter (cfg : Config) (p : List Nat) (L : Loop)
    (h : L.numval < 2 ^ cfg.size_bits) :
    (L.state = 3 → counter_ok cfg (case3 cfg p L).state (case3 cfg p L).numval) ∧
    (L.state = 9 → counter_ok cfg (case9 cfg p L).state (case9 cfg p L).numval) ∧
    counter_ok cfg (case10 cfg p L).state (case10 cfg p L).numval ∧
    counter_ok cfg (case11 cfg p L).state (case11 cfg p L).numval ∧
    counter_ok cfg (case12 cfg p L).state (case12 cfg p L).numval := by
  have hp := pow_size_pos cfg
  have hm := Nat.mod_lt (L.numval + (2 ^ cfg.size_bits - 1)) hp
  refine ⟨?_, ?_, ?_, ?_, ?_⟩
  · intro hs
    unfold case3
    generalize (L.numval + (2 ^ cfg.size_bits - 1)) % 2 ^ cfg.size_bits = nv at hm ⊢
    simp only []
    repeat' split
    all_goals simp [counter_ok, payload_state, Loop.print, hs]
    all_goals omega
  · intro hs
    unfold case9
    simp only []
    repeat' split
    all_goals simp [counter_ok, payload_state, Loop.print, hs]
    all_goals exact h
  · unfold case10
    simp only []
    repeat' split
    all_goals simp only [Loop.print] at *
    all_goals simp [counter_ok, payload_state]
    all_goals omega
  · unfold case11
    simp only []
    repeat' split
    all_goals simp only [Loop.print] at *
    all_goals simp [counter_ok, payload_state]
    all_goals omega
  · unfold case12
    simp only []
    repeat' split
    all_goals simp only [Loop.print] at *
    all_goals simp [counter_ok, payload_state]
    all_goals omega

/-- One pass of the loop keeps the counter invariant. -/
theorem body_counter (cfg : Config) (p : List Nat) (L : Loop)
    (h : counter_ok cfg L.state L.numval) :
    counter_ok cfg (body cfg p L).state (body cfg p L).numval := by
  obtain ⟨h2, h3, h4⟩ := h
  have hb := case_byte_counter cfg p L h4
  unfold body
  split
  · rename_i hs; exact case0_counter cfg p L hs h4
  · split
    · rename_i hs; exact case1_counter cfg p L hs h4
    · split
      · rename_i hs; exact hb.1 hs
      · split
        · rename_i hs; exact case45_counter cfg p L hs h4
        · split
          · rename_i hs; exact hb.2.1 hs
          · split
            · exact hb.2.2.1
            · split
              · exact hb.2.2.2.1
              · split
                · exact hb.2.2.2.2
                · exact ⟨h2, h3, h4⟩

theorem loop_counter (cfg : Config) (p : List Nat) (f : Nat) : ∀ L : Loop,
    counter_ok cfg L.state L.numval →
    counter_ok cfg (loop cfg p f L).state (loop cfg p f L).numval := by
  induction f with
  | zero => intro L h; exact h
  | succ f ih =>
    intro L h
    unfold loop
    split
    · exact ih _ (body_counter cfg p L h)
    · exact h

theorem decode_counter (cfg : Config) (d : ccn_decoder) (p : List Nat)
    (h : counter_ok cfg d.state d.numval) :
    counter_ok cfg (ccn_decoder_decode cfg d p).d.state
      (ccn_decoder_decode cfg d p).d.numval :=
  loop_counter cfg p _ (enter d p) h

theorem reachable_counter {cfg : Config} {d : ccn_decoder} (h : Reachable cfg d) :
    counter_ok cfg d.state d.numval := by
  induction h with
  | fresh =>
    refine ⟨by decide, ?_, pow_size_pos cfg⟩
    intro hp
    exact absurd hp (by decide)
  | call d p _ ih => exact decode_counter cfg d p ih

/-- In a payload state with bytes left the pre-decrement does not wrap. -/
theorem body_payload_decrement (cfg : Config) (p : List Nat) (L : Loop)
    (hs : payload_state L.state) (h1 : 1 ≤ L.numval) (h2 : L.numval < 2 ^ cfg.size_bits) :
    (body cfg p L).numval + 1 = L.numval := by
  have e : (L.numval + (2 ^ cfg.size_bits - 1)) % 2 ^ cfg.size_bits = L.numval - 1 := by
    have : L.numval + (2 ^ cfg.size_bits - 1) = (L.numval - 1) + 2 ^ cfg.size_bits := by omega
    rw [this, Nat.add_mod_right, Nat.mod_eq_of_lt (by omega)]
  unfold payload_state at hs
  unfold body
  rcases hs with hs | hs | hs | hs
  · simp only [hs]
    norm_num
    unfold case3
    simp only [e]
    repeat' split
    all_goals simp [Loop.print]
    all_goals omega
  · simp only [hs]
    norm_num
    unfold case10
    simp only [e]
    repeat' split
    all_goals simp [Loop.print]
    all_goals omega
  · simp only [hs]
    norm_num
    unfold case11
    simp only [e]
    repeat' split
    all_goals simp [Loop.print]
    all_goals omega
  · simp only [hs]
    norm_num
    unfold case12
    simp only [e]
    all_goals simp [Loop.print]
    all_goals omega

/-- C22: when the terminal byte of a narrow header has kind `CCN_BLOB` or
`CCN_UDATA` and the value of the header is 0, the pass that reads the byte
ends in state 0 with `numval = 0`, has consumed that byte only, has left the
decoder as it was and has written nothing but what closes the item before
(the double quote of an attribute value, the `>` of a start tag): no base 64
character, no padding, no text. A call on a decoder in state 0 with such a
header byte alone returns 1, writes nothing and leaves state 0. -/
theorem zero_length_payload (cfg : Config) (hok : cfg.ok) (p : List Nat) (L : Loop) (b : Nat)
    (hs : (L.state = 0 ∧ b ≠ cfg.CCN_CLOSE) ∨ L.state = 1)
    (hb : p.getD L.i 0 = b) (hlt : b < 128)
    (hkind : b &&& 15 = cfg.CCN_BLOB ∨ b &&& 15 = cfg.CCN_UDATA)
    (hzero : (shl cfg.size_bits (if L.state = 0 then 0 else L.numval) 3 + (b >>> 4))
      % 2 ^ cfg.size_bits = 0) :
    (body cfg p L).state = 0 ∧ (body cfg p L).i = L.i + 1 ∧ (body cfg p L).numval = 0 ∧
    (body cfg p L).d = (if L.state = 0 then case0_quote L else L).d ∧
    (body cfg p L).out = (if L.state = 0 then case0_quote L else L).out ++
      (if (if L.state = 0 then case0_quote L else L).tagstate = 1 then lit ">" else []) ∧
    (∀ (d : ccn_decoder) (kind : Nat), d.state = 0 →
      kind = cfg.CCN_BLOB ∨ kind = cfg.CCN_UDATA →
      ccn_decoder_decode cfg d [kind] =
        { d := { d with state := 0, tagstate := 0, numval := 0 }, ret := 1, out := [] }) := by
  have hk := ok_facts hok
  have key : ∀ (p : List Nat) (L : Loop) (b : Nat),
      (L.state = 0 ∧ b ≠ cfg.CCN_CLOSE) ∨ L.state = 1 → p.getD L.i 0 = b → b < 128 →
      b &&& 15 = cfg.CCN_BLOB ∨ b &&& 15 = cfg.CCN_UDATA →
      (shl cfg.size_bits (if L.state = 0 then 0 else L.numval) 3 + (b >>> 4))
        % 2 ^ cfg.size_bits = 0 →
      body cfg p L = { close_start cfg (at_switch cfg L b) (b &&& 15) with state := 0 } := by
    intro p L b hs hb hlt hkind hzero
    have hn : (close_start cfg (at_switch cfg L b) (b &&& 15)).numval = 0 := by
      rw [(close_start_fields cfg _ _).2.2.1, (at_switch_fields cfg L b).2.2.1, hzero]
    rw [body_header_term cfg p L b hs hb hlt]
    rcases hkind with h | h
    · rw [h, dispatch_BLOB hok]
      rw [h] at hn
      rw [if_pos hn]
    · rw [h, dispatch_UDATA hok]
      rw [h] at hn
      rw [if_pos hn]
  have hne : b &&& 15 ≠ cfg.CCN_ATTR := by
    rcases hkind with h | h <;> rw [h] <;> omega
  have hf := close_start_fields cfg (at_switch cfg L b) (b &&& 15)
  have ha := at_switch_fields cfg L b
  rw [key p L b hs hb hlt hkind hzero]
  refine ⟨rfl, ?_, ?_, ?_, ?_, ?_⟩
  · show (close_start cfg (at_switch cfg L b) (b &&& 15)).i = _
    rw [hf.2.2.2.1, ha.2.2.2.1]
  · show (close_start cfg (at_switch cfg L b) (b &&& 15)).numval = _
    rw [hf.2.2.1, ha.2.2.1, hzero]
  · show (close_start cfg (at_switch cfg L b) (b &&& 15)).d = _
    rw [hf.1, ha.1]
  · show (close_start cfg (at_switch cfg L b) (b &&& 15)).out = _
    rw [hf.2.2.2.2.2.1, ha.2.2.2.2.2.1, ha.2.2.2.2.2.2]
    simp only [hne, ne_eq, not_false_eq_true, and_true]
  · intro d kind hd hkd
    have hk16 : kind < 16 ∧ 0 < kind := by rcases hkd with h | h <;> rw [h] <;> omega
    have h15 : kind &&& 15 = kind := by rw [and15]; omega
    have h4 : kind >>> 4 = 0 := by rw [shr4]; omega
    have hst : (enter d [kind]).state = 0 := hd
    have hbody := key [kind] (enter d [kind]) kind (Or.inl ⟨hd, by omega⟩) rfl (by omega)
      (by rw [h15]; exact hkd)
      (by rw [if_pos hst, shl_zero, h4]; simp)
    have hf2 := close_start_fields cfg (at_switch cfg (enter d [kind]) kind) (kind &&& 15)
    have ha2 := at_switch_fields cfg (enter d [kind]) kind
    rw [if_pos hst, case0_quote_low _ (by simp [enter])] at ha2
    rw [decode_eq_run, run_step cfg _ _ (by simp [enter]), hbody]
    rw [run_halted _ _ _ (by
      show ¬ (close_start cfg _ _).i < (close_start cfg _ _).n
      rw [hf2.2.2.2.1, hf2.2.2.2.2.1, ha2.2.2.2.1, ha2.2.2.2.2.1]
      simp [enter])]
    unfold leave
    simp only []
    rw [hf2.1, hf2.2.2.1, hf2.2.2.2.1, hf2.2.2.2.2.2.1, hf2.2.2.2.2.2.2, ha2.1, ha2.2.2.1,
      ha2.2.2.2.1, ha2.2.2.2.2.2.1, ha2.2.2.2.2.2.2]
    simp [enter, hd, shl_zero, h4]

theorem zero_length_payload_witness :
    ccn_decoder_decode cfg64 ccn_decoder_create [3] =
      { d := { ccn_decoder_create with state := 0, tagstate := 0, numval := 0 },
        ret := 1, out := [] } :=
  (zero_length_payload cfg64 (by decide) [3]
    { d := ccn_decoder_create, state := 0, tagstate := 0, numval := 0, i := 0, n := 1,
      out := [] } 3 (Or.inl ⟨rfl, by decide⟩) rfl (by decide) (Or.inl (by decide))
    (by decide)).2.2.2.2.2 ccn_decoder_create 3 rfl (Or.inl rfl)

/-- C21: the code does not have the property when the header comes in the
call after the one that read the element name. Within a call, with
`tagstate = 1`, the terminal byte of a header of kind `CCN_INTVAL`,
`CCN_BLOB`, `CCN_UDATA` or `CCN_TAG` writes one `>` before anything else
(the decimal number of an `INTVAL` comes behind it) and sets `tagstate` to 0,
also on the wide path of state 9; a header of kind `CCN_ATTR` writes nothing
and leaves `tagstate` at 1. A call that ends behind the element name stores
`tagstate = 1` in the decoder, but the next call starts with the local
`tagstate` at 0: the text header that follows `<b` in a new call writes no
`>`, where one call writes `<b>X`. -/
theorem deferred_close (cfg : Config) (hok : cfg.ok) (p : List Nat) (L : Loop) (b : Nat)
    (hts : L.tagstate = 1) (hs : (L.state = 0 ∧ b ≠ cfg.CCN_CLOSE) ∨ L.state = 1)
    (hb : p.getD L.i 0 = b) (hlt : b < 128) :
    (b &&& 15 = cfg.CCN_INTVAL →
      (body cfg p L).tagstate = 0 ∧ (body cfg p L).state = 0 ∧
      (body cfg p L).out = L.out ++ lit ">" ++ decimal (body cfg p L).numval) ∧
    (b &&& 15 = cfg.CCN_BLOB ∨ b &&& 15 = cfg.CCN_UDATA ∨ b &&& 15 = cfg.CCN_TAG →
      (body cfg p L).tagstate = 0 ∧ (body cfg p L).out = L.out ++ lit ">") ∧
    (b &&& 15 = cfg.CCN_ATTR →
      (body cfg p L).tagstate = 1 ∧ (body cfg p L).state = 5 ∧
      (body cfg p L).out = L.out) ∧
    (∀ M : Loop, M.state = 9 → M.tagstate = 1 → p.getD M.i 0 = b →
      b &&& 15 = cfg.CCN_INTVAL →
      (body cfg p M).tagstate = 0 ∧ (body cfg p M).state = 0 ∧
      (body cfg p M).out = M.out ++ lit ">" ++ decimal (body cfg p M).d.bignumval) ∧
    (ccn_decoder_decode cfg64 ccn_decoder_create [0x01, 98]).d.tagstate = 1 ∧
    (ccn_decoder_decode cfg64 ccn_decoder_create [0x01, 98]).out = lit "<b" ∧
    (ccn_decoder_decode cfg64 (ccn_decoder_decode cfg64 ccn_decoder_create [0x01, 98]).d
      [0x14, 88]).out = [88] ∧
    (ccn_decoder_decode cfg64 ccn_decoder_create [0x01, 98, 0x14, 88]).out
      = lit "<b>" ++ [88] := by
  have hk := ok_facts hok
  have hq : (if L.state = 0 then case0_quote L else L) = L := by
    split
    · exact case0_quote_low L (by omega)
    · rfl
  have ha := at_switch_fields cfg L b
  rw [hq] at ha
  have hf := close_start_fields cfg (at_switch cfg L b) (b &&& 15)
  rw [ha.2.2.2.2.2.2, hts, ha.2.2.2.2.2.1] at hf
  have hbody := body_header_term cfg p L b hs hb hlt
  refine ⟨?_, ?_, ?_, ?_, by decide, by decide, by decide, by decide⟩
  · intro h
    have hne : b &&& 15 ≠ cfg.CCN_ATTR := by rw [h]; omega
    rw [if_pos ⟨rfl, hne⟩, if_pos ⟨rfl, hne⟩] at hf
    rw [hbody, h, dispatch_INTVAL]
    rw [h] at hf
    refine ⟨hf.2.2.2.2.2.2, rfl, ?_⟩
    show (close_start cfg (at_switch cfg L b) cfg.CCN_INTVAL).out ++ _ = _
    rw [hf.2.2.2.2.2.1]
    rfl
  · intro h
    have hne : b &&& 15 ≠ cfg.CCN_ATTR := by
      rcases h with h | h | h <;> rw [h] <;> omega
    rw [if_pos ⟨rfl, hne⟩, if_pos ⟨rfl, hne⟩] at hf
    rw [hbody]
    rcases h with h | h | h
    · rw [h, dispatch_BLOB hok]
      rw [h] at hf
      exact ⟨hf.2.2.2.2.2.2, hf.2.2.2.2.2.1⟩
    · rw [h, dispatch_UDATA hok]
      rw [h] at hf
      exact ⟨hf.2.2.2.2.2.2, hf.2.2.2.2.2.1⟩
    · rw [h, dispatch_TAG hok]
      rw [h] at hf
      exact ⟨hf.2.2.2.2.2.2, hf.2.2.2.2.2.1⟩
  · intro h
    rw [hbody, h, close_start_ATTR,
      dispatch_ATTR hok (at_switch cfg L b) (by rw [ha.2.2.2.2.2.2, hts])]
    exact ⟨by show (at_switch cfg L b).tagstate = 1; rw [ha.2.2.2.2.2.2, hts], rfl,
      by show (at_switch cfg L b).out = L.out; rw [ha.2.2.2.2.2.1]⟩
  · intro M hM hMt hMb hkind
    rw [body_state9 cfg p M hM]
    unfold case9
    simp only [hMb]
    have hc : ¬ (b ≠ b &&& 127) := by
      rw [and127]
      have : b % 128 = b := Nat.mod_eq_of_lt hlt
      omega
    rw [if_neg hc, if_pos hMt, if_pos hkind]
    exact ⟨rfl, rfl, rfl⟩

theorem deferred_close_witness :
    (body cfg64 [0x14, 88]
      { d := ccn_decoder_create, state := 0, tagstate := 1, numval := 0, i := 0, n := 2,
        out := lit "<b" }).out = lit "<b" ++ lit ">" :=
  ((deferred_close cfg64 (by decide) [0x14, 88]
    { d := ccn_decoder_create, state := 0, tagstate := 1, numval := 0, i := 0, n := 2,
      out := lit "<b" } 0x14 rfl (Or.inl ⟨rfl, by decide⟩) rfl (by decide)).2.1
    (Or.inr (Or.inl (by decide)))).2

/-- C24: in every decoder that calls of `ccn_decoder_decode` on a fresh
decoder can produce, and at every pass of the loop of a further call on it,
the state is never 2, and in state 3, 10, 11 or 12 the counter `numval` is at
least 1, so that the pass that follows leaves `numval` one smaller: the
pre-decrement `--numval` does not wrap around zero. -/
theorem counter_never_underflows (cfg : Config) (d : ccn_decoder) (h : Reachable cfg d) :
    d.state ≠ 2 ∧
    (d.state = 3 ∨ d.state = 10 ∨ d.state = 11 ∨ d.state = 12 → 1 ≤ d.numval) ∧
    d.numval < 2 ^ cfg.size_bits ∧
    (∀ (p : List Nat) (k : Nat),
      (loop cfg p k (enter d p)).state ≠ 2 ∧
      ((loop cfg p k (enter d p)).state = 3 ∨ (loop cfg p k (enter d p)).state = 10 ∨
        (loop cfg p k (enter d p)).state = 11 ∨ (loop cfg p k (enter d p)).state = 12 →
        1 ≤ (loop cfg p k (enter d p)).numval ∧
        (body cfg p (loop cfg p k (enter d p))).numval + 1
          = (loop cfg p k (enter d p)).numval)) := by
  have h0 := reachable_counter h
  refine ⟨h0.1, h0.2.1, h0.2.2, ?_⟩
  intro p k
  have hl := loop_counter cfg p k (enter d p) h0
  refine ⟨hl.1, ?_⟩
  intro hs
  exact ⟨hl.2.1 hs, body_payload_decrement cfg p _ hs (hl.2.1 hs) hl.2.2⟩

theorem counter_never_underflows_witness :
    (ccn_decoder_decode cfg64 ccn_decoder_create [0x34, 72, 105]).d.state = 3 ∧
    1 ≤ (ccn_decoder_decode cfg64 ccn_decoder_create [0x34, 72, 105]).d.numval :=
  ⟨by decide,
   (counter_never_underflows cfg64 _
      (Reachable.call _ [0x34, 72, 105] Reachable.fresh)).2.1 (Or.inl (by decide))⟩

/-! ## A call on `q` seen as the end of a call on `p ++ q` -/

theorem getD_shift (p q : List Nat) (i : Nat) :
    (p ++ q).getD (p.length + i) 0 = q.getD i 0 := by
  simp [List.getD_eq_getElem?_getD, List.getElem?_append_right]

theorem drop_shift (p q : List Nat) (i : Nat) :
    (p ++ q).drop (p.length + i) = q.drop i := by
  rw [← List.drop_drop, List.drop_left]

theorem rebase_fields (k : Nat) (pre : List Nat) (junk : ccn_decoder) (L : Loop) :
    (rebase k pre junk L).state = L.state ∧
    (rebase k pre junk L).tagstate = L.tagstate ∧
    (rebase k pre junk L).numval = L.numval ∧
    (rebase k pre junk L).i = k + L.i ∧
    (rebase k pre junk L).n = k + L.n ∧
    (rebase k pre junk L).out = pre ++ L.out ∧
    (rebase k pre junk L).d =
      { L.d with state := junk.state, tagstate := junk.tagstate, numval := junk.numval } :=
  ⟨rfl, rfl, rfl, rfl, rfl, rfl, rfl⟩

theorem dispatch_rebase (cfg : Config) (k : Nat) (pre : List Nat) (junk : ccn_decoder)
    (L : Loop) (c : Nat) :
    dispatch cfg (rebase k pre junk L) c = rebase k pre junk (dispatch cfg L c) := by
  obtain ⟨d, st, ts, nv, i, n, out⟩ := L
  obtain ⟨dst, dts, dbits, dnv, dbig, stack, ss⟩ := d
  simp only [rebase, dispatch, Loop.print, set_nameindex, ccn_decoder_push]
  split_ifs <;> simp only [List.append_assoc]

theorem case1_rebase (cfg : Config) (p q : List Nat) (pre : List Nat) (junk : ccn_decoder)
    (L : Loop) :
    case1 cfg (p ++ q) (rebase p.length pre junk L) =
      rebase p.length pre junk (case1 cfg q L) := by
  have hg := getD_shift p q L.i
  simp only [case1, rebase_fields, hg]
  split_ifs
  all_goals first
    | rfl
    | (rw [← dispatch_rebase]; rfl)
    | (rw [← dispatch_rebase]; congr 1; simp [rebase, Loop.print]; done)
    | (rw [← dispatch_rebase]; congr 1; simp [rebase, Loop.print]; omega)

theorem pop_junk (d : ccn_decoder) (s t : Int) (v : Nat) :
    ccn_decoder_pop { d with state := s, tagstate := t, numval := v } =
      { ccn_decoder_pop d with state := s, tagstate := t, numval := v } := by
  unfold ccn_decoder_pop
  cases h : d.stack <;> simp [h]

theorem set_itemcount_junk (d : ccn_decoder) (s t : Int) (v w : Nat) :
    set_itemcount { d with state := s, tagstate := t, numval := v } w =
      { set_itemcount d w with state := s, tagstate := t, numval := v } := by
  unfold set_itemcount
  cases h : d.stack <;> simp [h]

theorem case0_quote_rebase (k : Nat) (pre : List Nat) (junk : ccn_decoder) (L : Loop) :
    case0_quote (rebase k pre junk L) = rebase k pre junk (case0_quote L) := by
  simp only [case0_quote, rebase_fields, pop_junk]
  split_ifs
  all_goals first
    | rfl
    | simp [rebase, Loop.print]

theorem case0_close_rebase (k : Nat) (pre : List Nat) (junk : ccn_decoder) (L : Loop) :
    case0_close (rebase k pre junk L) = rebase k pre junk (case0_close L) := by
  obtain ⟨d, st, ts, nv, i, n, out⟩ := L
  obtain ⟨dst, dts, dbits, dnv, dbig, stack, ss⟩ := d
  cases stack with
  | nil => rfl
  | cons s rest =>
    simp only [case0_close, rebase, ccn_decoder_pop, Loop.print]
    split_ifs
    all_goals first
      | rfl
      | simp [Nat.add_assoc]

theorem case0_rebase (cfg : Config) (p q : List Nat) (pre : List Nat) (junk : ccn_decoder)
    (L : Loop) :
    case0 cfg (p ++ q) (rebase p.length pre junk L) =
      rebase p.length pre junk (case0 cfg q L) := by
  have hg : (p ++ q).getD (p.length + (case0_quote L).i) 0 = q.getD (case0_quote L).i 0 :=
    getD_shift p q _
  simp only [case0, case0_quote_rebase, rebase_fields, hg]
  split_ifs
  · exact case0_close_rebase _ _ _ _
  · rw [← case1_rebase]
    rfl

theorem case2_rebase (cfg : Config) (p q : List Nat) (pre : List Nat) (junk : ccn_decoder)
    (L : Loop) :
    case2 cfg (p ++ q) (rebase p.length pre junk L) =
      rebase p.length pre junk (case2 cfg q L) := by
  obtain ⟨d, st, ts, nv, i, n, out⟩ := L
  obtain ⟨dst, dts, dbits, dnv, dbig, stack, ss⟩ := d
  have hg := getD_shift p q i
  simp only [case2, rebase, Loop.print, hg]
  split_ifs
  all_goals first
    | rfl
    | simp [Nat.add_assoc]

theorem case3_rebase (cfg : Config) (p q : List Nat) (pre : List Nat) (junk : ccn_decoder)
    (L : Loop) :
    case3 cfg (p ++ q) (rebase p.length pre junk L) =
      rebase p.length pre junk (case3 cfg q L) := by
  obtain ⟨d, st, ts, nv, i, n, out⟩ := L
  obtain ⟨dst, dts, dbits, dnv, dbig, stack, ss⟩ := d
  have hg := getD_shift p q i
  simp only [case3, rebase, Loop.print, hg]
  split_ifs
  all_goals first
    | rfl
    | simp [Nat.add_assoc]

theorem case9_rebase (cfg : Config) (p q : List Nat) (pre : List Nat) (junk : ccn_decoder)
    (L : Loop) :
    case9 cfg (p ++ q) (rebase p.length pre junk L) =
      rebase p.length pre junk (case9 cfg q L) := by
  obtain ⟨d, st, ts, nv, i, n, out⟩ := L
  obtain ⟨dst, dts, dbits, dnv, dbig, stack, ss⟩ := d
  have hg := getD_shift p q i
  simp only [case9, rebase, Loop.print, hg]
  split_ifs
  all_goals first
    | rfl
    | simp [Nat.add_assoc]

theorem case10_rebase (cfg : Config) (p q : List Nat) (pre : List Nat) (junk : ccn_decoder)
    (L : Loop) :
    case10 cfg (p ++ q) (rebase p.length pre junk L) =
      rebase p.length pre junk (case10 cfg q L) := by
  obtain ⟨d, st, ts, nv, i, n, out⟩ := L
  obtain ⟨dst, dts, dbits, dnv, dbig, stack, ss⟩ := d
  have hg := getD_shift p q i
  simp only [case10, rebase, Loop.print, hg]
  split_ifs
  all_goals first
    | rfl
    | simp [Nat.add_assoc]

theorem case11_rebase (cfg : Config) (p q : List Nat) (pre : List Nat) (junk : ccn_decoder)
    (L : Loop) :
    case11 cfg (p ++ q) (rebase p.length pre junk L) =
      rebase p.length pre junk (case11 cfg q L) := by
  obtain ⟨d, st, ts, nv, i, n, out⟩ := L
  obtain ⟨dst, dts, dbits, dnv, dbig, stack, ss⟩ := d
  have hg := getD_shift p q i
  simp only [case11, rebase, Loop.print, hg]
  split_ifs
  all_goals first
    | rfl
    | simp [Nat.add_assoc]

theorem case12_rebase (cfg : Config) (p q : List Nat) (pre : List Nat) (junk : ccn_decoder)
    (L : Loop) :
    case12 cfg (p ++ q) (rebase p.length pre junk L) =
      rebase p.length pre junk (case12 cfg q L) := by
  obtain ⟨d, st, ts, nv, i, n, out⟩ := L
  obtain ⟨dst, dts, dbits, dnv, dbig, stack, ss⟩ := d
  have hg := getD_shift p q i
  simp only [case12, rebase, Loop.print, hg]
  split_ifs
  all_goals first
    | rfl
    | simp [Nat.add_assoc]

theorem name_done_rebase (k : Nat) (pre : List Nat) (junk : ccn_decoder) (L : Loop) :
    name_done (rebase k pre junk L) = rebase k pre junk (name_done L) := by
  obtain ⟨d, st, ts, nv, i, n, out⟩ := L
  obtain ⟨dst, dts, dbits, dnv, dbig, stack, ss⟩ := d
  cases stack with
  | nil => rfl
  | cons s rest =>
    simp only [name_done, rebase, set_itemcount, Loop.print, ccn_charbuf_append]
    split_ifs
    all_goals first
      | rfl
      | simp [Nat.add_assoc]

theorem case45_rebase (p q : List Nat) (pre : List Nat) (junk : ccn_decoder) (L : Loop) :
    case45 (p ++ q) (rebase p.length pre junk L) =
      rebase p.length pre junk (case45 q L) := by
  have hd := drop_shift p q L.i
  have hn : p.length + L.n - (p.length + L.i) = L.n - L.i := Nat.add_sub_add_left _ _ _
  simp only [case45, rebase_fields, hd, hn]
  split_ifs
  all_goals first
    | rfl
    | (rw [← name_done_rebase]; congr 1; simp [rebase, Nat.add_assoc])
    | simp [rebase, Nat.add_assoc]

/-- One pass of the loop on `p ++ q` behind `p` is the pass on `q`. -/
theorem body_rebase (cfg : Config) (p q : List Nat) (pre : List Nat) (junk : ccn_decoder)
    (L : Loop) :
    body cfg (p ++ q) (rebase p.length pre junk L) =
      rebase p.length pre junk (body cfg q L) := by
  simp only [body, (rebase_fields _ _ _ _).1]
  by_cases h0 : L.state = 0
  · rw [if_pos h0, if_pos h0]; exact case0_rebase cfg p q pre junk L
  rw [if_neg h0, if_neg h0]
  by_cases h1 : L.state = 1
  · rw [if_pos h1, if_pos h1]; exact case1_rebase cfg p q pre junk L
  rw [if_neg h1, if_neg h1]
  by_cases h2 : L.state = 2
  · rw [if_pos h2, if_pos h2]; exact case2_rebase cfg p q pre junk L
  rw [if_neg h2, if_neg h2]
  by_cases h3 : L.state = 3
  · rw [if_pos h3, if_pos h3]; exact case3_rebase cfg p q pre junk L
  rw [if_neg h3, if_neg h3]
  by_cases h4 : L.state = 4 ∨ L.state = 5
  · rw [if_pos h4, if_pos h4]; exact case45_rebase p q pre junk L
  rw [if_neg h4, if_neg h4]
  by_cases h9 : L.state = 9
  · rw [if_pos h9, if_pos h9]; exact case9_rebase cfg p q pre junk L
  rw [if_neg h9, if_neg h9]
  by_cases h10 : L.state = 10
  · rw [if_pos h10, if_pos h10]; exact case10_rebase cfg p q pre junk L
  rw [if_neg h10, if_neg h10]
  by_cases h11 : L.state = 11
  · rw [if_pos h11, if_pos h11]; exact case11_rebase cfg p q pre junk L
  rw [if_neg h11, if_neg h11]
  by_cases h12 : L.state = 12
  · rw [if_pos h12, if_pos h12]; exact case12_rebase cfg p q pre junk L
  rw [if_neg h12, if_neg h12]
  rfl

theorem rebase_lt (k : Nat) (pre : List Nat) (junk : ccn_decoder) (L : Loop) :
    (rebase k pre junk L).i < (rebase k pre junk L).n ↔ L.i < L.n := by
  simp [rebase]

/-- The loop on `p ++ q` behind `p` is the loop on `q`. -/
theorem run_rebase (cfg : Config) (p q : List Nat) (pre : List Nat) (junk : ccn_decoder) :
    ∀ (m : Nat) (L : Loop), mu L ≤ m →
      run cfg (p ++ q) (rebase p.length pre junk L) =
        rebase p.length pre junk (run cfg q L) := by
  intro m
  induction m with
  | zero =>
    intro L hm
    have hh : ¬ L.i < L.n := by
      intro hlt
      unfold mu at hm
      omega
    rw [run_halted cfg q L hh,
      run_halted cfg (p ++ q) _ (fun h => hh ((rebase_lt _ _ _ _).mp h))]
  | succ m ih =>
    intro L hm
    by_cases hlt : L.i < L.n
    · rw [run_step cfg q L hlt,
        run_step cfg (p ++ q) _ ((rebase_lt _ _ _ _).mpr hlt), body_rebase]
      exact ih _ (by have := body_mu cfg q L hlt; omega)
    · rw [run_halted cfg q L hlt,
        run_halted cfg (p ++ q) _ (fun h => hlt ((rebase_lt _ _ _ _).mp h))]

/-! ## A call on `p` seen as the start of a call on `p ++ q` -/

theorem getD_left (p q : List Nat) (i : Nat) (h : i < p.length) :
    (p ++ q).getD i 0 = p.getD i 0 := by
  simp [List.getD_eq_getElem?_getD, List.getElem?_append_left h]

theorem widen_fields (L : Loop) (m : Nat) :
    (widen L m).state = L.state ∧ (widen L m).tagstate = L.tagstate ∧
    (widen L m).numval = L.numval ∧ (widen L m).i = L.i ∧ (widen L m).n = m ∧
    (widen L m).out = L.out ∧ (widen L m).d = L.d :=
  ⟨rfl, rfl, rfl, rfl, rfl, rfl, rfl⟩

theorem dispatch_widen (cfg : Config) (L : Loop) (m c : Nat) :
    dispatch cfg (widen L m) c = widen (dispatch cfg L c) m := by
  simp only [dispatch, widen_fields]
  split_ifs
  all_goals rfl

theorem case1_widen (cfg : Config) (p q : List Nat) (L : Loop) (m : Nat)
    (hi : L.i < p.length) :
    case1 cfg (p ++ q) (widen L m) = widen (case1 cfg p L) m := by
  have hg := getD_left p q L.i hi
  simp only [case1, widen_fields, hg]
  split_ifs
  all_goals first
    | rfl
    | (rw [← dispatch_widen]; rfl)

theorem case0_quote_widen (L : Loop) (m : Nat) :
    case0_quote (widen L m) = widen (case0_quote L) m := by
  simp only [case0_quote, widen_fields]
  split_ifs
  all_goals rfl

theorem case0_close_widen (L : Loop) (m : Nat) :
    case0_close (widen L m) = widen (case0_close L) m := by
  obtain ⟨d, st, ts, nv, i, n, out⟩ := L
  obtain ⟨dst, dts, dbits, dnv, dbig, stack, ss⟩ := d
  cases stack with
  | nil => rfl
  | cons s rest =>
    simp only [case0_close, widen, ccn_decoder_pop, Loop.print]
    split_ifs
    all_goals rfl

theorem case0_widen (cfg : Config) (p q : List Nat) (L : Loop) (m : Nat)
    (hi : L.i < p.length) :
    case0 cfg (p ++ q) (widen L m) = widen (case0 cfg p L) m := by
  have hqi := (case0_quote_i L).1
  have hg : (p ++ q).getD (case0_quote L).i 0 = p.getD (case0_quote L).i 0 :=
    getD_left p q _ (by rw [hqi]; exact hi)
  simp only [case0, case0_quote_widen, widen_fields, hg]
  split_ifs
  · exact case0_close_widen _ _
  · rw [← case1_widen cfg p q _ m (by show (case0_quote L).i < _; rw [hqi]; exact hi)]
    rfl

theorem case2_widen (cfg : Config) (p q : List Nat) (L : Loop) (m : Nat)
    (hi : L.i < p.length) :
    case2 cfg (p ++ q) (widen L m) = widen (case2 cfg p L) m := by
  obtain ⟨d, st, ts, nv, i, n, out⟩ := L
  obtain ⟨dst, dts, dbits, dnv, dbig, stack, ss⟩ := d
  have hg := getD_left p q i hi
  simp only [case2, widen, Loop.print, hg]

theorem case3_widen (cfg : Config) (p q : List Nat) (L : Loop) (m : Nat)
    (hi : L.i < p.length) :
    case3 cfg (p ++ q) (widen L m) = widen (case3 cfg p L) m := by
  obtain ⟨d, st, ts, nv, i, n, out⟩ := L
  obtain ⟨dst, dts, dbits, dnv, dbig, stack, ss⟩ := d
  have hg := getD_left p q i hi
  simp only [case3, widen, Loop.print, hg]
  all_goals (split_ifs <;> rfl)

theorem case9_widen (cfg : Config) (p q : List Nat) (L : Loop) (m : Nat)
    (hi : L.i < p.length) :
    case9 cfg (p ++ q) (widen L m) = widen (case9 cfg p L) m := by
  obtain ⟨d, st, ts, nv, i, n, out⟩ := L
  obtain ⟨dst, dts, dbits, dnv, dbig, stack, ss⟩ := d
  have hg := getD_left p q i hi
  simp only [case9, widen, Loop.print, hg]
  all_goals (split_ifs <;> rfl)

theorem case10_widen (cfg : Config) (p q : List Nat) (L : Loop) (m : Nat)
    (hi : L.i < p.length) :
    case10 cfg (p ++ q) (widen L m) = widen (case10 cfg p L) m := by
  obtain ⟨d, st, ts, nv, i, n, out⟩ := L
  obtain ⟨dst, dts, dbits, dnv, dbig, stack, ss⟩ := d
  have hg := getD_left p q i hi
  simp only [case10, widen, Loop.print, hg]
  all_goals (split_ifs <;> rfl)

theorem case11_widen (cfg : Config) (p q : List Nat) (L : Loop) (m : Nat)
    (hi : L.i < p.length) :
    case11 cfg (p ++ q) (widen L m) = widen (case11 cfg p L) m := by
  obtain ⟨d, st, ts, nv, i, n, out⟩ := L
  obtain ⟨dst, dts, dbits, dnv, dbig, stack, ss⟩ := d
  have hg := getD_left p q i hi
  simp only [case11, widen, Loop.print, hg]
  all_goals (split_ifs <;> rfl)

theorem case12_widen (cfg : Config) (p q : List Nat) (L : Loop) (m : Nat)
    (hi : L.i < p.length) :
    case12 cfg (p ++ q) (widen L m) = widen (case12 cfg p L) m := by
  obtain ⟨d, st, ts, nv, i, n, out⟩ := L
  obtain ⟨dst, dts, dbits, dnv, dbig, stack, ss⟩ := d
  have hg := getD_left p q i hi
  simp only [case12, widen, Loop.print, hg]

theorem name_done_widen (L : Loop) (m : Nat) :
    name_done (widen L m) = widen (name_done L) m := by
  obtain ⟨d, st, ts, nv, i, n, out⟩ := L
  obtain ⟨dst, dts, dbits, dnv, dbig, stack, ss⟩ := d
  cases stack with
  | nil => rfl
  | cons s rest =>
    simp only [name_done, widen, set_itemcount, Loop.print, ccn_charbuf_append]
    split_ifs
    all_goals rfl

theorem take_drop_left (p q : List Nat) (i c : Nat) (h : i + c ≤ p.length) :
    ((p ++ q).drop i).take c = (p.drop i).take c := by
  rw [List.drop_append_of_le_length (by omega), List.take_append_of_le_length (by simp; omega)]

/-- The name-copy pass when the rest of the name lies in `p`. -/
theorem case45_widen (p q : List Nat) (L : Loop) (hn : L.n = p.length)
    (hi : L.i < p.length) (hv : L.numval ≤ p.length - L.i) :
    case45 (p ++ q) (widen L (p ++ q).length) = widen (case45 p L) (p ++ q).length := by
  have hc1 : (if (p ++ q).length - L.i > L.numval then L.numval else (p ++ q).length - L.i)
      = L.numval := by
    split
    · rfl
    · simp at *; omega
  have hc2 : (if L.n - L.i > L.numval then L.numval else L.n - L.i) = L.numval := by
    split
    · rfl
    · omega
  have ht := take_drop_left p q L.i L.numval (by omega)
  simp only [case45, widen_fields, hc1, hc2, ht]
  split_ifs
  all_goals first
    | rfl
    | (rw [← name_done_widen]; rfl)

/-- A pass of the loop on `p` is the pass of the loop on `p ++ q`, unless
the state has no case or a name goes on behind `p`. -/
theorem body_widen (cfg : Config) (p q : List Nat) (L : Loop) (hn : L.n = p.length)
    (hi : L.i < p.length) (hl : live_state L.state)
    (hv : L.state = 4 ∨ L.state = 5 → L.numval ≤ p.length - L.i) :
    body cfg (p ++ q) (widen L (p ++ q).length) = widen (body cfg p L) (p ++ q).length := by
  simp only [body, (widen_fields _ _).1]
  by_cases h0 : L.state = 0
  · rw [if_pos h0, if_pos h0]; exact case0_widen cfg p q L _ hi
  rw [if_neg h0, if_neg h0]
  by_cases h1 : L.state = 1
  · rw [if_pos h1, if_pos h1]; exact case1_widen cfg p q L _ hi
  rw [if_neg h1, if_neg h1]
  by_cases h2 : L.state = 2
  · rw [if_pos h2, if_pos h2]; exact case2_widen cfg p q L _ hi
  rw [if_neg h2, if_neg h2]
  by_cases h3 : L.state = 3
  · rw [if_pos h3, if_pos h3]; exact case3_widen cfg p q L _ hi
  rw [if_neg h3, if_neg h3]
  by_cases h4 : L.state = 4 ∨ L.state = 5
  · rw [if_pos h4, if_pos h4]; exact case45_widen p q L hn hi (hv h4)
  rw [if_neg h4, if_neg h4]
  by_cases h9 : L.state = 9
  · rw [if_pos h9, if_pos h9]; exact case9_widen cfg p q L _ hi
  rw [if_neg h9, if_neg h9]
  by_cases h10 : L.state = 10
  · rw [if_pos h10, if_pos h10]; exact case10_widen cfg p q L _ hi
  rw [if_neg h10, if_neg h10]
  by_cases h11 : L.state = 11
  · rw [if_pos h11, if_pos h11]; exact case11_widen cfg p q L _ hi
  rw [if_neg h11, if_neg h11]
  by_cases h12 : L.state = 12
  · rw [if_pos h12, if_pos h12]; exact case12_widen cfg p q L _ hi
  exfalso
  unfold live_state at hl
  omega

/-! ## A name that goes on behind the end of `p` -/

theorem body_state45 (cfg : Config) (p : List Nat) (L : Loop)
    (hs : L.state = 4 ∨ L.state = 5) : body cfg p L = case45 p L := by
  unfold body
  rw [if_neg (by omega), if_neg (by omega), if_neg (by omega), if_neg (by omega), if_pos hs]

/-- The name-copy pass that takes all that is left of `p` and does not end
the name. -/
theorem case45_to_end (p : List Nat) (L : Loop) (hn : L.n = p.length)
    (hi : L.i < p.length) (hv : p.length - L.i < L.numval) :
    case45 p L =
      { L with
          d := { L.d with stringstack := L.d.stringstack ++ p.drop L.i }
          numval := L.numval - (p.length - L.i)
          i := p.length } := by
  have hc : (if L.n - L.i > L.numval then L.numval else L.n - L.i) = p.length - L.i := by
    rw [hn, if_neg (by omega)]
  have ht : (p.drop L.i).take (p.length - L.i) = p.drop L.i :=
    List.take_of_length_le (by simp)
  have hi2 : L.i + (p.length - L.i) = p.length := by omega
  simp only [case45, hc, ccn_charbuf_append, ht, hi2]
  rw [if_neg (by omega), if_neg (by omega)]

theorem take_drop_straddle (p q : List Nat) (i c : Nat) (hi : i ≤ p.length) :
    ((p ++ q).drop i).take (p.length - i + c) = p.drop i ++ q.take c := by
  rw [List.drop_append_of_le_length hi, List.take_append_eq_append_take]
  simp

/-- Two name-copy passes, one to the end of `p` and one in `q`, do what one
pass on `p ++ q` does. -/
theorem case45_straddle (p q : List Nat) (L : Loop) (hn : L.n = p.length)
    (hi : L.i < p.length) (hv : p.length - L.i < L.numval) (hq : q ≠ []) :
    case45 (p ++ q) (widen (case45 p L) (p ++ q).length) =
      case45 (p ++ q) (widen L (p ++ q).length) := by
  have hql : 0 < q.length := List.length_pos.mpr hq
  rw [case45_to_end p L hn hi hv]
  obtain ⟨d, st, ts, nv, i, n, out⟩ := L
  obtain ⟨dst, dts, dbits, dnv, dbig, stack, ss⟩ := d
  simp only at hn hi hv
  subst hn
  by_cases hbig : q.length > nv - (p.length - i)
  · have c1 : (if (p ++ q).length - p.length > nv - (p.length - i)
        then nv - (p.length - i) else (p ++ q).length - p.length) = nv - (p.length - i) := by
      rw [if_pos (by simp; omega)]
    have c2 : (if (p ++ q).length - i > nv then nv else (p ++ q).length - i) = nv := by
      rw [if_pos (by simp; omega)]
    have t2 : ((p ++ q).drop i).take nv = p.drop i ++ q.take (nv - (p.length - i)) := by
      have := take_drop_straddle p q i (nv - (p.length - i)) (by omega)
      rw [← this]
      congr 1
      omega
    have t1 : ((p ++ q).drop p.length).take (nv - (p.length - i))
        = q.take (nv - (p.length - i)) := by
      rw [List.drop_left]
    simp only [case45, widen, c1, c2, t1, t2, ccn_charbuf_append, List.append_assoc]
    have e1 : nv - (p.length - i) - (nv - (p.length - i)) = 0 := by omega
    have e2 : nv - nv = 0 := by omega
    have e3 : p.length + (nv - (p.length - i)) = i + nv := by omega
    simp only [e1, e2, e3]
    split_ifs
    all_goals first
      | omega
      | rfl
  · have c1 : (if (p ++ q).length - p.length > nv - (p.length - i)
        then nv - (p.length - i) else (p ++ q).length - p.length) = q.length := by
      rw [if_neg (by simp; omega)]
      simp
    have c2 : (if (p ++ q).length - i > nv then nv else (p ++ q).length - i)
        = p.length - i + q.length := by
      rw [if_neg (by simp; omega)]
      simp
      omega
    have t2 : ((p ++ q).drop i).take (p.length - i + q.length) = p.drop i ++ q := by
      rw [take_drop_straddle p q i q.length (by omega), List.take_of_length_le (le_refl _)]
    have t1 : ((p ++ q).drop p.length).take q.length = q := by
      rw [List.drop_left, List.take_of_length_le (le_refl _)]
    simp only [case45, widen, c1, c2, t1, t2, ccn_charbuf_append, List.append_assoc]
    have e1 : nv - (p.length - i) - q.length = nv - (p.length - i + q.length) := by omega
    have e3 : i + (p.length - i + q.length) = p.length + q.length := by omega
    simp only [e1, e3]
    split_ifs
    all_goals first
      | omega
      | rfl

/-- The loop on `p ++ q` comes to where the loop on `p` ends. -/
theorem run_widen (cfg : Config) (p q : List Nat) (hq : q ≠ []) :
    ∀ (m : Nat) (L : Loop), mu L ≤ m → L.n = p.length →
      run cfg (p ++ q) (widen (run cfg p L) (p ++ q).length) =
        run cfg (p ++ q) (widen L (p ++ q).length) := by
  have hql : 0 < q.length := List.length_pos.mpr hq
  intro m
  induction m with
  | zero =>
    intro L hm _
    have hh : ¬ L.i < L.n := by
      intro hlt
      unfold mu at hm
      omega
    rw [run_halted cfg p L hh]
  | succ m ih =>
    intro L hm hn
    by_cases hlt : L.i < L.n
    · have hb := body_bounds cfg p L hlt
      have hmu := body_mu cfg p L hlt
      have hw : (widen L (p ++ q).length).i < (widen L (p ++ q).length).n := by
        show L.i < (p ++ q).length
        simp
        omega
      rw [run_step cfg p L hlt]
      by_cases hl : live_state L.state
      · by_cases hv : (L.state = 4 ∨ L.state = 5) ∧ p.length - L.i < L.numval
        · have e1 : body cfg p L = case45 p L := body_state45 cfg p L hv.1
          have e2 := case45_to_end p L hn (by omega) hv.2
          have hh : ¬ (body cfg p L).i < (body cfg p L).n := by
            rw [e1, e2]
            show ¬ p.length < L.n
            omega
          have hs2 : (widen (body cfg p L) (p ++ q).length).state = 4 ∨
              (widen (body cfg p L) (p ++ q).length).state = 5 := by
            rw [e1, e2]; exact hv.1
          have hw2 : (widen (body cfg p L) (p ++ q).length).i
              < (widen (body cfg p L) (p ++ q).length).n := by
            rw [e1, e2]
            show p.length < (p ++ q).length
            simp
            omega
          rw [run_halted cfg p _ hh, run_step cfg (p ++ q) _ hw2,
            run_step cfg (p ++ q) _ hw, body_state45 cfg (p ++ q) _ hs2,
            body_state45 cfg (p ++ q) (widen L (p ++ q).length) hv.1, e1,
            case45_straddle p q L hn (by omega) hv.2 hq]
        · rw [ih (body cfg p L) (by omega) (by rw [(hb.1 hl).1]; exact hn),
            run_step cfg (p ++ q) _ hw,
            body_widen cfg p q L hn (by omega) hl (fun h45 => by
              by_contra hc
              exact hv ⟨h45, by omega⟩)]
      · rw [hb.2 hl, run_halted cfg p _ (by simp)]
        rfl
    · rw [run_halted cfg p L hlt]

/-- A call on a decoder whose state has no case returns at once. -/
theorem decode_not_live (cfg : Config) (d : ccn_decoder) (p : List Nat)
    (h : ¬ live_state d.state) :
    ccn_decoder_decode cfg d p = { d := { d with tagstate := 0 }, ret := 0, out := [] } := by
  rw [decode_eq_run]
  by_cases hp : (enter d p).i < (enter d p).n
  · rw [run_step cfg p _ hp, body_default cfg p _ h, run_halted cfg p _ (by simp)]
    rfl
  · rw [run_halted cfg p _ hp]
    rfl

/-! ## Two calls and one call -/

theorem leave_rebase (k : Nat) (pre : List Nat) (junk : ccn_decoder) (L : Loop) :
    leave (rebase k pre junk L) =
      { d := (leave L).d, ret := k + (leave L).ret, out := pre ++ (leave L).out } := rfl

theorem decode_nil (cfg : Config) (d : ccn_decoder) :
    ccn_decoder_decode cfg d [] = { d := { d with tagstate := 0 }, ret := 0, out := [] } := by
  rw [decode_eq_run, run_halted cfg [] _ (by simp [enter])]
  rfl

/-- A chunk given in two calls, the first of which ends with `tagstate`
at 0, is decoded as in one call. -/
theorem decode_resume (cfg : Config) (d : ccn_decoder) (p q : List Nat)
    (h : (ccn_decoder_decode cfg d p).d.tagstate = 0) :
    decode_split cfg d (p ++ q) p.length = ccn_decoder_decode cfg d (p ++ q) := by
  have htake : (p ++ q).take p.length = p := List.take_left' rfl
  have hdrop : (p ++ q).drop p.length = q := List.drop_left' rfl
  unfold decode_split
  simp only [htake, hdrop]
  by_cases hq : q = []
  · subst hq
    have key : ∀ r : Result, r.d.tagstate = 0 →
        ({ d := { r.d with tagstate := 0 }, ret := r.ret + 0, out := r.out } : Result)
          = r := by
      intro r hr
      obtain ⟨rd, rret, rout⟩ := r
      obtain ⟨a1, a2, a3, a4, a5, a6, a7⟩ := rd
      simp only at hr
      subst hr
      simp
    rw [decode_nil, List.append_nil p]
    simp only [List.append_nil]
    exact key _ h
  by_cases hl : live_state d.state
  · rw [decode_eq_run cfg d p] at h ⊢
    rw [decode_eq_run cfg d (p ++ q)]
    have hcount : count_ok p.length (run cfg p (enter d p)) :=
      loop_count cfg p p.length _ (enter d p)
        ⟨valid_of_live hl, Nat.zero_le _, Or.inl rfl⟩
    have hdone := run_done cfg p (enter d p)
    have hw : enter d (p ++ q) = widen (enter d p) (p ++ q).length := rfl
    rw [hw, ← run_widen cfg p q hq _ (enter d p) (le_refl _) rfl]
    generalize run cfg p (enter d p) = A at h hcount hdone ⊢
    have ht : A.tagstate = 0 := h
    obtain ⟨hv, hile, hn⟩ := hcount
    by_cases he : A.state < 0
    · rw [leave_run_error cfg (p ++ q) (widen A (p ++ q).length) he,
        decode_error cfg (leave A).d q he]
      obtain ⟨Ad, Ast, Ats, Anv, Ai, An, Aout⟩ := A
      simp only at ht
      subst ht
      simp [leave, widen]
    · have hn2 : A.n = p.length := by
        rcases hn with hn | hn
        · exact hn
        · exact absurd hn.1 he
      have hi2 : A.i = p.length := by omega
      have hre : widen A (p ++ q).length =
          rebase p.length A.out A.d (enter (leave A).d q) := by
        obtain ⟨Ad, Ast, Ats, Anv, Ai, An, Aout⟩ := A
        obtain ⟨a1, a2, a3, a4, a5, a6, a7⟩ := Ad
        simp only at ht hi2
        subst ht hi2
        simp [widen, rebase, enter, leave]
      rw [hre, run_rebase cfg p q A.out A.d _ _ (le_refl _), leave_rebase,
        decode_eq_run cfg (leave A).d q]
      simp [leave, hi2]
  · rw [decode_not_live cfg d p hl, decode_not_live cfg d (p ++ q) hl]
    simp only []
    rw [decode_not_live cfg { d with tagstate := 0 } q hl]
    simp

/-- C23: when the call on `p` ends with the local `tagstate` at 0 (the
value the call stores in the decoder), the call on `p` followed by the call
on `q` writes the same output, consumes the same number of bytes in all and
leaves the same decoder (state, `numval`, `bignumval`, `bits`, stack and
string stack) as the one call on `p ++ q`, whatever the decoder and wherever
the chunk is cut: inside a header, a name, a text or a blob. -/
theorem conditional_resumability (cfg : Config) (d : ccn_decoder) (p q : List Nat)
    (h : (ccn_decoder_decode cfg d p).d.tagstate = 0) :
    decode_split cfg d (p ++ q) p.length = ccn_decoder_decode cfg d (p ++ q) ∧
    (ccn_decoder_decode cfg d p).out ++
        (ccn_decoder_decode cfg (ccn_decoder_decode cfg d p).d q).out
      = (ccn_decoder_decode cfg d (p ++ q)).out ∧
    (ccn_decoder_decode cfg d p).ret +
        (ccn_decoder_decode cfg (ccn_decoder_decode cfg d p).d q).ret
      = (ccn_decoder_decode cfg d (p ++ q)).ret ∧
    (ccn_decoder_decode cfg (ccn_decoder_decode cfg d p).d q).d
      = (ccn_decoder_decode cfg d (p ++ q)).d := by
  have hr := decode_resume cfg d p q h
  have htake : (p ++ q).take p.length = p := List.take_left' rfl
  have hdrop : (p ++ q).drop p.length = q := List.drop_left' rfl
  refine ⟨hr, ?_, ?_, ?_⟩
  · rw [← hr]
    unfold decode_split
    simp only [htake, hdrop]
  · rw [← hr]
    unfold decode_split
    simp only [htake, hdrop]
  · rw [← hr]
    unfold decode_split
    simp only [htake, hdrop]

theorem conditional_resumability_witness :
    decode_split cfg64 ccn_decoder_create ([0x81] ++ [0x25, 0]) 1
      = ccn_decoder_decode cfg64 ccn_decoder_create ([0x81] ++ [0x25, 0]) ∧
    decode_split cfg64 ccn_decoder_create ([0x21, 70] ++ [111, 111, 0]) 2
      = ccn_decoder_decode cfg64 ccn_decoder_create ([0x21, 70] ++ [111, 111, 0]) ∧
    decode_split cfg64 ccn_decoder_create ([0x01, 97, 0x24, 88] ++ [89, 0]) 4
      = ccn_decoder_decode cfg64 ccn_decoder_create ([0x01, 97, 0x24, 88] ++ [89, 0]) ∧
    decode_split cfg64 ccn_decoder_create ([0x01, 97, 0x43, 1, 0x23] ++ [0x45, 0x67, 0]) 5
      = ccn_decoder_decode cfg64 ccn_decoder_create
          ([0x01, 97, 0x43, 1, 0x23] ++ [0x45, 0x67, 0]) :=
  ⟨(conditional_resumability cfg64 ccn_decoder_create [0x81] [0x25, 0] (by decide)).1,
   (conditional_resumability cfg64 ccn_decoder_create [0x21, 70] [111, 111, 0]
      (by decide)).1,
   (conditional_resumability cfg64 ccn_decoder_create [0x01, 97, 0x24, 88] [89, 0]
      (by decide)).1,
   (conditional_resumability cfg64 ccn_decoder_create [0x01, 97, 0x43, 1, 0x23]
      [0x45, 0x67, 0] (by decide)).1⟩

end CcnCoding
